import Mathlib

/-!
# Jalali to Gregorian converter (`src/jalali-converter.js`)

Two shallow embeddings of the converter module.

The first is exact.  A finite number is a rational and the non-finite numbers
are separate constructors; integer arithmetic of the conversion stage is
carried out in `Int`, with `Math.floor(a / b)` rendered as flooring division
(`Int.fdiv`) and the `%` operator as the truncating remainder (`Int.tmod`),
whose sign follows the dividend; strings are lists of characters.  It is the
code's behaviour as long as no arithmetic result leaves the integers of
magnitude below `2 ^ 53` and no text holds a character outside the basic plane.

The second, in the namespace `IEEE`, has JavaScript's own data: every arithmetic
result is rounded to the nearest double, with overflow to the infinities and
`NaN`, a string is a sequence of UTF-16 code units, and a number is printed by
`Number::toString`.  Statements that reach beyond the range of the first
embedding are made on the second.
-/

namespace JalaliDateConverter

/-! ## Values -/

/-- A JavaScript number: a finite value, `NaN`, or one of the two infinities. -/
inductive JsNumber where
  | finite (q : Rat)
  | nan
  | posInf
  | negInf
  deriving DecidableEq, Repr

/-- The primitive values that reach the validator. -/
inductive JsValue where
  | undefined
  | null
  | boolean (b : Bool)
  | number (x : JsNumber)
  | string (s : List Char)
  deriving DecidableEq, Repr

/-- The errors thrown by the module, with their messages. -/
inductive JsError where
  | typeError (msg : String)
  | rangeError (msg : String)
  | error (msg : String)
  deriving DecidableEq, Repr

/-- The instant `Date.UTC(year, monthIndex, day)`, kept as the arguments that determine it. -/
structure JsDate where
  year : Int
  monthIndex : Int
  day : Int
  deriving DecidableEq, Repr

/-- The object returned by `jalaliToGregorian`. -/
structure GregorianResult where
  gy : Int
  gm : Int
  gd : Int
  date : JsDate
  deriving DecidableEq, Repr

/-- The object returned by `normalizeInputs`. -/
structure JalaliDate where
  year : Int
  month : Int
  day : Int
  deriving DecidableEq, Repr

/-- An integer as a JavaScript number value. -/
def JsValue.ofInt (n : Int) : JsValue := JsValue.number (JsNumber.finite n)

/-! ## Arithmetic primitives -/

/-- The expression `Math.floor(a / b)` on integers. -/
def floorDiv (a b : Int) : Int := Int.fdiv a b

/-- The operator `a % b` on integers: the remainder takes the sign of `a`. -/
def jsMod (a b : Int) : Int := Int.tmod a b

/-- The predicate `Number.isInteger`. -/
def JsNumber.isInteger : JsNumber → Bool
  | JsNumber.finite q => q.den == 1
  | _ => false

/-- The integer value of a number that passed `Number.isInteger`. -/
def JsNumber.toInt : JsNumber → Int
  | JsNumber.finite q => q.num
  | _ => 0

/-! ## Coercion to number (`Number(value)`) -/

/-- White space and line terminators, the characters that `String.prototype.trim`
and the string-to-number conversion strip. -/
def isJsWhiteSpace (c : Char) : Bool :=
  let n := c.toNat
  n == 0x09 || n == 0x0A || n == 0x0B || n == 0x0C || n == 0x0D || n == 0x20 ||
  n == 0xA0 || n == 0x1680 || (0x2000 ≤ n && n ≤ 0x200A) || n == 0x2028 ||
  n == 0x2029 || n == 0x202F || n == 0x205F || n == 0x3000 || n == 0xFEFF

/-- The method `String.prototype.trim`. -/
def jsTrim (s : List Char) : List Char :=
  ((s.dropWhile isJsWhiteSpace).reverse.dropWhile isJsWhiteSpace).reverse

/-- The value of a digit character in the given base, if it is one. -/
def digitOf (base : Nat) (c : Char) : Option Nat :=
  let n := c.toNat
  let v :=
    if 48 ≤ n ∧ n ≤ 57 then some (n - 48)
    else if 97 ≤ n ∧ n ≤ 122 then some (n - 87)
    else if 65 ≤ n ∧ n ≤ 90 then some (n - 55)
    else none
  match v with
  | some d => if d < base then some d else none
  | none => none

/-- Reads digits left to right onto an accumulator; fails on a non-digit. -/
def digitsFrom (base : Nat) : Nat → List Char → Option Nat
  | acc, [] => some acc
  | acc, c :: cs =>
    match digitOf base c with
    | some d => digitsFrom base (acc * base + d) cs
    | none => none

/-- The value of a non-empty run of digits in the given base. -/
def digitsValue (base : Nat) (cs : List Char) : Option Nat :=
  if cs = [] then none else digitsFrom base 0 cs

/-- The exponent part of a decimal literal, the text after `e` or `E`. -/
def parseExponent : List Char → Option Int
  | '+' :: ds => (digitsValue 10 ds).map Int.ofNat
  | '-' :: ds => (digitsValue 10 ds).map fun n => - Int.ofNat n
  | ds => (digitsValue 10 ds).map Int.ofNat

/-- The mantissa of a decimal literal: digits with an optional fraction. -/
def parseMantissa (cs : List Char) : Option Rat :=
  match cs.span (fun c => c != '.') with
  | (ip, []) => (digitsValue 10 ip).map fun n => (n : Rat)
  | (ip, _ :: fp) =>
    if ip = [] then
      (digitsValue 10 fp).map fun n => (n : Rat) / (10 : Rat) ^ fp.length
    else if fp = [] then
      (digitsValue 10 ip).map fun n => (n : Rat)
    else
      match digitsValue 10 ip, digitsValue 10 fp with
      | some a, some b => some ((a : Rat) + (b : Rat) / (10 : Rat) ^ fp.length)
      | _, _ => none

/-- An unsigned decimal literal: `Infinity`, or a mantissa with an optional exponent. -/
def parseUnsignedDecimal (cs : List Char) : Option JsNumber :=
  if cs = "Infinity".toList then some JsNumber.posInf
  else
    match cs.span (fun c => c != 'e' && c != 'E') with
    | (mant, []) => (parseMantissa mant).map JsNumber.finite
    | (mant, _ :: ex) =>
      match parseMantissa mant, parseExponent ex with
      | some m, some e =>
        some (JsNumber.finite
          (if 0 ≤ e then m * (10 : Rat) ^ e.toNat else m / (10 : Rat) ^ (-e).toNat))
      | _, _ => none

/-- Negation of a number. -/
def JsNumber.neg : JsNumber → JsNumber
  | JsNumber.finite q => JsNumber.finite (-q)
  | JsNumber.nan => JsNumber.nan
  | JsNumber.posInf => JsNumber.negInf
  | JsNumber.negInf => JsNumber.posInf

/-- The numeric value of a trimmed, non-empty string: a binary, octal or
hexadecimal integer literal, or a signed decimal literal; `NaN` when the text is
none of these.  The value is exact (no rounding to double precision). -/
def parseNumericLiteral : List Char → JsNumber
  | '0' :: 'x' :: ds | '0' :: 'X' :: ds =>
    match digitsValue 16 ds with
    | some n => JsNumber.finite n
    | none => JsNumber.nan
  | '0' :: 'o' :: ds | '0' :: 'O' :: ds =>
    match digitsValue 8 ds with
    | some n => JsNumber.finite n
    | none => JsNumber.nan
  | '0' :: 'b' :: ds | '0' :: 'B' :: ds =>
    match digitsValue 2 ds with
    | some n => JsNumber.finite n
    | none => JsNumber.nan
  | '+' :: cs => (parseUnsignedDecimal cs).getD JsNumber.nan
  | '-' :: cs => ((parseUnsignedDecimal cs).map JsNumber.neg).getD JsNumber.nan
  | cs => (parseUnsignedDecimal cs).getD JsNumber.nan

/-- The conversion of a string to a number: white space is stripped, the empty
string is `0`.  The value is that of the literal, exactly; `Number` rounds it to
the nearest double, which is what `IEEE.stringToNumber` adds. -/
def stringToNumber (s : List Char) : JsNumber :=
  let t := jsTrim s
  if t = [] then JsNumber.finite 0 else parseNumericLiteral t

/-- The call `Number(value)`. -/
def toNumber : JsValue → JsNumber
  | JsValue.undefined => JsNumber.nan
  | JsValue.null => JsNumber.finite 0
  | JsValue.boolean b => JsNumber.finite (if b then 1 else 0)
  | JsValue.number x => x
  | JsValue.string s => stringToNumber s

/-! ## The module -/

/-- The table `GREGORIAN_MONTH_LENGTHS`. -/
def GREGORIAN_MONTH_LENGTHS : List Int :=
  [31, 28, 31, 30, 31, 30, 31, 31, 30, 31, 30, 31]

/-- The function `isLeapGregorian`. -/
def isLeapGregorian (year : Int) : Bool :=
  (jsMod year 4 == 0 && jsMod year 100 != 0) || jsMod year 400 == 0

/-- The function `normalizeInputs`: coerce, then check integrality, year, month and day. -/
def normalizeInputs (jy jm jd : JsValue) : Except JsError JalaliDate :=
  let year := toNumber jy
  let month := toNumber jm
  let day := toNumber jd
  if !year.isInteger || !month.isInteger || !day.isInteger then
    Except.error (JsError.typeError "jy, jm and jd must be integers")
  else
    let year := year.toInt
    let month := month.toInt
    let day := day.toInt
    if year < 1 then
      Except.error (JsError.rangeError "jy must be a positive Jalali year")
    else if month < 1 ∨ month > 12 then
      Except.error (JsError.rangeError "jm must be between 1 and 12")
    else
      let maxDay : Int := if month ≤ 6 then 31 else if month ≤ 11 then 30 else 29
      if day < 1 ∨ day > maxDay then
        Except.error (JsError.rangeError "jd is out of range for the provided month")
      else
        Except.ok { year := year, month := month, day := day }

/-- The initial value of `days` (source lines 55-62): the day count of the
validated date relative to the reference point, in exact integers.  The code's
doubles give the same value while every term stays below `2 ^ 53`, which holds for
years up to `2 ^ 44`; `IEEE.dayCount` is the rounded computation. -/
def dayCount (year month day : Int) : Int :=
  let jalaliYear := year - 979
  365 * jalaliYear +
    floorDiv jalaliYear 33 * 8 +
    floorDiv (jsMod jalaliYear 33 + 3) 4 +
    (if month < 7 then (month - 1) * 31 else (month - 7) * 30 + 186) +
    day - 1

/-- The year reduction (source lines 64-81): from the day count to the pair
`(gy, days)` that enters the month loop, in exact integers; `IEEE.reduceYears` is
the computation on doubles, which alone has the `NaN` and infinite paths. -/
def reduceYears (days0 : Int) : Int × Int :=
  let gy := 1600 + 400 * floorDiv days0 146097
  let days := jsMod days0 146097
  let (gy, days) :=
    if days ≥ 36525 then
      let days := days - 1
      let gy := gy + 100 * floorDiv days 36524
      let days := jsMod days 36524
      let days := if days ≥ 365 then days + 1 else days
      (gy, days)
    else (gy, days)
  let gy := gy + 4 * floorDiv days 1461
  let days := jsMod days 1461
  if days ≥ 366 then (gy + floorDiv (days - 1) 365, jsMod (days - 1) 365)
  else (gy, days)

/-- The length read by the loop at index `gm` of the table, February extended in
a leap year.  The index is within the table by the loop guard. -/
def monthLength (gy : Int) (gm : Nat) (h : gm < 12) : Int :=
  if gm = 1 ∧ isLeapGregorian gy = true then
    GREGORIAN_MONTH_LENGTHS.get ⟨gm, h⟩ + 1
  else
    GREGORIAN_MONTH_LENGTHS.get ⟨gm, h⟩

/-- The month loop (source lines 83-93) from index `gm` with `days` left; the
first argument bounds the number of iterations.  Returns the final `(gm, days)`:
`gm < 12` when the loop left through `break`, `gm = 12` when the guard failed. -/
def monthLoop (gy : Int) : Nat → Nat → Int → Nat × Int
  | 0, gm, days => (gm, days)
  | fuel + 1, gm, days =>
    if h : gm < 12 then
      if days < monthLength gy gm h then (gm, days)
      else monthLoop gy fuel (gm + 1) (days - monthLength gy gm h)
    else (gm, days)

/-- The conversion stage of `jalaliToGregorian` (source lines 55-102) on a validated
date, in exact integers; `IEEE.toGregorian` is the computation on doubles. -/
def toGregorian (j : JalaliDate) : GregorianResult :=
  let (gy, days) := reduceYears (dayCount j.year j.month j.day)
  let (gm, days) := monthLoop gy 12 0 days
  let gd := days + 1
  { gy := gy, gm := (gm : Int) + 1, gd := gd,
    date := { year := gy, monthIndex := gm, day := gd } }

/-- The function `jalaliToGregorian`. -/
def jalaliToGregorian (jy jm jd : JsValue) : Except JsError GregorianResult :=
  match normalizeInputs jy jm jd with
  | Except.error e => Except.error e
  | Except.ok j => Except.ok (toGregorian j)

/-! ## The adapter `convert` -/

/-- The argument of `convert`: a primitive value, an array, or a plain object
given by its own fields.  Elements and field values are primitive values. -/
inductive JsInput where
  | value (v : JsValue)
  | array (xs : List JsValue)
  | object (fields : List (String × JsValue))
  deriving DecidableEq, Repr

/-- The scan of `String.prototype.split` for a non-empty separator: `cur` holds
the current segment reversed, `skip` the characters of a matched separator that
are still to be passed over. -/
def splitLoop (sep : List Char) : List Char → List Char → Nat → List (List Char)
  | [], cur, _ => [cur.reverse]
  | _ :: rest, cur, skip + 1 => splitLoop sep rest cur skip
  | c :: rest, cur, 0 =>
    if sep.isPrefixOf (c :: rest) then
      cur.reverse :: splitLoop sep rest [] (sep.length - 1)
    else splitLoop sep rest (c :: cur) 0

/-- The method `String.prototype.split` with a string separator and no limit, on
a text without characters outside the basic plane (one code unit each);
`IEEE.jsSplit` works on code units. -/
def jsSplit (s sep : List Char) : List (List Char) :=
  if sep = [] then s.map fun c => [c] else splitLoop sep s [] 0

/-- Reading a property of an object: `undefined` when the field is absent. -/
def getField (fields : List (String × JsValue)) (name : String) : JsValue :=
  (fields.lookup name).getD JsValue.undefined

/-- Reading an element of an array: `undefined` past the end. -/
def getIndex (xs : List JsValue) (i : Nat) : JsValue :=
  (xs.get? i).getD JsValue.undefined

/-- The function `convert`; the separator is `none` when the argument is omitted,
and then defaults to `"/"`. -/
def convert (input : JsInput) (separator : Option (List Char)) :
    Except JsError GregorianResult :=
  let separator := separator.getD "/".toList
  match input with
  | JsInput.value (JsValue.string s) =>
    let parts := (jsSplit s separator).map jsTrim
    if parts.length ≠ 3 then
      Except.error (JsError.error "String input must contain exactly 3 parts")
    else
      jalaliToGregorian (JsValue.string (parts.getD 0 []))
        (JsValue.string (parts.getD 1 [])) (JsValue.string (parts.getD 2 []))
  | JsInput.array xs =>
    let jy := getIndex xs 0
    let jm := getIndex xs 1
    let jd := getIndex xs 2
    if xs.length ≠ 3 then
      Except.error (JsError.error "Array input must contain exactly [jy, jm, jd]")
    else jalaliToGregorian jy jm jd
  | JsInput.object fields =>
    let jy := getField fields "jy"
    let jm := getField fields "jm"
    let jd := getField fields "jd"
    if [jy, jm, jd].any (fun value => value == JsValue.undefined) then
      Except.error (JsError.error "Object input must include jy, jm and jd fields")
    else jalaliToGregorian jy jm jd
  | JsInput.value _ =>
    Except.error (JsError.typeError
      "Input must be a string, array, or object containing Jalali date parts")

/-! ## Specification vocabulary -/

/-- The validator's day bound for a month: 31 up to month 6, 30 up to month 11, else 29. -/
def maxDay (m : Int) : Int := if m ≤ 6 then 31 else if m ≤ 11 then 30 else 29

/-- An integer triple that passes every range check of the validator. -/
def Accepted (y m d : Int) : Prop := 1 ≤ y ∧ 1 ≤ m ∧ m ≤ 12 ∧ 1 ≤ d ∧ d ≤ maxDay m

/-- The leap rule as the specification words it: divisible by 4 and not by 100,
or divisible by 400. -/
def LeapYear (gy : Int) : Prop := (4 ∣ gy ∧ ¬ 100 ∣ gy) ∨ 400 ∣ gy

instance (gy : Int) : Decidable (LeapYear gy) := by
  unfold LeapYear; infer_instance

/-- The real length of Gregorian month `gm` (1 to 12) of year `gy`. -/
def gregorianMonthDays (gy gm : Int) : Int :=
  if gm = 2 then (if LeapYear gy then 29 else 28)
  else if gm = 4 ∨ gm = 6 ∨ gm = 9 ∨ gm = 11 then 30
  else 31

/-- A calendrically valid Gregorian date. -/
def ValidGregorian (gy gm gd : Int) : Prop :=
  1 ≤ gm ∧ gm ≤ 12 ∧ 1 ≤ gd ∧ gd ≤ gregorianMonthDays gy gm

instance (gy gm gd : Int) : Decidable (ValidGregorian gy gm gd) := by
  unfold ValidGregorian; infer_instance

instance (y m d : Int) : Decidable (Accepted y m d) := by
  unfold Accepted; infer_instance

/-- The indices at which the month loop reads the table, in the order of the reads. -/
def monthLoopReads (gy : Int) : Nat → Nat → Int → List Nat
  | 0, _, _ => []
  | fuel + 1, gm, days =>
    if h : gm < 12 then
      if days < monthLength gy gm h then [gm]
      else gm :: monthLoopReads gy fuel (gm + 1) (days - monthLength gy gm h)
    else []

/-- A number that is a finite integer, in the words of the specification. -/
def IsFiniteInteger (x : JsNumber) : Prop := ∃ n : Int, x = JsNumber.finite n

/-- A decimal digit character, `0` to `9`. -/
def IsDecimalDigit (c : Char) : Prop := 48 ≤ c.toNat ∧ c.toNat ≤ 57

/-- The text `s` is a non-empty run of decimal digits whose value is `n`
(leading zeros allowed). -/
def DecimalDigits (s : List Char) (n : Nat) : Prop :=
  s ≠ [] ∧ (∀ c ∈ s, IsDecimalDigit c) ∧
    Nat.ofDigits 10 (s.reverse.map fun c => c.toNat - 48) = n

/-- The text `s` is the decimal rendering of the integer `z`: digits, preceded by
a minus sign when `z` is negative. -/
def DecimalText (s : List Char) (z : Int) : Prop :=
  (∃ n : Nat, DecimalDigits s n ∧ z = n) ∨
    (∃ ds, ∃ n : Nat, s = '-' :: ds ∧ DecimalDigits ds n ∧ z = -(n : Int))

/-- The text `s` is a decimal rendering of `z` surrounded by spaces. -/
def PaddedDecimalText (s : List Char) (z : Int) : Prop :=
  ∃ pre core post, s = pre ++ core ++ post ∧ (∀ c ∈ pre, c = ' ') ∧
    (∀ c ∈ post, c = ' ') ∧ DecimalText core z

instance (c : Char) : Decidable (IsDecimalDigit c) := by
  unfold IsDecimalDigit; infer_instance

/-! ## Formatting -/

/-- The method `String.prototype.padStart`: the filler is the pad string repeated
and cut to the missing length. -/
def jsPadStart (s : List Char) (targetLength : Nat) (padString : List Char) : List Char :=
  if targetLength ≤ s.length ∨ padString = [] then s
  else
    let fillLen := targetLength - s.length
    ((List.replicate fillLen padString).flatten.take fillLen) ++ s

/-- The decimal text of an integer as `toString` and template literals give it
for an integer of magnitude below `2 ^ 53`: the digits, after a minus sign when
negative.  `IEEE.numberToString` prints any double. -/
def intToString (n : Int) : List Char :=
  if n < 0 then '-' :: Nat.toDigits 10 n.natAbs else Nat.toDigits 10 n.natAbs

/-- The function `pad`. -/
def pad (value : Int) : List Char :=
  jsPadStart (intToString value) 2 "0".toList

/-- The function `format`; the separator is `none` when the argument is omitted,
and then defaults to `"-"`. -/
def format (result : GregorianResult) (separator : Option (List Char)) : List Char :=
  let separator := separator.getD "-".toList
  intToString result.gy ++ separator ++ pad result.gm ++ separator ++ pad result.gd

/-! ## The Gregorian day number -/

/-- The number of days of a Gregorian year. -/
def yearDays (gy : Int) : Int := if LeapYear gy then 366 else 365

/-- The number of days in the `k` years from 1600 on: 1600, ..., 1600 + k - 1. -/
def daysBeforeYear : Nat → Int
  | 0 => 0
  | k + 1 => daysBeforeYear k + yearDays (1600 + k)

/-- The number of days in the first `n` months of year `gy`. -/
def daysBeforeMonth (gy : Int) : Nat → Int
  | 0 => 0
  | n + 1 => daysBeforeMonth gy n + gregorianMonthDays gy (n + 1)

/-- The day number of a Gregorian date of year 1600 or later: the days elapsed
since 1 January 1600, which has day number 0. -/
def dayNumber (gy gm gd : Int) : Int :=
  daysBeforeYear (gy - 1600).toNat + daysBeforeMonth gy (gm - 1).toNat + (gd - 1)

/-- Lexicographic order on (year, month, day) triples. -/
def DateLt (a b : Int × Int × Int) : Prop :=
  a.1 < b.1 ∨ (a.1 = b.1 ∧ (a.2.1 < b.2.1 ∨ (a.2.1 = b.2.1 ∧ a.2.2 < b.2.2)))

instance (a b : Int × Int × Int) : Decidable (DateLt a b) := by
  unfold DateLt; infer_instance

/-- The (year, month, day) part of a result. -/
def GregorianResult.ymd (r : GregorianResult) : Int × Int × Int := (r.gy, r.gm, r.gd)

/-- The day count as the specification writes it, with mathematical floor and
modulo on the shifted year `j = y - 979`. -/
def specDayCount (y m d : Int) : Int :=
  let j := y - 979
  365 * j + 8 * (j / 33) + ((j % 33) + 3) / 4 +
    (if m ≤ 6 then (m - 1) * 31 else (m - 7) * 30 + 186) + d - 1

/-! ## The stages of the year reduction -/

/-- The 100-year step of the year reduction (source lines 67-73). -/
def reduceCentury (gy days : Int) : Int × Int :=
  if days ≥ 36525 then
    let days := days - 1
    let gy := gy + 100 * floorDiv days 36524
    let days := jsMod days 36524
    let days := if days ≥ 365 then days + 1 else days
    (gy, days)
  else (gy, days)

/-- The 4-year and 1-year steps of the year reduction (source lines 75-81). -/
def reduceFourYears (gy days : Int) : Int × Int :=
  let gy := gy + 4 * floorDiv days 1461
  let days := jsMod days 1461
  if days ≥ 366 then (gy + floorDiv (days - 1) 365, jsMod (days - 1) 365)
  else (gy, days)

/-! ## Double-precision numbers

The functions below give the arithmetic of JavaScript numbers themselves: every
result is the exact result rounded to the nearest double, ties to even.  The
sign of zero is not tracked. -/

/-- Number of binary digits of `n`, the first argument bounding the recursion. -/
def bitLengthAux : Nat → Nat → Nat
  | 0, _ => 0
  | fuel + 1, n => if n = 0 then 0 else bitLengthAux fuel (n / 2) + 1

/-- Number of binary digits of `n`: 0 for 0, and `k` when `2 ^ (k - 1) ≤ n < 2 ^ k`. -/
def bitLength (n : Nat) : Nat := bitLengthAux n n

/-- The power `2 ^ e` for an integer exponent. -/
def pow2 (e : Int) : Rat :=
  if 0 ≤ e then ((2 ^ e.toNat : Nat) : Rat) else 1 / ((2 ^ (-e).toNat : Nat) : Rat)

/-- The power `10 ^ e` for an integer exponent. -/
def pow10 (e : Int) : Rat :=
  if 0 ≤ e then ((10 ^ e.toNat : Nat) : Rat) else 1 / ((10 ^ (-e).toNat : Nat) : Rat)

/-- The binary exponent of a positive rational: the `e` with `2 ^ e ≤ q < 2 ^ (e + 1)`. -/
def binaryExponent (q : Rat) : Int :=
  let e0 : Int := (bitLength q.num.natAbs : Int) - (bitLength q.den : Int)
  if pow2 e0 ≤ q then e0 else e0 - 1

/-- The integer nearest to a non-negative rational, ties to the even one. -/
def roundHalfEven (q : Rat) : Int :=
  let f := Rat.floor q
  let r := q - (f : Rat)
  if r < 1 / 2 then f
  else if 1 / 2 < r then f + 1
  else if f % 2 = 0 then f else f + 1

/-- The double nearest to a rational (round to nearest, ties to even): 53
significant bits, least exponent -1022 for the subnormal range, and infinity from
`2 ^ 1024` on after rounding. -/
def roundToDouble (q : Rat) : JsNumber :=
  if q = 0 then JsNumber.finite 0
  else
    let a := if 0 < q then q else -q
    let e := max (binaryExponent a) (-1022)
    let ulp := pow2 (e - 52)
    let v := (roundHalfEven (a / ulp) : Rat) * ulp
    if pow2 1024 ≤ v then (if 0 < q then JsNumber.posInf else JsNumber.negInf)
    else JsNumber.finite (if 0 < q then v else -v)

/-- Rounding of a number value: finite values to the nearest double. -/
def roundNumber : JsNumber → JsNumber
  | JsNumber.finite q => roundToDouble q
  | x => x

/-- The operator `+` on numbers. -/
def JsNumber.add : JsNumber → JsNumber → JsNumber
  | JsNumber.finite a, JsNumber.finite b => roundToDouble (a + b)
  | JsNumber.nan, _ => JsNumber.nan
  | _, JsNumber.nan => JsNumber.nan
  | JsNumber.posInf, JsNumber.negInf => JsNumber.nan
  | JsNumber.negInf, JsNumber.posInf => JsNumber.nan
  | JsNumber.posInf, _ => JsNumber.posInf
  | _, JsNumber.posInf => JsNumber.posInf
  | JsNumber.negInf, _ => JsNumber.negInf
  | _, JsNumber.negInf => JsNumber.negInf

/-- The operator `-` on numbers. -/
def JsNumber.sub (x y : JsNumber) : JsNumber := x.add y.neg

/-- The sign of a number that is not `NaN`: -1, 0 or 1. -/
def JsNumber.sign : JsNumber → Int
  | JsNumber.finite q => if 0 < q then 1 else if q < 0 then -1 else 0
  | JsNumber.posInf => 1
  | JsNumber.negInf => -1
  | JsNumber.nan => 0

/-- The operator `*` on numbers. -/
def JsNumber.mul : JsNumber → JsNumber → JsNumber
  | JsNumber.finite a, JsNumber.finite b => roundToDouble (a * b)
  | JsNumber.nan, _ => JsNumber.nan
  | _, JsNumber.nan => JsNumber.nan
  | x, y =>
    if x.sign * y.sign = 0 then JsNumber.nan
    else if 0 < x.sign * y.sign then JsNumber.posInf else JsNumber.negInf

/-- The operator `/` on numbers. -/
def JsNumber.div : JsNumber → JsNumber → JsNumber
  | JsNumber.nan, _ => JsNumber.nan
  | _, JsNumber.nan => JsNumber.nan
  | JsNumber.finite a, JsNumber.finite b =>
    if b = 0 then
      (if a = 0 then JsNumber.nan else if 0 < a then JsNumber.posInf else JsNumber.negInf)
    else roundToDouble (a / b)
  | JsNumber.finite _, _ => JsNumber.finite 0
  | x, JsNumber.finite b =>
    if 0 ≤ x.sign * (if b < 0 then -1 else 1) then
      (if x.sign * (if b < 0 then -1 else 1) = 0 then JsNumber.nan else JsNumber.posInf)
    else JsNumber.negInf
  | _, _ => JsNumber.nan

/-- The operator `%` on numbers: the remainder takes the sign of the dividend and
is exact. -/
def JsNumber.mod : JsNumber → JsNumber → JsNumber
  | JsNumber.finite a, JsNumber.finite b =>
    if b = 0 then JsNumber.nan
    else
      let t := a / b
      let trunc : Int := if 0 ≤ t then Rat.floor t else -Rat.floor (-t)
      JsNumber.finite (a - b * (trunc : Rat))
  | JsNumber.finite a, JsNumber.posInf => JsNumber.finite a
  | JsNumber.finite a, JsNumber.negInf => JsNumber.finite a
  | _, _ => JsNumber.nan

/-- The function `Math.floor`. -/
def JsNumber.floor : JsNumber → JsNumber
  | JsNumber.finite q => JsNumber.finite (Rat.floor q : Int)
  | x => x

/-- The comparison `x < y` on numbers; false when either is `NaN`. -/
def JsNumber.lt : JsNumber → JsNumber → Bool
  | JsNumber.nan, _ => false
  | _, JsNumber.nan => false
  | JsNumber.finite a, JsNumber.finite b => decide (a < b)
  | JsNumber.negInf, JsNumber.negInf => false
  | JsNumber.negInf, _ => true
  | _, JsNumber.negInf => false
  | JsNumber.posInf, _ => false
  | _, JsNumber.posInf => true

/-- The comparison `x >= y` on numbers; false when either is `NaN`. -/
def JsNumber.ge : JsNumber → JsNumber → Bool
  | JsNumber.nan, _ => false
  | _, JsNumber.nan => false
  | x, y => !(x.lt y)

/-- The comparison `x <= y` on numbers; false when either is `NaN`. -/
def JsNumber.le (x y : JsNumber) : Bool := y.ge x

/-- The comparison `x > y` on numbers; false when either is `NaN`. -/
def JsNumber.gt (x y : JsNumber) : Bool := y.lt x

/-- The comparison `x === y` on numbers; false when either is `NaN`. -/
def JsNumber.strictEq : JsNumber → JsNumber → Bool
  | JsNumber.nan, _ => false
  | _, JsNumber.nan => false
  | x, y => decide (x = y)

instance : Add JsNumber := ⟨JsNumber.add⟩
instance : Sub JsNumber := ⟨JsNumber.sub⟩
instance : Mul JsNumber := ⟨JsNumber.mul⟩
instance : Div JsNumber := ⟨JsNumber.div⟩
instance : Mod JsNumber := ⟨JsNumber.mod⟩
instance (n : Nat) : OfNat JsNumber n := ⟨JsNumber.finite n⟩

/-- Equality of outcomes is decidable. -/
instance {ε α : Type} [DecidableEq ε] [DecidableEq α] : DecidableEq (Except ε α) := by
  intro a b
  cases a with
  | error e1 =>
    cases b with
    | error e2 =>
      exact if h : e1 = e2 then isTrue (by rw [h])
        else isFalse (by intro hc; cases hc; exact h rfl)
    | ok _ => exact isFalse (by intro hc; cases hc)
  | ok a1 =>
    cases b with
    | error _ => exact isFalse (by intro hc; cases hc)
    | ok a2 =>
      exact if h : a1 = a2 then isTrue (by rw [h])
        else isFalse (by intro hc; cases hc; exact h rfl)

/-! ## The module over doubles and UTF-16 strings

A second embedding of the same source in JavaScript's own data types: a string
is a sequence of 16-bit code units and every arithmetic result is rounded to a
double.  It agrees with the embedding above wherever that one is exact, and it
is the one to consult where rounding, overflow or code units matter. -/

namespace IEEE

/-- The UTF-16 code units of a character. -/
def charUnits (c : Char) : List UInt16 :=
  if c.toNat < 0x10000 then [UInt16.ofNat c.toNat]
  else
    [UInt16.ofNat (0xD800 + (c.toNat - 0x10000) / 0x400),
      UInt16.ofNat (0xDC00 + (c.toNat - 0x10000) % 0x400)]

/-- The UTF-16 code units of a text. -/
def utf16 (s : List Char) : List UInt16 := (s.map charUnits).flatten

/-- The character a code unit stands for on its own; a surrogate has none and is
read as U+0000, which like it is neither white space nor part of a numeric
literal. -/
def unitChar (u : UInt16) : Char := Char.ofNat u.toNat

/-- The primitive values, a string being a sequence of code units. -/
inductive JsValue where
  | undefined
  | null
  | boolean (b : Bool)
  | number (x : JsNumber)
  | string (s : List UInt16)
  deriving DecidableEq, Repr

/-- The argument of `convert`: a primitive value, an array, or a plain object
given by its own fields.  Elements and field values are primitive values. -/
inductive JsInput where
  | value (v : JsValue)
  | array (xs : List JsValue)
  | object (fields : List (String × JsValue))
  deriving DecidableEq, Repr

/-- The instant `Date.UTC(year, monthIndex, day)`, kept as the arguments that determine it. -/
structure JsDate where
  year : JsNumber
  monthIndex : JsNumber
  day : JsNumber
  deriving DecidableEq, Repr

/-- The object returned by `jalaliToGregorian`. -/
structure GregorianResult where
  gy : JsNumber
  gm : JsNumber
  gd : JsNumber
  date : JsDate
  deriving DecidableEq, Repr

/-- The object returned by `normalizeInputs`: three integer-valued doubles. -/
structure JalaliDate where
  year : JsNumber
  month : JsNumber
  day : JsNumber
  deriving DecidableEq, Repr

/-- An integer as a number value: the double nearest to it. -/
def JsValue.ofInt (n : Int) : JsValue := JsValue.number (roundToDouble n)

/-- A text as a string value. -/
def JsValue.ofText (s : List Char) : JsValue := JsValue.string (utf16 s)

/-- The method `String.prototype.trim`. -/
def jsTrim (s : List UInt16) : List UInt16 :=
  ((s.dropWhile fun u => isJsWhiteSpace (unitChar u)).reverse.dropWhile
    fun u => isJsWhiteSpace (unitChar u)).reverse

/-- The conversion of a string to a number: the exact value of the literal,
rounded to the nearest double. -/
def stringToNumber (s : List UInt16) : JsNumber :=
  roundNumber (JalaliDateConverter.stringToNumber (s.map unitChar))

/-- The call `Number(value)`. -/
def toNumber : JsValue → JsNumber
  | JsValue.undefined => JsNumber.nan
  | JsValue.null => JsNumber.finite 0
  | JsValue.boolean b => JsNumber.finite (if b then 1 else 0)
  | JsValue.number x => roundNumber x
  | JsValue.string s => stringToNumber s

/-- The function `isLeapGregorian`. -/
def isLeapGregorian (year : JsNumber) : Bool :=
  ((year % 4).strictEq 0 && !(year % 100).strictEq 0) || (year % 400).strictEq 0

/-- The function `normalizeInputs`: coerce, then check integrality, year, month and day. -/
def normalizeInputs (jy jm jd : JsValue) : Except JsError JalaliDate :=
  let year := toNumber jy
  let month := toNumber jm
  let day := toNumber jd
  if !year.isInteger || !month.isInteger || !day.isInteger then
    Except.error (JsError.typeError "jy, jm and jd must be integers")
  else if year.lt 1 then
    Except.error (JsError.rangeError "jy must be a positive Jalali year")
  else if month.lt 1 || month.gt 12 then
    Except.error (JsError.rangeError "jm must be between 1 and 12")
  else
    let maxDay : JsNumber := if month.le 6 then 31 else if month.le 11 then 30 else 29
    if day.lt 1 || day.gt maxDay then
      Except.error (JsError.rangeError "jd is out of range for the provided month")
    else
      Except.ok { year := year, month := month, day := day }

/-- The initial value of `days` (source lines 55-62), every operation rounded. -/
def dayCount (year month day : JsNumber) : JsNumber :=
  let jalaliYear := year - 979
  365 * jalaliYear +
    (jalaliYear / 33).floor * 8 +
    (((jalaliYear % 33) + 3) / 4).floor +
    (if month.lt 7 then (month - 1) * 31 else (month - 7) * 30 + 186) +
    day - 1

/-- The 100-year step of the year reduction (source lines 67-73). -/
def reduceCentury (gy days : JsNumber) : JsNumber × JsNumber :=
  if days.ge 36525 then
    let days := days - 1
    let gy := gy + 100 * (days / 36524).floor
    let days := days % 36524
    let days := if days.ge 365 then days + 1 else days
    (gy, days)
  else (gy, days)

/-- The 4-year and 1-year steps of the year reduction (source lines 75-81). -/
def reduceFourYears (gy days : JsNumber) : JsNumber × JsNumber :=
  let gy := gy + 4 * (days / 1461).floor
  let days := days % 1461
  if days.ge 366 then (gy + ((days - 1) / 365).floor, (days - 1) % 365)
  else (gy, days)

/-- The year reduction (source lines 64-81): from the day count to the pair
`(gy, days)` that enters the month loop.  A `NaN` passes no test `>=` and goes
through unchanged. -/
def reduceYears (days0 : JsNumber) : JsNumber × JsNumber :=
  let gy := 1600 + 400 * (days0 / 146097).floor
  let days := days0 % 146097
  let p := reduceCentury gy days
  reduceFourYears p.1 p.2

/-- The length read by the loop at index `gm` of the table, February extended in
a leap year. -/
def monthLength (gy : JsNumber) (gm : Nat) (h : gm < 12) : JsNumber :=
  if gm = 1 ∧ isLeapGregorian gy = true then
    JsNumber.finite (GREGORIAN_MONTH_LENGTHS.get ⟨gm, h⟩) + 1
  else JsNumber.finite (GREGORIAN_MONTH_LENGTHS.get ⟨gm, h⟩)

/-- The month loop (source lines 83-93) from index `gm` with `days` left; the
first argument bounds the number of iterations.  A `NaN` count never passes the
test `days < monthLength`, so the loop then runs until the guard `gm < 12` fails. -/
def monthLoop (gy : JsNumber) : Nat → Nat → JsNumber → Nat × JsNumber
  | 0, gm, days => (gm, days)
  | fuel + 1, gm, days =>
    if h : gm < 12 then
      if days.lt (monthLength gy gm h) then (gm, days)
      else monthLoop gy fuel (gm + 1) (days - monthLength gy gm h)
    else (gm, days)

/-- The conversion stage of `jalaliToGregorian` (source lines 55-102) on a validated date. -/
def toGregorian (j : JalaliDate) : GregorianResult :=
  let p := reduceYears (dayCount j.year j.month j.day)
  let w := monthLoop p.1 12 0 p.2
  let gd := w.2 + 1
  { gy := p.1, gm := JsNumber.finite (w.1 : Int) + 1, gd := gd,
    date := { year := p.1, monthIndex := JsNumber.finite (w.1 : Int), day := gd } }

/-- The function `jalaliToGregorian`. -/
def jalaliToGregorian (jy jm jd : JsValue) : Except JsError GregorianResult :=
  match normalizeInputs jy jm jd with
  | Except.error e => Except.error e
  | Except.ok j => Except.ok (toGregorian j)

/-- The scan of `String.prototype.split` for a non-empty separator: `cur` holds
the current segment reversed, `skip` the code units of a matched separator that
are still to be passed over. -/
def splitLoop (sep : List UInt16) : List UInt16 → List UInt16 → Nat → List (List UInt16)
  | [], cur, _ => [cur.reverse]
  | _ :: rest, cur, skip + 1 => splitLoop sep rest cur skip
  | c :: rest, cur, 0 =>
    if sep.isPrefixOf (c :: rest) then
      cur.reverse :: splitLoop sep rest [] (sep.length - 1)
    else splitLoop sep rest (c :: cur) 0

/-- The method `String.prototype.split` with a string separator and no limit; the
empty separator splits into single code units. -/
def jsSplit (s sep : List UInt16) : List (List UInt16) :=
  if sep = [] then s.map fun c => [c] else splitLoop sep s [] 0

/-- Reading a property of an object: `undefined` when the field is absent. -/
def getField (fields : List (String × JsValue)) (name : String) : JsValue :=
  (fields.lookup name).getD JsValue.undefined

/-- Reading an element of an array: `undefined` past the end. -/
def getIndex (xs : List JsValue) (i : Nat) : JsValue :=
  (xs.get? i).getD JsValue.undefined

/-- The function `convert`; the separator is `none` when the argument is omitted,
and then defaults to `"/"`. -/
def convert (input : JsInput) (separator : Option (List UInt16)) :
    Except JsError GregorianResult :=
  let separator := separator.getD (utf16 "/".toList)
  match input with
  | JsInput.value (JsValue.string s) =>
    let parts := (jsSplit s separator).map jsTrim
    if parts.length ≠ 3 then
      Except.error (JsError.error "String input must contain exactly 3 parts")
    else
      jalaliToGregorian (JsValue.string (parts.getD 0 []))
        (JsValue.string (parts.getD 1 [])) (JsValue.string (parts.getD 2 []))
  | JsInput.array xs =>
    let jy := getIndex xs 0
    let jm := getIndex xs 1
    let jd := getIndex xs 2
    if xs.length ≠ 3 then
      Except.error (JsError.error "Array input must contain exactly [jy, jm, jd]")
    else jalaliToGregorian jy jm jd
  | JsInput.object fields =>
    let jy := getField fields "jy"
    let jm := getField fields "jm"
    let jd := getField fields "jd"
    if [jy, jm, jd].any (fun value => value == JsValue.undefined) then
      Except.error (JsError.error "Object input must include jy, jm and jd fields")
    else jalaliToGregorian jy jm jd
  | JsInput.value _ =>
    Except.error (JsError.typeError
      "Input must be a string, array, or object containing Jalali date parts")

/-- The decimal exponent of a positive rational: the `n` with
`10 ^ (n - 1) ≤ x < 10 ^ n`, searched downwards from `n`. -/
def decimalExponentAux (x : Rat) : Nat → Int → Int
  | 0, n => n
  | fuel + 1, n => if pow10 (n - 1) ≤ x then n else decimalExponentAux x fuel (n - 1)

/-- The decimal exponent of a positive double: the `n` with `10 ^ (n - 1) ≤ x < 10 ^ n`. -/
def decimalExponent (x : Rat) : Int :=
  if 1 ≤ x then ((Nat.toDigits 10 (Rat.floor x).toNat).length : Int)
  else decimalExponentAux x 400 0

/-- The shortest decimal that reads back as the positive double `x`, searched from
`k` digits on: the pair `(s, n)` of `Number::toString`, where `s` has the fewest
digits with `s * 10 ^ (n - k)` rounding to `x`, and among those is nearest to `x`. -/
def shortestDigitsAux (x : Rat) (n : Int) : Nat → Nat → Int × Int
  | 0, k => (Rat.floor (x / pow10 (n - k)), n)
  | fuel + 1, k =>
    let scale := pow10 (n - k)
    let lo : Int := Rat.floor (x / scale)
    let hi : Int := lo + 1
    let okLo := decide (roundToDouble ((lo : Rat) * scale) = JsNumber.finite x)
    let okHi := decide (roundToDouble ((hi : Rat) * scale) = JsNumber.finite x)
    let pick : Option Int :=
      if okLo && okHi then
        (if x - (lo : Rat) * scale < (hi : Rat) * scale - x then some lo
         else if (hi : Rat) * scale - x < x - (lo : Rat) * scale then some hi
         else if lo % 2 = 0 then some lo else some hi)
      else if okLo then some lo
      else if okHi then some hi
      else none
    match pick with
    | some s => if s = 10 ^ k then (1, n + 1) else (s, n)
    | none => shortestDigitsAux x n fuel (k + 1)

/-- The digits and the decimal exponent of a positive double, as `Number::toString`
chooses them. -/
def shortestDigits (x : Rat) : List Char × Int :=
  let p := shortestDigitsAux x (decimalExponent x) 17 1
  (Nat.toDigits 10 p.1.toNat, p.2)

/-- The text of a positive double from its digits `ds` and decimal exponent `n`. -/
def layoutDigits (ds : List Char) (n : Int) : List Char :=
  let k : Int := ds.length
  if -5 ≤ n ∧ n ≤ 21 then
    if k ≤ n then ds ++ List.replicate (n - k).toNat '0'
    else if 0 < n then ds.take n.toNat ++ '.' :: ds.drop n.toNat
    else '0' :: '.' :: (List.replicate (-n).toNat '0' ++ ds)
  else
    let e := n - 1
    let es := (if e < 0 then '-' else '+') :: Nat.toDigits 10 e.natAbs
    if k = 1 then ds ++ 'e' :: es
    else ds.take 1 ++ '.' :: (ds.drop 1 ++ 'e' :: es)

/-- The text of a number as `toString` and template literals give it. -/
def numberToString : JsNumber → List Char
  | JsNumber.nan => "NaN".toList
  | JsNumber.posInf => "Infinity".toList
  | JsNumber.negInf => "-Infinity".toList
  | JsNumber.finite q =>
    if q = 0 then ['0']
    else if 0 < q then layoutDigits (shortestDigits q).1 (shortestDigits q).2
    else '-' :: layoutDigits (shortestDigits (-q)).1 (shortestDigits (-q)).2

/-- The method `String.prototype.padStart`: the filler is the pad string repeated
and cut to the missing length, lengths counted in code units. -/
def jsPadStart (s : List UInt16) (targetLength : Nat) (padString : List UInt16) :
    List UInt16 :=
  if targetLength ≤ s.length ∨ padString = [] then s
  else
    let fillLen := targetLength - s.length
    ((List.replicate fillLen padString).flatten.take fillLen) ++ s

/-- The function `pad`. -/
def pad (value : JsNumber) : List UInt16 :=
  jsPadStart (utf16 (numberToString value)) 2 (utf16 "0".toList)

/-- The function `format`; the separator is `none` when the argument is omitted,
and then defaults to `"-"`. -/
def format (result : GregorianResult) (separator : Option (List UInt16)) : List UInt16 :=
  let separator := separator.getD (utf16 "-".toList)
  utf16 (numberToString result.gy) ++ separator ++ pad result.gm ++ separator ++
    pad result.gd

end IEEE

/-! ## Integers as doubles -/

/-- An integer as a number: exact, and a double when its magnitude is below `2 ^ 53`. -/
def JsNumber.ofInt (n : Int) : JsNumber := JsNumber.finite n

/-- A result of the exact embedding as a result over doubles, field by field. -/
def IEEE.GregorianResult.ofExact (r : JalaliDateConverter.GregorianResult) :
    IEEE.GregorianResult :=
  { gy := JsNumber.ofInt r.gy, gm := JsNumber.ofInt r.gm, gd := JsNumber.ofInt r.gd,
    date := { year := JsNumber.ofInt r.date.year, monthIndex := JsNumber.ofInt r.date.monthIndex,
              day := JsNumber.ofInt r.date.day } }

/-! ## The validator on integer inputs -/

theorem normalizeInputs_ofInt (y m d : Int) :
    normalizeInputs (JsValue.ofInt y) (JsValue.ofInt m) (JsValue.ofInt d) =
      if y < 1 then Except.error (JsError.rangeError "jy must be a positive Jalali year")
      else if m < 1 ∨ m > 12 then
        Except.error (JsError.rangeError "jm must be between 1 and 12")
      else if d < 1 ∨ d > maxDay m then
        Except.error (JsError.rangeError "jd is out of range for the provided month")
      else Except.ok { year := y, month := m, day := d } := by
  simp [normalizeInputs, JsValue.ofInt, toNumber, JsNumber.isInteger, JsNumber.toInt, maxDay]

theorem normalizeInputs_accepted {y m d : Int} (h : Accepted y m d) :
    normalizeInputs (JsValue.ofInt y) (JsValue.ofInt m) (JsValue.ofInt d) =
      Except.ok { year := y, month := m, day := d } := by
  obtain ⟨h1, h2, h3, h4, h5⟩ := h
  rw [normalizeInputs_ofInt, if_neg (by omega), if_neg (by omega), if_neg (by omega)]

theorem jalaliToGregorian_accepted {y m d : Int} (h : Accepted y m d) :
    jalaliToGregorian (JsValue.ofInt y) (JsValue.ofInt m) (JsValue.ofInt d) =
      Except.ok (toGregorian { year := y, month := m, day := d }) := by
  simp [jalaliToGregorian, normalizeInputs_accepted h]

theorem jalaliToGregorian_rejected {y m d : Int} (h : ¬ Accepted y m d) :
    ∃ e, jalaliToGregorian (JsValue.ofInt y) (JsValue.ofInt m) (JsValue.ofInt d) =
      Except.error e := by
  simp only [jalaliToGregorian, normalizeInputs_ofInt]
  unfold Accepted at h
  split_ifs with h1 h2 h3
  · exact ⟨_, rfl⟩
  · exact ⟨_, rfl⟩
  · exact ⟨_, rfl⟩
  · exact absurd ⟨by omega, by omega, by omega, by omega, by omega⟩ h

theorem monthLoopReads_lt (gy : Int) (fuel gm : Nat) (days : Int) :
    ∀ i ∈ monthLoopReads gy fuel gm days, i < 12 := by
  induction fuel generalizing gm days with
  | zero => simp [monthLoopReads]
  | succ n ih =>
    intro i hi
    unfold monthLoopReads at hi
    split_ifs at hi with h1 h2
    · simp at hi; omega
    · rcases List.mem_cons.mp hi with h | h
      · omega
      · exact ih _ _ i h
    · simp at hi

/-! ## Non-integer inputs -/

theorem isInteger_iff (x : JsNumber) : x.isInteger = true ↔ IsFiniteInteger x := by
  cases x with
  | finite q =>
    simp only [JsNumber.isInteger, beq_iff_eq, IsFiniteInteger, JsNumber.finite.injEq]
    constructor
    · intro h
      exact ⟨q.num, (Rat.den_eq_one_iff q |>.mp h).symm⟩
    · rintro ⟨n, rfl⟩
      simp
  | nan => simp [JsNumber.isInteger, IsFiniteInteger]
  | posInf => simp [JsNumber.isInteger, IsFiniteInteger]
  | negInf => simp [JsNumber.isInteger, IsFiniteInteger]

theorem not_isFiniteInteger_half : ¬ IsFiniteInteger (JsNumber.finite ((2807 : Rat) / 2)) := by
  rintro ⟨n, h⟩
  have h2 : ((2807 : Rat) / 2) = n := by simpa using h
  have h3 : ((2807 : Int) : Rat) = ((2 * n : Int) : Rat) := by
    push_cast
    rw [← h2]; norm_num
  have h4 : (2807 : Int) = 2 * n := by exact_mod_cast h3
  omega

theorem ofInt_beq_undefined (n : Int) : (JsValue.ofInt n == JsValue.undefined) = false := by
  simp [JsValue.ofInt]

/-! ## Decimal texts, trimming and splitting -/

theorem digitOf_decimal {c : Char} (h : IsDecimalDigit c) :
    digitOf 10 c = some (c.toNat - 48) := by
  obtain ⟨h1, h2⟩ := h
  simp only [digitOf, h1, h2, and_self, if_true]
  rw [if_pos (by omega)]

theorem digitsFrom_decimal (s : List Char) (h : ∀ c ∈ s, IsDecimalDigit c) (acc : Nat) :
    digitsFrom 10 acc s =
      some (acc * 10 ^ s.length + Nat.ofDigits 10 (s.reverse.map fun c => c.toNat - 48)) := by
  induction s generalizing acc with
  | nil => simp [digitsFrom]
  | cons c t ih =>
    have hc := h c (List.mem_cons_self _ _)
    have ht : ∀ x ∈ t, IsDecimalDigit x := fun x hx => h x (List.mem_cons_of_mem _ hx)
    simp only [digitsFrom, digitOf_decimal hc, ih ht, List.reverse_cons, List.map_append,
      List.map_cons, List.map_nil, Nat.ofDigits_append, Nat.ofDigits_singleton,
      List.length_cons, List.length_map, List.length_reverse, Option.some.injEq]
    ring

theorem digitsValue_decimal {s : List Char} {n : Nat} (h : DecimalDigits s n) :
    digitsValue 10 s = some n := by
  obtain ⟨h1, h2, h3⟩ := h
  simp only [digitsValue, if_neg h1, digitsFrom_decimal s h2, h3]
  simp

theorem span_all {α : Type} (p : α → Bool) (l : List α) (h : ∀ x ∈ l, p x = true) :
    l.span p = (l, []) := by
  rw [List.span_eq_take_drop]
  simp [List.takeWhile_eq_self_iff.mpr h, List.dropWhile_eq_nil_iff.mpr h]

theorem digit_ne_dot {c : Char} (h : IsDecimalDigit c) : (c != '.') = true := by
  have : c ≠ '.' := by rintro rfl; revert h; decide
  simpa using this

theorem digit_ne_exp {c : Char} (h : IsDecimalDigit c) : (c != 'e' && c != 'E') = true := by
  have h1 : c ≠ 'e' := by rintro rfl; revert h; decide
  have h2 : c ≠ 'E' := by rintro rfl; revert h; decide
  simp [h1, h2]

theorem parseUnsignedDecimal_digits {s : List Char} {n : Nat} (h : DecimalDigits s n) :
    parseUnsignedDecimal s = some (JsNumber.finite n) := by
  have hall := h.2.1
  have hI : s ≠ "Infinity".toList := by
    rintro rfl
    have := hall 'I' (by decide)
    revert this; decide
  unfold parseUnsignedDecimal
  rw [if_neg hI, span_all _ s (fun c hc => digit_ne_exp (hall c hc))]
  simp only [parseMantissa, span_all _ s (fun c hc => digit_ne_dot (hall c hc)),
    digitsValue_decimal h, Option.map_some', Rat.cast_natCast]
  rfl

theorem parseNumericLiteral_digits {s : List Char} {n : Nat} (h : DecimalDigits s n) :
    parseNumericLiteral s = JsNumber.finite n := by
  have hall := h.2.1
  unfold parseNumericLiteral
  split
  all_goals first
    | (exfalso
       have h1 := hall _ (List.mem_cons_of_mem _ (List.mem_cons_self _ _))
       revert h1; decide)
    | (exfalso
       have h1 := hall _ (List.mem_cons_self _ _)
       revert h1; decide)
    | simp [parseUnsignedDecimal_digits h]

theorem parseNumericLiteral_minus {s : List Char} {n : Nat} (h : DecimalDigits s n) :
    parseNumericLiteral ('-' :: s) = JsNumber.finite (-(n : Rat)) := by
  unfold parseNumericLiteral
  split
  all_goals first
    | (rename_i heq; simp at heq; done)
    | (rename_i heq
       simp only [List.cons.injEq, true_and] at heq
       subst heq
       simp [parseUnsignedDecimal_digits h, JsNumber.neg])

theorem dropWhile_prefix {α : Type} (p : α → Bool) (pre rest : List α)
    (hpre : ∀ x ∈ pre, p x = true) :
    (pre ++ rest).dropWhile p = rest.dropWhile p := by
  induction pre with
  | nil => rfl
  | cons a t ih =>
    have ha := hpre a (List.mem_cons_self _ _)
    simp only [List.cons_append, List.dropWhile_cons, ha, if_true]
    exact ih fun x hx => hpre x (List.mem_cons_of_mem _ hx)

theorem dropWhile_head_false {α : Type} (p : α → Bool) (l : List α)
    (h : ∀ a ∈ l.head?, p a = false) : l.dropWhile p = l := by
  cases l with
  | nil => rfl
  | cons a t =>
    have ha : p a = false := h a (by simp)
    simp [List.dropWhile_cons, ha]

theorem jsTrim_padded (pre core post : List Char)
    (hpre : ∀ c ∈ pre, isJsWhiteSpace c = true) (hpost : ∀ c ∈ post, isJsWhiteSpace c = true)
    (hcore : ∀ c ∈ core, isJsWhiteSpace c = false) (hne : core ≠ []) :
    jsTrim (pre ++ core ++ post) = core := by
  unfold jsTrim
  rw [List.append_assoc, dropWhile_prefix _ pre _ hpre]
  have h1 : (core ++ post).dropWhile isJsWhiteSpace = core ++ post := by
    apply dropWhile_head_false
    intro a ha
    cases core with
    | nil => exact absurd rfl hne
    | cons b t =>
      simp only [List.cons_append, List.head?_cons, Option.mem_def, Option.some.injEq] at ha
      subst ha
      exact hcore _ (List.mem_cons_self _ _)
  have h2 : core.reverse.dropWhile isJsWhiteSpace = core.reverse := by
    apply dropWhile_head_false
    intro a ha
    exact hcore a (List.mem_reverse.mp (List.mem_of_mem_head? ha))
  rw [h1, List.reverse_append,
    dropWhile_prefix _ post.reverse _ (fun c hc => hpost c (List.mem_reverse.mp hc)), h2,
    List.reverse_reverse]

theorem splitLoop_slash_last (s cur : List Char) (h : ∀ c ∈ s, c ≠ '/') :
    splitLoop ['/'] s cur 0 = [cur.reverse ++ s] := by
  induction s generalizing cur with
  | nil => simp [splitLoop]
  | cons c t ih =>
    have hc : c ≠ '/' := h c (List.mem_cons_self _ _)
    have hc2 : ¬ '/' = c := fun e => hc e.symm
    simp [splitLoop, List.isPrefixOf, hc2,
      ih (c :: cur) (fun x hx => h x (List.mem_cons_of_mem _ hx))]

theorem splitLoop_slash_cons (s t cur : List Char) (h : ∀ c ∈ s, c ≠ '/') :
    splitLoop ['/'] (s ++ '/' :: t) cur 0 = (cur.reverse ++ s) :: splitLoop ['/'] t [] 0 := by
  induction s generalizing cur with
  | nil => simp [splitLoop, List.isPrefixOf]
  | cons c u ih =>
    have hc : c ≠ '/' := h c (List.mem_cons_self _ _)
    have hc2 : ¬ '/' = c := fun e => hc e.symm
    simp [splitLoop, List.isPrefixOf, hc2,
      ih (c :: cur) (fun x hx => h x (List.mem_cons_of_mem _ hx))]

theorem jsSplit_three (a b c : List Char) (ha : ∀ x ∈ a, x ≠ '/') (hb : ∀ x ∈ b, x ≠ '/')
    (hc : ∀ x ∈ c, x ≠ '/') :
    jsSplit (a ++ '/' :: (b ++ '/' :: c)) ['/'] = [a, b, c] := by
  simp [jsSplit, splitLoop_slash_cons _ _ _ ha, splitLoop_slash_cons _ _ _ hb,
    splitLoop_slash_last _ _ hc]

theorem digit_not_whiteSpace {c : Char} (h : IsDecimalDigit c) : isJsWhiteSpace c = false := by
  obtain ⟨h1, h2⟩ := h
  simp only [isJsWhiteSpace, Bool.or_eq_false_iff, Bool.and_eq_false_iff, beq_eq_false_iff_ne,
    decide_eq_false_iff_not]
  omega

theorem digit_ne_slash {c : Char} (h : IsDecimalDigit c) : c ≠ '/' := by
  rintro rfl; revert h; decide

theorem decimalText_chars {s : List Char} {z : Int} (h : DecimalText s z) :
    s ≠ [] ∧ ∀ c ∈ s, isJsWhiteSpace c = false ∧ c ≠ '/' := by
  rcases h with ⟨n, hd, -⟩ | ⟨ds, n, rfl, hd, -⟩
  · exact ⟨hd.1, fun c hc => ⟨digit_not_whiteSpace (hd.2.1 c hc), digit_ne_slash (hd.2.1 c hc)⟩⟩
  · refine ⟨by simp, fun c hc => ?_⟩
    rcases List.mem_cons.mp hc with rfl | hc
    · exact ⟨by decide, by decide⟩
    · exact ⟨digit_not_whiteSpace (hd.2.1 c hc), digit_ne_slash (hd.2.1 c hc)⟩

theorem toNumber_decimalText {s : List Char} {z : Int} (h : DecimalText s z) :
    toNumber (JsValue.string s) = toNumber (JsValue.ofInt z) := by
  obtain ⟨hne, hch⟩ := decimalText_chars h
  have ht : jsTrim s = s := by
    have := jsTrim_padded [] s [] (by simp) (by simp) (fun c hc => (hch c hc).1) hne
    simpa using this
  simp only [toNumber, stringToNumber, ht, if_neg hne, JsValue.ofInt]
  rcases h with ⟨n, hd, rfl⟩ | ⟨ds, n, rfl, hd, rfl⟩
  · rw [parseNumericLiteral_digits hd]; simp
  · rw [parseNumericLiteral_minus hd]; simp

theorem paddedDecimalText_trim {s : List Char} {z : Int} (h : PaddedDecimalText s z) :
    (∀ c ∈ s, c ≠ '/') ∧ DecimalText (jsTrim s) z := by
  obtain ⟨pre, core, post, rfl, hpre, hpost, hcore⟩ := h
  obtain ⟨hne, hch⟩ := decimalText_chars hcore
  constructor
  · intro c hc
    simp only [List.mem_append] at hc
    rcases hc with (hc | hc) | hc
    · rw [hpre c hc]; decide
    · exact (hch c hc).2
    · rw [hpost c hc]; decide
  · rw [jsTrim_padded pre core post (fun c hc => by rw [hpre c hc]; decide)
      (fun c hc => by rw [hpost c hc]; decide) (fun c hc => (hch c hc).1) hne]
    exact hcore

theorem normalizeInputs_congr {a b c a1 b1 c1 : JsValue} (ha : toNumber a = toNumber a1)
    (hb : toNumber b = toNumber b1) (hc : toNumber c = toNumber c1) :
    normalizeInputs a b c = normalizeInputs a1 b1 c1 := by
  simp only [normalizeInputs, ha, hb, hc]

theorem jalaliToGregorian_congr {a b c a1 b1 c1 : JsValue} (ha : toNumber a = toNumber a1)
    (hb : toNumber b = toNumber b1) (hc : toNumber c = toNumber c1) :
    jalaliToGregorian a b c = jalaliToGregorian a1 b1 c1 := by
  simp only [jalaliToGregorian, normalizeInputs_congr ha hb hc]

/-! ## The claims -/

/-- C1, evaluated where it fails: the triple (1, 1, 1) passes every check of the
validator, yet `jalaliToGregorian` returns day of month -736, which is not a
calendrically valid Gregorian date. -/
theorem jalaliToGregorian_year_one_invalid :
    Accepted 1 1 1 ∧
      ∃ r, jalaliToGregorian (JsValue.ofInt 1) (JsValue.ofInt 1) (JsValue.ofInt 1) =
          Except.ok r ∧ r.gd = -736 ∧ ¬ ValidGregorian r.gy r.gm r.gd := by
  refine ⟨by decide, ⟨220, 1, -736, ⟨220, 0, -736⟩⟩, ?_, rfl, by decide⟩
  rfl

/-- C2, evaluated on the code: `jalaliToGregorian(1403, 1, 1)` returns (2024, 1, 1), not
(2024, 3, 20).  The day count is 154863; the same reduction and month walk
started 79 days later end in 2024 at month index 2 with 19 days left, that is
at 20 March 2024. -/
theorem jalaliToGregorian_1403_1_1 :
    jalaliToGregorian (JsValue.ofInt 1403) (JsValue.ofInt 1) (JsValue.ofInt 1) =
        Except.ok { gy := 2024, gm := 1, gd := 1,
                    date := { year := 2024, monthIndex := 0, day := 1 } } ∧
      dayCount 1403 1 1 = 154863 ∧
      reduceYears (dayCount 1403 1 1 + 79) = (2024, 79) ∧
      monthLoop 2024 12 0 79 = (2, 19) := by
  exact ⟨rfl, by decide, by decide, by decide⟩

/-- C3, evaluated on the code: `jalaliToGregorian(1, 1, 1)` returns (220, 1, -736), not
(622, 3, 22); the day count of the input is -357215. -/
theorem jalaliToGregorian_1_1_1 :
    jalaliToGregorian (JsValue.ofInt 1) (JsValue.ofInt 1) (JsValue.ofInt 1) =
        Except.ok { gy := 220, gm := 1, gd := -736,
                    date := { year := 220, monthIndex := 0, day := -736 } } ∧
      dayCount 1 1 1 = -357215 := by
  exact ⟨rfl, by decide⟩

/-- C4: on integer inputs `jalaliToGregorian` returns a result exactly when the
triple is accepted (year at least 1, month in 1..12, day in 1..maxDay); every
other integer triple raises; on an accepted triple the validator returns the
triple itself, the result is the value of the conversion stage, and every read
of the month-length table is at an index inside the table. -/
theorem jalaliToGregorian_returns_iff_accepted (y m d : Int) :
    ((∃ r, jalaliToGregorian (JsValue.ofInt y) (JsValue.ofInt m) (JsValue.ofInt d) =
        Except.ok r) ↔ Accepted y m d) ∧
    (¬ Accepted y m d →
      ∃ e, jalaliToGregorian (JsValue.ofInt y) (JsValue.ofInt m) (JsValue.ofInt d) =
        Except.error e) ∧
    (Accepted y m d →
      normalizeInputs (JsValue.ofInt y) (JsValue.ofInt m) (JsValue.ofInt d) =
          Except.ok { year := y, month := m, day := d } ∧
        jalaliToGregorian (JsValue.ofInt y) (JsValue.ofInt m) (JsValue.ofInt d) =
          Except.ok (toGregorian { year := y, month := m, day := d }) ∧
        ∀ i ∈ monthLoopReads (reduceYears (dayCount y m d)).1 12 0
            (reduceYears (dayCount y m d)).2, i < GREGORIAN_MONTH_LENGTHS.length) := by
  refine ⟨⟨?_, fun h => ⟨_, jalaliToGregorian_accepted h⟩⟩, jalaliToGregorian_rejected, ?_⟩
  · rintro ⟨r, hr⟩
    by_contra hn
    obtain ⟨e, he⟩ := jalaliToGregorian_rejected hn
    rw [he] at hr
    cases hr
  · intro h
    exact ⟨normalizeInputs_accepted h, jalaliToGregorian_accepted h,
      monthLoopReads_lt _ _ _ _⟩

theorem jalaliToGregorian_returns_iff_accepted_witness :
    Accepted 1403 1 1 ∧
      normalizeInputs (JsValue.ofInt 1403) (JsValue.ofInt 1) (JsValue.ofInt 1) =
        Except.ok { year := 1403, month := 1, day := 1 } ∧
      (¬ Accepted 1403 12 30 ∧
        ∃ e, jalaliToGregorian (JsValue.ofInt 1403) (JsValue.ofInt 12) (JsValue.ofInt 30) =
          Except.error e) :=
  ⟨by decide,
    ((jalaliToGregorian_returns_iff_accepted 1403 1 1).2.2 (by decide)).1,
    by decide,
    (jalaliToGregorian_returns_iff_accepted 1403 12 30).2.1 (by decide)⟩

/-- C5: with the year at least 1 and the month in 1..12, the validator fails with
the day range error exactly when the day is below 1 or above maxDay; day 31 is
accepted and day 32 rejected for every month up to 6; day 30 of month 12 is
rejected with the day range error, and is rejected for every year whatsoever. -/
theorem normalizeInputs_day_out_of_range (y m d : Int) (hy : 1 ≤ y) (hm : 1 ≤ m ∧ m ≤ 12) :
    (normalizeInputs (JsValue.ofInt y) (JsValue.ofInt m) (JsValue.ofInt d) =
        Except.error (JsError.rangeError "jd is out of range for the provided month") ↔
      (d < 1 ∨ d > maxDay m)) ∧
    (m ≤ 6 →
      normalizeInputs (JsValue.ofInt y) (JsValue.ofInt m) (JsValue.ofInt 31) =
          Except.ok { year := y, month := m, day := 31 } ∧
        normalizeInputs (JsValue.ofInt y) (JsValue.ofInt m) (JsValue.ofInt 32) =
          Except.error (JsError.rangeError "jd is out of range for the provided month")) ∧
    normalizeInputs (JsValue.ofInt y) (JsValue.ofInt 12) (JsValue.ofInt 30) =
      Except.error (JsError.rangeError "jd is out of range for the provided month") ∧
    ∀ y0 : Int, ∃ e,
      normalizeInputs (JsValue.ofInt y0) (JsValue.ofInt 12) (JsValue.ofInt 30) =
        Except.error e := by
  obtain ⟨hm1, hm2⟩ := hm
  refine ⟨?_, ?_, ?_, ?_⟩
  · rw [normalizeInputs_ofInt, if_neg (by omega), if_neg (by omega)]
    by_cases hd : d < 1 ∨ d > maxDay m
    · simp [hd]
    · simp [hd]
  · intro h6
    constructor
    · rw [normalizeInputs_ofInt, if_neg (by omega), if_neg (by omega),
        if_neg (by simp only [maxDay, if_pos h6]; omega)]
    · rw [normalizeInputs_ofInt, if_neg (by omega), if_neg (by omega),
        if_pos (by simp only [maxDay, if_pos h6]; omega)]
  · rw [normalizeInputs_ofInt, if_neg (by omega), if_neg (by omega), if_pos (by decide)]
  · intro y0
    rw [normalizeInputs_ofInt]
    by_cases h0 : y0 < 1
    · exact ⟨_, if_pos h0⟩
    · rw [if_neg h0, if_neg (by omega), if_pos (by decide)]
      exact ⟨_, rfl⟩

theorem normalizeInputs_day_out_of_range_witness :
    normalizeInputs (JsValue.ofInt 1403) (JsValue.ofInt 6) (JsValue.ofInt 31) =
        Except.ok { year := 1403, month := 6, day := 31 } ∧
      normalizeInputs (JsValue.ofInt 1403) (JsValue.ofInt 6) (JsValue.ofInt 32) =
        Except.error (JsError.rangeError "jd is out of range for the provided month") :=
  (normalizeInputs_day_out_of_range 1403 6 0 (by decide) (by decide)).2.1 (by decide)

/-- C6 as stated fails: `jalaliToGregorian(1399, 12, 30)` returns no result with
year 2021, month 3 and a day in 1..31. -/
theorem jalaliToGregorian_1399_12_30_not_march :
    ¬ ∃ r, jalaliToGregorian (JsValue.ofInt 1399) (JsValue.ofInt 12) (JsValue.ofInt 30) =
        Except.ok r ∧ r.gy = 2021 ∧ r.gm = 3 ∧ 1 ≤ r.gd ∧ r.gd ≤ 31 := by
  rintro ⟨r, hr, -⟩
  have h : jalaliToGregorian (JsValue.ofInt 1399) (JsValue.ofInt 12) (JsValue.ofInt 30) =
      Except.error (JsError.rangeError "jd is out of range for the provided month") := rfl
  rw [h] at hr
  cases hr

/-- C6 as amended: `jalaliToGregorian(1399, 12, 30)` fails with the day range error,
day 30 of month 12 being rejected although 1399 is a Jalali leap year. -/
theorem jalaliToGregorian_1399_12_30_rejected :
    jalaliToGregorian (JsValue.ofInt 1399) (JsValue.ofInt 12) (JsValue.ofInt 30) =
      Except.error (JsError.rangeError "jd is out of range for the provided month") := rfl

/-- C8: on integer inputs with the year below 1, `jalaliToGregorian` fails with the
year range error, whatever the month and the day are. -/
theorem jalaliToGregorian_year_out_of_range (y m d : Int) (hy : y < 1) :
    jalaliToGregorian (JsValue.ofInt y) (JsValue.ofInt m) (JsValue.ofInt d) =
      Except.error (JsError.rangeError "jy must be a positive Jalali year") := by
  simp [jalaliToGregorian, normalizeInputs_ofInt, hy]

theorem jalaliToGregorian_year_out_of_range_witness :
    jalaliToGregorian (JsValue.ofInt 0) (JsValue.ofInt 13) (JsValue.ofInt 99) =
        Except.error (JsError.rangeError "jy must be a positive Jalali year") ∧
      jalaliToGregorian (JsValue.ofInt (-5)) (JsValue.ofInt 1) (JsValue.ofInt 1) =
        Except.error (JsError.rangeError "jy must be a positive Jalali year") :=
  ⟨jalaliToGregorian_year_out_of_range 0 13 99 (by decide),
    jalaliToGregorian_year_out_of_range (-5) 1 1 (by decide)⟩

/-- C9: on integer inputs with the year at least 1 and the month outside 1..12,
`jalaliToGregorian` fails with the month range error, whatever the day is. -/
theorem jalaliToGregorian_month_out_of_range (y m d : Int) (hy : 1 ≤ y)
    (hm : m < 1 ∨ 12 < m) :
    jalaliToGregorian (JsValue.ofInt y) (JsValue.ofInt m) (JsValue.ofInt d) =
      Except.error (JsError.rangeError "jm must be between 1 and 12") := by
  have h1 : ¬ y < 1 := by omega
  have h2 : m < 1 ∨ m > 12 := hm
  simp [jalaliToGregorian, normalizeInputs_ofInt, h1, h2]

theorem jalaliToGregorian_month_out_of_range_witness :
    jalaliToGregorian (JsValue.ofInt 1403) (JsValue.ofInt 0) (JsValue.ofInt 99) =
        Except.error (JsError.rangeError "jm must be between 1 and 12") ∧
      jalaliToGregorian (JsValue.ofInt 1403) (JsValue.ofInt 13) (JsValue.ofInt 1) =
        Except.error (JsError.rangeError "jm must be between 1 and 12") :=
  ⟨jalaliToGregorian_month_out_of_range 1403 0 99 (by decide) (by decide),
    jalaliToGregorian_month_out_of_range 1403 13 1 (by decide) (by decide)⟩

/-- C10: for integers y, m, d, the string made of their decimal texts (leading zeros
and surrounding spaces allowed) joined by `/`, the array `[y, m, d]` and any
object whose fields `jy`, `jm`, `jd` hold y, m, d are all converted, with the
default separator, to the outcome of `jalaliToGregorian(y, m, d)`: the same
result, or the same error. -/
theorem convert_shapes_agree (y m d : Int) (sy sm sd : List Char)
    (fields : List (String × JsValue))
    (hy : PaddedDecimalText sy y) (hm : PaddedDecimalText sm m) (hd : PaddedDecimalText sd d)
    (hfy : fields.lookup "jy" = some (JsValue.ofInt y))
    (hfm : fields.lookup "jm" = some (JsValue.ofInt m))
    (hfd : fields.lookup "jd" = some (JsValue.ofInt d)) :
    convert (JsInput.value (JsValue.string (sy ++ '/' :: (sm ++ '/' :: sd)))) none =
        jalaliToGregorian (JsValue.ofInt y) (JsValue.ofInt m) (JsValue.ofInt d) ∧
      convert (JsInput.array [JsValue.ofInt y, JsValue.ofInt m, JsValue.ofInt d]) none =
        jalaliToGregorian (JsValue.ofInt y) (JsValue.ofInt m) (JsValue.ofInt d) ∧
      convert (JsInput.object fields) none =
        jalaliToGregorian (JsValue.ofInt y) (JsValue.ofInt m) (JsValue.ofInt d) := by
  obtain ⟨hys, hyt⟩ := paddedDecimalText_trim hy
  obtain ⟨hms, hmt⟩ := paddedDecimalText_trim hm
  obtain ⟨hds, hdt⟩ := paddedDecimalText_trim hd
  refine ⟨?_, ?_, ?_⟩
  · have hsplit : jsSplit (sy ++ '/' :: (sm ++ '/' :: sd)) "/".toList = [sy, sm, sd] :=
      jsSplit_three sy sm sd hys hms hds
    simp only [convert, Option.getD_none, hsplit, List.map_cons, List.map_nil,
      List.length_cons, List.length_nil, ne_eq, not_true_eq_false, if_false]
    exact jalaliToGregorian_congr (toNumber_decimalText hyt) (toNumber_decimalText hmt)
      (toNumber_decimalText hdt)
  · simp [convert, getIndex]
  · simp [convert, getField, hfy, hfm, hfd, ofInt_beq_undefined]

theorem decimalDigits_1403 : DecimalDigits "1403".toList 1403 :=
  ⟨by decide, by decide, by decide⟩

theorem decimalDigits_01 : DecimalDigits "01".toList 1 :=
  ⟨by decide, by decide, by decide⟩

theorem convert_shapes_agree_witness :
    convert (JsInput.value (JsValue.string "1403/01/01".toList)) none =
        jalaliToGregorian (JsValue.ofInt 1403) (JsValue.ofInt 1) (JsValue.ofInt 1) ∧
      convert (JsInput.array [JsValue.ofInt 1403, JsValue.ofInt 1, JsValue.ofInt 1]) none =
        jalaliToGregorian (JsValue.ofInt 1403) (JsValue.ofInt 1) (JsValue.ofInt 1) ∧
      convert (JsInput.object [("jy", JsValue.ofInt 1403), ("jm", JsValue.ofInt 1),
          ("jd", JsValue.ofInt 1)]) none =
        jalaliToGregorian (JsValue.ofInt 1403) (JsValue.ofInt 1) (JsValue.ofInt 1) :=
  convert_shapes_agree 1403 1 1 "1403".toList "01".toList "01".toList
    [("jy", JsValue.ofInt 1403), ("jm", JsValue.ofInt 1), ("jd", JsValue.ofInt 1)]
    ⟨[], "1403".toList, [], rfl, by simp, by simp, Or.inl ⟨1403, decimalDigits_1403, rfl⟩⟩
    ⟨[], "01".toList, [], rfl, by simp, by simp, Or.inl ⟨1, decimalDigits_01, rfl⟩⟩
    ⟨[], "01".toList, [], rfl, by simp, by simp, Or.inl ⟨1, decimalDigits_01, rfl⟩⟩
    (by decide) (by decide) (by decide)

/-! ## Arithmetic of the conversion stage -/

theorem floorDiv_eq (a b : Int) (hb : 0 ≤ b) : floorDiv a b = a / b := Int.fdiv_eq_ediv a hb

theorem jsMod_nonneg {a b : Int} (ha : 0 ≤ a) (hb : 0 ≤ b) : jsMod a b = a % b :=
  Int.tmod_eq_emod ha hb

theorem jsMod_nonpos {a b : Int} (ha : a ≤ 0) (hb : 0 ≤ b) : jsMod a b = -((-a) % b) := by
  unfold jsMod
  have h : a = -(-a) := by omega
  rw [Int.tmod_def, Int.emod_def]
  conv_lhs => rw [h, Int.neg_tdiv, Int.tdiv_eq_ediv (by omega) hb]
  simp only [Int.mul_neg, Int.neg_neg]
  omega

theorem leapYear_iff (gy : Int) :
    LeapYear gy ↔ (gy % 4 = 0 ∧ gy % 100 ≠ 0) ∨ gy % 400 = 0 := by
  unfold LeapYear; omega

theorem isLeapGregorian_iff (gy : Int) : isLeapGregorian gy = true ↔ LeapYear gy := by
  simp only [isLeapGregorian, jsMod, Bool.or_eq_true, Bool.and_eq_true, beq_iff_eq,
    bne_iff_ne, ne_eq, LeapYear, Int.dvd_iff_tmod_eq_zero]

/-- Closed form of the days in the years from 1600 on. -/
theorem daysBeforeYear_closed (k : Nat) :
    daysBeforeYear k = 365 * (k : Int) + ((k : Int) + 3) / 4 - ((k : Int) + 99) / 100 +
      ((k : Int) + 399) / 400 := by
  induction k with
  | zero => simp [daysBeforeYear]
  | succ n ih =>
    simp only [daysBeforeYear, ih, yearDays, leapYear_iff]
    push_cast
    split_ifs <;> omega

theorem reduceYears_eq (n : Int) :
    reduceYears n =
      reduceFourYears (reduceCentury (1600 + 400 * floorDiv n 146097) (jsMod n 146097)).1
        (reduceCentury (1600 + 400 * floorDiv n 146097) (jsMod n 146097)).2 := by
  unfold reduceYears reduceCentury reduceFourYears
  by_cases h : jsMod n 146097 ≥ 36525
  · simp only [h, if_true]
  · simp only [h, if_false]

theorem reduceCentury_eq (gy days : Int) :
    reduceCentury gy days =
      if days ≥ 36525 then
        (gy + 100 * ((days - 1) / 36524),
          if (days - 1) % 36524 ≥ 365 then (days - 1) % 36524 + 1 else (days - 1) % 36524)
      else (gy, days) := by
  unfold reduceCentury
  by_cases h1 : days ≥ 36525
  · have hj : jsMod (days - 1) 36524 = (days - 1) % 36524 :=
      jsMod_nonneg (by omega) (by decide)
    simp only [h1, if_true, floorDiv_eq _ _ (by decide : (0:Int) ≤ 36524), hj]
  · simp only [h1, if_false]

theorem reduceFourYears_eq (gy days : Int) (h : 0 ≤ days) :
    reduceFourYears gy days =
      if days % 1461 ≥ 366 then
        (gy + 4 * (days / 1461) + (days % 1461 - 1) / 365, (days % 1461 - 1) % 365)
      else (gy + 4 * (days / 1461), days % 1461) := by
  unfold reduceFourYears
  simp only [floorDiv_eq _ _ (by decide : (0:Int) ≤ 1461),
    floorDiv_eq _ _ (by decide : (0:Int) ≤ 365), jsMod_nonneg h (by decide : (0:Int) ≤ 1461)]
  split_ifs with h1
  · rw [jsMod_nonneg (by omega) (by decide)]
  · rfl

theorem yearParts_closed (q c k i : Int) (hc : 0 ≤ c ∧ c ≤ 3)
    (hk : 0 ≤ k ∧ k ≤ 24) (hi : 0 ≤ i ∧ i ≤ 3) :
    (400 * q + 100 * c + 4 * k + i + 3) / 4 = 100 * q + 25 * c + k + (if i = 0 then 0 else 1) ∧
    (400 * q + 100 * c + 4 * k + i + 99) / 100 =
      4 * q + c + (if 4 * k + i = 0 then 0 else 1) ∧
    (400 * q + 100 * c + 4 * k + i + 399) / 400 =
      q + (if 100 * c + 4 * k + i = 0 then 0 else 1) := by
  refine ⟨?_, ?_, ?_⟩ <;> split_ifs <;> omega

theorem yearParts_leap (q c k i : Int) (hc : 0 ≤ c ∧ c ≤ 3)
    (hk : 0 ≤ k ∧ k ≤ 24) (hi : 0 ≤ i ∧ i ≤ 3) :
    LeapYear (1600 + 400 * q + 100 * c + 4 * k + i) ↔ (i = 0 ∧ (k ≠ 0 ∨ c = 0)) := by
  rw [leapYear_iff]
  omega

theorem yearParts_spec (n g r q c k i : Int) (hq : 0 ≤ q) (hc : 0 ≤ c ∧ c ≤ 3)
    (hk : 0 ≤ k ∧ k ≤ 24) (hi : 0 ≤ i ∧ i ≤ 3)
    (hg : g = 1600 + 400 * q + 100 * c + 4 * k + i)
    (hr : 0 ≤ r ∧ r < (if i = 0 ∧ (k ≠ 0 ∨ c = 0) then 366 else 365))
    (hn : n = 146097 * q + 36524 * c + 1461 * k + 365 * i + (if i = 0 then 0 else 1) -
      (if 4 * k + i = 0 then 0 else 1) + (if 100 * c + 4 * k + i = 0 then 0 else 1) + r) :
    1600 ≤ (g, r).1 ∧ 0 ≤ (g, r).2 ∧ (g, r).2 < yearDays (g, r).1 ∧
      daysBeforeYear ((g, r).1 - 1600).toNat + (g, r).2 = n := by
  obtain ⟨h4, h100, h400⟩ := yearParts_closed q c k i hc hk hi
  have hl := yearParts_leap q c k i hc hk hi
  subst hg
  refine ⟨by simp only []; omega, hr.1, ?_, ?_⟩
  · simp only [yearDays]
    by_cases hleap : i = 0 ∧ (k ≠ 0 ∨ c = 0)
    · rw [if_pos (hl.mpr hleap)]; rw [if_pos hleap] at hr; exact hr.2
    · rw [if_neg (fun h => hleap (hl.mp h))]; rw [if_neg hleap] at hr; exact hr.2
  · simp only []
    rw [daysBeforeYear_closed, Int.toNat_of_nonneg (by omega)]
    have e : 1600 + 400 * q + 100 * c + 4 * k + i - 1600 = 400 * q + 100 * c + 4 * k + i := by
      omega
    rw [e, h4, h100, h400, hn]
    ring

theorem reduceYears_spec (n : Int) (hn : 0 ≤ n) :
    1600 ≤ (reduceYears n).1 ∧ 0 ≤ (reduceYears n).2 ∧
      (reduceYears n).2 < yearDays (reduceYears n).1 ∧
      daysBeforeYear ((reduceYears n).1 - 1600).toNat + (reduceYears n).2 = n := by
  have e1 : 0 ≤ n % 146097 := Int.emod_nonneg _ (by decide)
  have e2 : n % 146097 < 146097 := Int.emod_lt_of_pos _ (by decide)
  have hq : 0 ≤ n / 146097 := Int.ediv_nonneg hn (by decide)
  rw [reduceYears_eq, floorDiv_eq _ _ (by decide), jsMod_nonneg hn (by decide),
    reduceCentury_eq]
  by_cases hc : n % 146097 ≥ 36525
  · simp only [hc, if_true]
    by_cases hd : (n % 146097 - 1) % 36524 ≥ 365
    · simp only [hd, if_true]
      rw [reduceFourYears_eq _ _ (by omega)]
      split_ifs with h4
      · refine yearParts_spec n _ _ (n / 146097) ((n % 146097 - 1) / 36524)
          (((n % 146097 - 1) % 36524 + 1) / 1461)
          ((((n % 146097 - 1) % 36524 + 1) % 1461 - 1) / 365) hq (by omega) (by omega)
          (by omega) (by omega) ?_ ?_
        · split_ifs <;> omega
        · split_ifs <;> omega
      · refine yearParts_spec n _ _ (n / 146097) ((n % 146097 - 1) / 36524)
          (((n % 146097 - 1) % 36524 + 1) / 1461) 0 hq (by omega) (by omega)
          (by omega) (by omega) ?_ ?_
        · split_ifs <;> omega
        · split_ifs <;> omega
    · simp only [hd, if_false]
      rw [reduceFourYears_eq _ _ (by omega)]
      split_ifs with h4
      · exfalso; omega
      · refine yearParts_spec n _ _ (n / 146097) ((n % 146097 - 1) / 36524)
          (((n % 146097 - 1) % 36524) / 1461) 0 hq (by omega) (by omega)
          (by omega) (by omega) ?_ ?_
        · split_ifs <;> omega
        · split_ifs <;> omega
  · simp only [hc, if_false]
    rw [reduceFourYears_eq _ _ (by omega)]
    split_ifs with h4
    · refine yearParts_spec n _ _ (n / 146097) 0 ((n % 146097) / 1461)
        (((n % 146097) % 1461 - 1) / 365) hq (by omega) (by omega)
        (by omega) (by omega) ?_ ?_
      · split_ifs <;> omega
      · split_ifs <;> omega
    · refine yearParts_spec n _ _ (n / 146097) 0 ((n % 146097) / 1461) 0 hq (by omega)
        (by omega) (by omega) (by omega) ?_ ?_
      · split_ifs <;> omega
      · split_ifs <;> omega

theorem monthLength_eq (gy : Int) (gm : Nat) (h : gm < 12) :
    monthLength gy gm h = gregorianMonthDays gy ((gm + 1 : Nat) : Int) := by
  unfold monthLength gregorianMonthDays
  by_cases hl : LeapYear gy
  · have hb : isLeapGregorian gy = true := (isLeapGregorian_iff gy).mpr hl
    interval_cases gm <;> simp [GREGORIAN_MONTH_LENGTHS, hl, hb] <;> rfl
  · have hb : ¬ isLeapGregorian gy = true := fun h => hl ((isLeapGregorian_iff gy).mp h)
    interval_cases gm <;> simp [GREGORIAN_MONTH_LENGTHS, hl, hb] <;> rfl

theorem daysBeforeMonth_twelve (gy : Int) : daysBeforeMonth gy 12 = yearDays gy := by
  by_cases hl : LeapYear gy <;> simp [daysBeforeMonth, gregorianMonthDays, yearDays, hl]

theorem monthLoop_inv (gy : Int) (fuel gm : Nat) (days : Int) (hf : gm + fuel = 12)
    (h0 : 0 ≤ days) (h1 : daysBeforeMonth gy gm + days < yearDays gy) :
    (monthLoop gy fuel gm days).1 < 12 ∧ 0 ≤ (monthLoop gy fuel gm days).2 ∧
      (monthLoop gy fuel gm days).2 <
        gregorianMonthDays gy (((monthLoop gy fuel gm days).1 + 1 : Nat) : Int) ∧
      daysBeforeMonth gy (monthLoop gy fuel gm days).1 + (monthLoop gy fuel gm days).2 =
        daysBeforeMonth gy gm + days := by
  induction fuel generalizing gm days with
  | zero =>
    have hgm : gm = 12 := by omega
    subst hgm
    rw [daysBeforeMonth_twelve] at h1
    omega
  | succ f ih =>
    have hlt : gm < 12 := by omega
    unfold monthLoop
    rw [dif_pos hlt, monthLength_eq]
    by_cases hd : days < gregorianMonthDays gy ((gm + 1 : Nat) : Int)
    · rw [if_pos hd]
      exact ⟨hlt, h0, hd, rfl⟩
    · rw [if_neg hd]
      have hstep : daysBeforeMonth gy (gm + 1) =
          daysBeforeMonth gy gm + gregorianMonthDays gy ((gm + 1 : Nat) : Int) := by
        simp [daysBeforeMonth]
      obtain ⟨a, b, c, d⟩ := ih (gm + 1) (days - gregorianMonthDays gy ((gm + 1 : Nat) : Int))
        (by omega) (by omega) (by rw [hstep]; omega)
      exact ⟨a, b, c, by rw [d, hstep]; omega⟩

theorem monthLoop_spec (gy r : Int) (h0 : 0 ≤ r) (h1 : r < yearDays gy) :
    (monthLoop gy 12 0 r).1 < 12 ∧ 0 ≤ (monthLoop gy 12 0 r).2 ∧
      (monthLoop gy 12 0 r).2 <
        gregorianMonthDays gy (((monthLoop gy 12 0 r).1 + 1 : Nat) : Int) ∧
      daysBeforeMonth gy (monthLoop gy 12 0 r).1 + (monthLoop gy 12 0 r).2 = r := by
  have h := monthLoop_inv gy 12 0 r rfl h0 (by simpa [daysBeforeMonth] using h1)
  simpa [daysBeforeMonth] using h

theorem digitChar_toNat (m : Nat) (h : m < 10) : (Nat.digitChar m).toNat = 48 + m := by
  interval_cases m <;> rfl

theorem toDigitsCore_spec (fuel n : Nat) (acc : List Char) (h : n < fuel) :
    ∃ pre, Nat.toDigitsCore 10 fuel n acc = pre ++ acc ∧ DecimalDigits pre n ∧
      (pre = ['0'] ∨ pre.head? ≠ some '0') := by
  induction fuel generalizing n acc with
  | zero => omega
  | succ f ih =>
    have hd : (Nat.digitChar (n % 10)).toNat = 48 + n % 10 :=
      digitChar_toNat _ (Nat.mod_lt _ (by decide))
    have hdig : IsDecimalDigit (Nat.digitChar (n % 10)) := by
      unfold IsDecimalDigit; omega
    unfold Nat.toDigitsCore
    simp only []
    by_cases h0 : n / 10 = 0
    · rw [if_pos h0]
      have hn : n < 10 := by omega
      refine ⟨[Nat.digitChar (n % 10)], rfl, ⟨by simp, ?_, ?_⟩, ?_⟩
      · intro c hc
        rw [List.mem_singleton.mp hc]; exact hdig
      · simp only [List.reverse_singleton, List.map_cons, List.map_nil, Nat.ofDigits_singleton,
          hd]
        omega
      · rw [Nat.mod_eq_of_lt hn]
        interval_cases n <;> decide
    · rw [if_neg h0]
      obtain ⟨pre, hpre, hdec, hcan⟩ := ih (n / 10) (Nat.digitChar (n % 10) :: acc) (by omega)
      refine ⟨pre ++ [Nat.digitChar (n % 10)], by rw [hpre]; simp, ⟨by simp, ?_, ?_⟩, ?_⟩
      · intro c hc
        rcases List.mem_append.mp hc with hc | hc
        · exact hdec.2.1 c hc
        · rw [List.mem_singleton.mp hc]; exact hdig
      · simp only [List.reverse_append, List.reverse_singleton, List.singleton_append,
          List.map_cons, Nat.ofDigits_cons, hdec.2.2, hd]
        omega
      · right
        have hne : pre ≠ [] := hdec.1
        have hnz : pre ≠ ['0'] := by
          rintro rfl
          have := hdec.2.2
          simp at this
          omega
        rcases hcan with hcan | hcan
        · exact absurd hcan hnz
        · cases pre with
          | nil => exact absurd rfl hne
          | cons a t => simpa using hcan

theorem intToString_nonneg (n : Int) (h : 0 ≤ n) :
    DecimalDigits (intToString n) n.toNat ∧
      (intToString n = ['0'] ∨ (intToString n).head? ≠ some '0') := by
  obtain ⟨pre, hpre, hdec, hcan⟩ := toDigitsCore_spec (n.natAbs + 1) n.natAbs [] (by omega)
  have e : intToString n = pre := by
    unfold intToString Nat.toDigits
    rw [if_neg (by omega), hpre, List.append_nil]
  have e2 : n.toNat = n.natAbs := by omega
  rw [e, e2]
  exact ⟨hdec, hcan⟩

theorem pad_two_digits (v : Int) (h : 1 ≤ v ∧ v ≤ 31) :
    (pad v).length = 2 ∧ DecimalDigits (pad v) v.toNat := by
  obtain ⟨h1, h2⟩ := h
  interval_cases v <;> exact ⟨rfl, by decide, by decide, by decide⟩

theorem normalizeInputs_error_kind (a b c : JsValue) (e : JsError)
    (h : normalizeInputs a b c = Except.error e) :
    ∃ msg, e = JsError.typeError msg ∨ e = JsError.rangeError msg := by
  unfold normalizeInputs at h
  simp only [] at h
  split_ifs at h <;> first
    | (cases h; exact ⟨_, Or.inl rfl⟩)
    | (cases h; exact ⟨_, Or.inr rfl⟩)

theorem jalaliToGregorian_error_kind (a b c : JsValue) (e : JsError)
    (h : jalaliToGregorian a b c = Except.error e) :
    ∃ msg, e = JsError.typeError msg ∨ e = JsError.rangeError msg := by
  unfold jalaliToGregorian at h
  split at h
  · rename_i e1 he
    cases h
    exact normalizeInputs_error_kind a b c _ he
  · cases h

theorem jalaliToGregorian_ne_error (a b c : JsValue) (msg : String) :
    jalaliToGregorian a b c ≠ Except.error (JsError.error msg) := by
  intro h
  obtain ⟨m, hm | hm⟩ := jalaliToGregorian_error_kind a b c _ h <;> cases hm

theorem getField_undefined_iff (fields : List (String × JsValue)) (name : String) :
    getField fields name = JsValue.undefined ↔
      fields.lookup name = none ∨ fields.lookup name = some JsValue.undefined := by
  unfold getField
  cases fields.lookup name with
  | none => simp
  | some v => simp

theorem dayCount_eq_spec (y m d : Int) (hy : 979 ≤ y) : dayCount y m d = specDayCount y m d := by
  unfold dayCount specDayCount
  simp only [floorDiv_eq _ _ (by decide : (0:Int) ≤ 33), floorDiv_eq _ _ (by decide : (0:Int) ≤ 4),
    jsMod_nonneg (by omega : 0 ≤ y - 979) (by decide : (0:Int) ≤ 33)]
  split_ifs <;> omega

theorem specDayCount_nonneg (y m d : Int) (h : Accepted y m d) (hy : 979 ≤ y) :
    0 ≤ specDayCount y m d := by
  obtain ⟨h1, h2, h3, h4, h5⟩ := h
  unfold specDayCount
  simp only []
  split_ifs <;> omega

theorem toGregorian_gy (j : JalaliDate) :
    (toGregorian j).gy = (reduceYears (dayCount j.year j.month j.day)).1 := rfl

theorem toGregorian_gm (j : JalaliDate) :
    (toGregorian j).gm =
      (((monthLoop (reduceYears (dayCount j.year j.month j.day)).1 12 0
        (reduceYears (dayCount j.year j.month j.day)).2).1 : Nat) : Int) + 1 := rfl

theorem toGregorian_gd (j : JalaliDate) :
    (toGregorian j).gd =
      (monthLoop (reduceYears (dayCount j.year j.month j.day)).1 12 0
        (reduceYears (dayCount j.year j.month j.day)).2).2 + 1 := rfl

/-- The year reduction and the month walk invert the day number on every
non-negative day count. -/
theorem walk_spec (n : Int) (hn : 0 ≤ n) :
    1600 ≤ (reduceYears n).1 ∧
      (monthLoop (reduceYears n).1 12 0 (reduceYears n).2).1 < 12 ∧
      ValidGregorian (reduceYears n).1
        (((monthLoop (reduceYears n).1 12 0 (reduceYears n).2).1 : Nat) + 1)
        ((monthLoop (reduceYears n).1 12 0 (reduceYears n).2).2 + 1) ∧
      dayNumber (reduceYears n).1
        (((monthLoop (reduceYears n).1 12 0 (reduceYears n).2).1 : Nat) + 1)
        ((monthLoop (reduceYears n).1 12 0 (reduceYears n).2).2 + 1) = n := by
  obtain ⟨h1, h2, h3, h4⟩ := reduceYears_spec n hn
  obtain ⟨k1, k2, k3, k4⟩ := monthLoop_spec _ _ h2 h3
  refine ⟨h1, k1, ⟨by omega, by omega, by omega, ?_⟩, ?_⟩
  · push_cast at k3; omega
  · unfold dayNumber
    simp only [add_sub_cancel_right, Int.toNat_ofNat]
    omega

theorem yearDays_pos (gy : Int) : 365 ≤ yearDays gy := by
  unfold yearDays; split_ifs <;> omega

theorem daysBeforeYear_mono {a b : Nat} (h : a ≤ b) : daysBeforeYear a ≤ daysBeforeYear b := by
  induction b, h using Nat.le_induction with
  | base => exact le_refl _
  | succ n _ ih =>
    have := yearDays_pos (1600 + n)
    simp only [daysBeforeYear]
    omega

theorem gregorianMonthDays_pos (gy gm : Int) : 28 ≤ gregorianMonthDays gy gm := by
  unfold gregorianMonthDays; split_ifs <;> omega

theorem daysBeforeMonth_mono (gy : Int) {a b : Nat} (h : a ≤ b) :
    daysBeforeMonth gy a ≤ daysBeforeMonth gy b := by
  induction b, h using Nat.le_induction with
  | base => exact le_refl _
  | succ n _ ih =>
    have := gregorianMonthDays_pos gy ((n + 1 : Nat) : Int)
    simp only [daysBeforeMonth]
    push_cast at this ⊢
    omega

/-- The day of the year of a valid date lies within its month and its year. -/
theorem dayOfYear_bounds {gy gm gd : Int} (h : ValidGregorian gy gm gd) :
    daysBeforeMonth gy (gm - 1).toNat ≤ daysBeforeMonth gy (gm - 1).toNat + (gd - 1) ∧
      daysBeforeMonth gy (gm - 1).toNat + (gd - 1) < daysBeforeMonth gy gm.toNat ∧
      daysBeforeMonth gy gm.toNat ≤ yearDays gy := by
  obtain ⟨h1, h2, h3, h4⟩ := h
  obtain ⟨k, rfl⟩ : ∃ k : Nat, gm = (k : Int) + 1 := ⟨(gm - 1).toNat, by omega⟩
  have e1 : ((k : Int) + 1 - 1).toNat = k := by omega
  have e2 : ((k : Int) + 1).toNat = k + 1 := by omega
  rw [e1, e2]
  have hstep : daysBeforeMonth gy (k + 1) =
      daysBeforeMonth gy k + gregorianMonthDays gy ((k : Int) + 1) := by
    simp [daysBeforeMonth]
  have hle : daysBeforeMonth gy (k + 1) ≤ daysBeforeMonth gy 12 :=
    daysBeforeMonth_mono gy (by omega)
  rw [daysBeforeMonth_twelve] at hle
  refine ⟨by omega, by omega, hle⟩

theorem dayNumber_lt_of_dateLt {a b : Int × Int × Int} (ha : ValidGregorian a.1 a.2.1 a.2.2)
    (hb : ValidGregorian b.1 b.2.1 b.2.2) (hy : 1600 ≤ a.1) (h : DateLt a b) :
    dayNumber a.1 a.2.1 a.2.2 < dayNumber b.1 b.2.1 b.2.2 := by
  obtain ⟨a1, a2, a3⟩ := dayOfYear_bounds ha
  obtain ⟨b1, b2, b3⟩ := dayOfYear_bounds hb
  have hb0 : 0 ≤ daysBeforeMonth b.1 (b.2.1 - 1).toNat := by
    have := daysBeforeMonth_mono b.1 (Nat.zero_le (b.2.1 - 1).toNat)
    simpa [daysBeforeMonth] using this
  unfold dayNumber
  rcases h with h | ⟨hy1, h | ⟨hm1, h⟩⟩
  · have hk : (a.1 - 1600).toNat + 1 ≤ (b.1 - 1600).toNat := by omega
    have hm := daysBeforeYear_mono hk
    have e : ((1600 : Int) + ((a.1 - 1600).toNat : Nat)) = a.1 := by omega
    simp only [daysBeforeYear, e] at hm
    omega
  · rw [← hy1] at b1 b2 hb0 ⊢
    have hk : a.2.1.toNat ≤ (b.2.1 - 1).toNat := by
      have := ha.1; omega
    have hm := daysBeforeMonth_mono a.1 hk
    omega
  · rw [← hy1, ← hm1]
    omega

theorem dateLt_trichotomy (a b : Int × Int × Int) : DateLt a b ∨ a = b ∨ DateLt b a := by
  obtain ⟨a1, a2, a3⟩ := a
  obtain ⟨b1, b2, b3⟩ := b
  simp only [DateLt, Prod.mk.injEq]
  omega

theorem dayNumber_inj {a b : Int × Int × Int} (ha : ValidGregorian a.1 a.2.1 a.2.2)
    (hb : ValidGregorian b.1 b.2.1 b.2.2) (hya : 1600 ≤ a.1) (hyb : 1600 ≤ b.1)
    (h : dayNumber a.1 a.2.1 a.2.2 = dayNumber b.1 b.2.1 b.2.2) : a = b := by
  rcases dateLt_trichotomy a b with hlt | heq | hgt
  · have := dayNumber_lt_of_dateLt ha hb hya hlt
    omega
  · exact heq
  · have := dayNumber_lt_of_dateLt hb ha hyb hgt
    omega

/-- The conversion stage on a validated date of year 979 or later. -/
theorem toGregorian_spec (y m d : Int) (h : Accepted y m d) (hy : 979 ≤ y) :
    1600 ≤ (toGregorian { year := y, month := m, day := d }).gy ∧
      ValidGregorian (toGregorian { year := y, month := m, day := d }).gy
        (toGregorian { year := y, month := m, day := d }).gm
        (toGregorian { year := y, month := m, day := d }).gd ∧
      dayNumber (toGregorian { year := y, month := m, day := d }).gy
        (toGregorian { year := y, month := m, day := d }).gm
        (toGregorian { year := y, month := m, day := d }).gd = specDayCount y m d := by
  have hn : 0 ≤ dayCount y m d := by
    rw [dayCount_eq_spec y m d hy]; exact specDayCount_nonneg y m d h hy
  obtain ⟨w1, _, w3, w4⟩ := walk_spec (dayCount y m d) hn
  rw [toGregorian_gy, toGregorian_gm, toGregorian_gd]
  refine ⟨w1, w3, ?_⟩
  rw [← dayCount_eq_spec y m d hy]
  exact w4

/-- The start of a Jalali year in the day count grows by at least 365 a year. -/
theorem yearStart_step (j : Int) :
    365 * j + 8 * (j / 33) + ((j % 33) + 3) / 4 + 365 ≤
      365 * (j + 1) + 8 * ((j + 1) / 33) + (((j + 1) % 33) + 3) / 4 := by
  omega

theorem yearStart_mono (j : Int) (k : Nat) :
    365 * j + 8 * (j / 33) + ((j % 33) + 3) / 4 + 365 * ((k : Int) + 1) ≤
      365 * (j + k + 1) + 8 * ((j + k + 1) / 33) + (((j + k + 1) % 33) + 3) / 4 := by
  induction k with
  | zero => simpa using yearStart_step j
  | succ n ih =>
    have := yearStart_step (j + n + 1)
    push_cast at ih ⊢
    have e : j + (↑n + 1) + 1 = j + ↑n + 1 + 1 := by ring
    rw [e]
    omega

theorem specDayCount_lt (y1 m1 d1 y2 m2 d2 : Int) (ha : Accepted y1 m1 d1)
    (hb : Accepted y2 m2 d2) (h : DateLt (y1, m1, d1) (y2, m2, d2)) :
    specDayCount y1 m1 d1 < specDayCount y2 m2 d2 := by
  obtain ⟨a1, a2, a3, a4, a5⟩ := ha
  obtain ⟨b1, b2, b3, b4, b5⟩ := hb
  unfold maxDay at a5 b5
  simp only [DateLt] at h
  unfold specDayCount
  simp only []
  rcases h with h | ⟨h, h2⟩
  · obtain ⟨k, hk⟩ : ∃ k : Nat, y2 - 979 = (y1 - 979) + k + 1 := ⟨(y2 - y1 - 1).toNat, by omega⟩
    have := yearStart_mono (y1 - 979) k
    rw [hk]
    split_ifs at a5 b5 ⊢ <;> omega
  · subst h
    split_ifs at a5 b5 ⊢ <;> omega

theorem reduceYears_neg (n : Int) (hn : n < 0) :
    reduceYears n =
        (1600 + 400 * floorDiv n 146097 + 4 * floorDiv (jsMod n 146097) 1461,
          jsMod (jsMod n 146097) 1461) ∧
      jsMod (jsMod n 146097) 1461 ≤ 0 := by
  have h1 : jsMod n 146097 ≤ 0 := by
    rw [jsMod_nonpos (by omega) (by decide)]; omega
  have h2 : jsMod (jsMod n 146097) 1461 ≤ 0 := by
    rw [jsMod_nonpos h1 (by decide)]; omega
  refine ⟨?_, h2⟩
  rw [reduceYears_eq, reduceCentury_eq, if_neg (by omega)]
  unfold reduceFourYears
  simp only []
  rw [if_neg (by omega)]

theorem monthLoop_nonpos (gy r : Int) (h : r ≤ 0) : monthLoop gy 12 0 r = (0, r) := by
  have hm := monthLength_eq gy 0 (by decide)
  have hp := gregorianMonthDays_pos gy ((0 + 1 : Nat) : Int)
  unfold monthLoop
  rw [dif_pos (by decide), if_pos (by omega)]

theorem dayCount_before_979 (y m d : Int) (h : Accepted y m d) (hy : y ≤ 978) :
    dayCount y m d ≤ -9 := by
  obtain ⟨a1, a2, a3, a4, a5⟩ := h
  unfold maxDay at a5
  unfold dayCount
  simp only [floorDiv_eq _ _ (by decide : (0:Int) ≤ 33), floorDiv_eq _ _ (by decide : (0:Int) ≤ 4),
    jsMod_nonpos (by omega : y - 979 ≤ 0) (by decide : (0:Int) ≤ 33)]
  split_ifs at a5 ⊢ <;> omega

theorem toGregorian_before_979 (y m d : Int) (h : Accepted y m d) (hy : y ≤ 978) :
    (toGregorian { year := y, month := m, day := d }).gy =
        1600 + 400 * floorDiv (dayCount y m d) 146097 +
          4 * floorDiv (jsMod (dayCount y m d) 146097) 1461 ∧
      (toGregorian { year := y, month := m, day := d }).gm = 1 ∧
      (toGregorian { year := y, month := m, day := d }).gd =
        1 + jsMod (jsMod (dayCount y m d) 146097) 1461 ∧
      jsMod (jsMod (dayCount y m d) 146097) 1461 ≤ 0 := by
  have hn := dayCount_before_979 y m d h hy
  obtain ⟨e, hle⟩ := reduceYears_neg (dayCount y m d) (by omega)
  rw [toGregorian_gy, toGregorian_gm, toGregorian_gd, e]
  have hm := monthLoop_nonpos (1600 + 400 * floorDiv (dayCount y m d) 146097 +
    4 * floorDiv (jsMod (dayCount y m d) 146097) 1461) _ hle
  refine ⟨rfl, ?_, ?_, hle⟩
  · simp only [hm]; simp
  · simp only [hm]; omega

/-! ## The claims on formatting, input shapes and the conversion -/

/-- C13: for every array, `convert` fails with the element count error exactly when
its length is not 3, whatever its elements are; with length 3 the outcome is
that of `jalaliToGregorian` on the elements in the order year, month, day. -/
theorem convert_array_spec (xs : List JsValue) (separator : Option (List Char)) :
    (convert (JsInput.array xs) separator =
        Except.error (JsError.error "Array input must contain exactly [jy, jm, jd]") ↔
      xs.length ≠ 3) ∧
    (∀ a b c, xs = [a, b, c] →
      convert (JsInput.array xs) separator = jalaliToGregorian a b c) := by
  constructor
  · constructor
    · intro h hlen
      simp only [convert, hlen, ne_eq, not_true_eq_false, if_false] at h
      exact jalaliToGregorian_ne_error _ _ _ _ h
    · intro hlen
      simp only [convert, hlen, ne_eq, not_false_eq_true, if_true]
  · rintro a b c rfl
    simp [convert, getIndex]

theorem convert_array_spec_witness :
    convert (JsInput.array [JsValue.ofInt 1403, JsValue.string "x".toList, JsValue.null]) none =
      jalaliToGregorian (JsValue.ofInt 1403) (JsValue.string "x".toList) JsValue.null :=
  (convert_array_spec [JsValue.ofInt 1403, JsValue.string "x".toList, JsValue.null] none).2
    _ _ _ rfl

/-- C14 as stated fails: the object with `jy` present and holding `undefined`, `jm` 1
and `jd` 1 has none of the three fields absent, yet `convert` fails with the
missing field error. -/
theorem convert_object_undefined_field :
    (List.lookup "jy" [("jy", JsValue.undefined), ("jm", JsValue.ofInt 1),
        ("jd", JsValue.ofInt 1)] ≠ none ∧
      List.lookup "jm" [("jy", JsValue.undefined), ("jm", JsValue.ofInt 1),
        ("jd", JsValue.ofInt 1)] ≠ none ∧
      List.lookup "jd" [("jy", JsValue.undefined), ("jm", JsValue.ofInt 1),
        ("jd", JsValue.ofInt 1)] ≠ none) ∧
    convert (JsInput.object [("jy", JsValue.undefined), ("jm", JsValue.ofInt 1),
        ("jd", JsValue.ofInt 1)]) none =
      Except.error (JsError.error "Object input must include jy, jm and jd fields") := by
  refine ⟨⟨by decide, by decide, by decide⟩, ?_⟩
  rfl

/-- C14 as amended: for every object, `convert` fails with the missing field error
exactly when one of `jy`, `jm`, `jd` reads as `undefined`, that is when the
field is absent or holds `undefined`; otherwise the outcome is that of
`jalaliToGregorian` on the three field values. -/
theorem convert_object_spec (fields : List (String × JsValue))
    (separator : Option (List Char)) :
    (convert (JsInput.object fields) separator =
        Except.error (JsError.error "Object input must include jy, jm and jd fields") ↔
      (getField fields "jy" = JsValue.undefined ∨ getField fields "jm" = JsValue.undefined ∨
        getField fields "jd" = JsValue.undefined)) ∧
    ((getField fields "jy" ≠ JsValue.undefined ∧ getField fields "jm" ≠ JsValue.undefined ∧
        getField fields "jd" ≠ JsValue.undefined) →
      convert (JsInput.object fields) separator =
        jalaliToGregorian (getField fields "jy") (getField fields "jm")
          (getField fields "jd")) ∧
    (∀ name, getField fields name = JsValue.undefined ↔
      (fields.lookup name = none ∨ fields.lookup name = some JsValue.undefined)) := by
  refine ⟨?_, ?_, getField_undefined_iff fields⟩
  · by_cases h : getField fields "jy" = JsValue.undefined ∨
        getField fields "jm" = JsValue.undefined ∨ getField fields "jd" = JsValue.undefined
    · simp only [h, iff_true]
      have : ([getField fields "jy", getField fields "jm", getField fields "jd"].any
          fun value => value == JsValue.undefined) = true := by
        simpa using h
      simp only [convert, this, if_true]
    · simp only [h, iff_false]
      have : ([getField fields "jy", getField fields "jm", getField fields "jd"].any
          fun value => value == JsValue.undefined) = false := by
        simpa using h
      simp only [convert, this]
      exact jalaliToGregorian_ne_error _ _ _ _
  · rintro ⟨h1, h2, h3⟩
    have : ([getField fields "jy", getField fields "jm", getField fields "jd"].any
        fun value => value == JsValue.undefined) = false := by
      simp [h1, h2, h3]
    simp only [convert, this]
    rfl

theorem convert_object_spec_witness :
    convert (JsInput.object [("jd", JsValue.ofInt 1), ("jy", JsValue.null),
        ("jm", JsValue.ofInt 1)]) none =
      jalaliToGregorian JsValue.null (JsValue.ofInt 1) (JsValue.ofInt 1) :=
  (convert_object_spec [("jd", JsValue.ofInt 1), ("jy", JsValue.null),
    ("jm", JsValue.ofInt 1)] none).2.1 ⟨by decide, by decide, by decide⟩

/-- C17 as stated fails: the accepted triple (3, 1, 7) has day count -356478, which is
not a multiple of 1461, and `jalaliToGregorian` returns (224, 1, 1), a valid
Gregorian date. -/
theorem jalaliToGregorian_3_1_7_valid :
    Accepted 3 1 7 ∧ dayCount 3 1 7 = -356478 ∧ ¬ (1461 : Int) ∣ dayCount 3 1 7 ∧
      jalaliToGregorian (JsValue.ofInt 3) (JsValue.ofInt 1) (JsValue.ofInt 7) =
        Except.ok { gy := 224, gm := 1, gd := 1,
                    date := { year := 224, monthIndex := 0, day := 1 } } ∧
      ValidGregorian 224 1 1 := by
  refine ⟨by decide, by decide, by decide, ?_, by decide⟩
  rfl

/-- C17 as amended: for an accepted triple of year 978 or earlier the day count N is
at most -9 and the result has month 1 and day `1 + (N % 146097) % 1461`, at
most 1, with year `1600 + 400 * floor(N / 146097) + 4 * floor((N % 146097) / 1461)`
(no 100-year and no 1-year term); the result is a valid date exactly when that
remainder is 0, which for N above -146097 is when N is a multiple of 1461. -/
theorem jalaliToGregorian_before_979 (y m d : Int) (h : Accepted y m d) (hy : y ≤ 978) :
    dayCount y m d ≤ -9 ∧
    ∃ r, jalaliToGregorian (JsValue.ofInt y) (JsValue.ofInt m) (JsValue.ofInt d) =
        Except.ok r ∧
      r.gm = 1 ∧ r.gd ≤ 1 ∧
      r.gd = 1 + jsMod (jsMod (dayCount y m d) 146097) 1461 ∧
      r.gy = 1600 + 400 * floorDiv (dayCount y m d) 146097 +
        4 * floorDiv (jsMod (dayCount y m d) 146097) 1461 ∧
      (ValidGregorian r.gy r.gm r.gd ↔ jsMod (jsMod (dayCount y m d) 146097) 1461 = 0) ∧
      (-146097 < dayCount y m d →
        (ValidGregorian r.gy r.gm r.gd ↔ (1461 : Int) ∣ dayCount y m d)) := by
  have hn := dayCount_before_979 y m d h hy
  obtain ⟨g1, g2, g3, g4⟩ := toGregorian_before_979 y m d h hy
  have hv : ValidGregorian (toGregorian { year := y, month := m, day := d }).gy
      (toGregorian { year := y, month := m, day := d }).gm
      (toGregorian { year := y, month := m, day := d }).gd ↔
      jsMod (jsMod (dayCount y m d) 146097) 1461 = 0 := by
    unfold ValidGregorian
    rw [g2, g3]
    have e : gregorianMonthDays (toGregorian { year := y, month := m, day := d }).gy 1 = 31 := by
      simp [gregorianMonthDays]
    rw [e]
    omega
  refine ⟨hn, _, jalaliToGregorian_accepted h, g2, by omega, g3, g1, hv, ?_⟩
  intro hlow
  rw [hv]
  have e1 : jsMod (dayCount y m d) 146097 = dayCount y m d := by
    rw [jsMod_nonpos (by omega) (by decide)]; omega
  rw [e1, jsMod_nonpos (by omega) (by decide)]
  omega

theorem jalaliToGregorian_before_979_witness :
    dayCount 978 12 29 ≤ -9 ∧
    ∃ r, jalaliToGregorian (JsValue.ofInt 978) (JsValue.ofInt 12) (JsValue.ofInt 29) =
        Except.ok r ∧ r.gm = 1 ∧ r.gd ≤ 1 := by
  obtain ⟨h0, r, h1, h2, h3, -⟩ :=
    jalaliToGregorian_before_979 978 12 29 (by decide) (by decide)
  exact ⟨h0, r, h1, h2, h3⟩

/-- C18: for `jalaliToGregorian(979, 1, 1)` the shifted year is 0, the day count is 0
and the result is (1600, 1, 1). -/
theorem jalaliToGregorian_979_1_1 :
    (979 : Int) - 979 = 0 ∧ dayCount 979 1 1 = 0 ∧
      jalaliToGregorian (JsValue.ofInt 979) (JsValue.ofInt 1) (JsValue.ofInt 1) =
        Except.ok { gy := 1600, gm := 1, gd := 1,
                    date := { year := 1600, monthIndex := 0, day := 1 } } := by
  refine ⟨by decide, by decide, ?_⟩
  rfl

/-- C20: (979, 12, 29) and (980, 1, 1) are converted to 1600-12-30 and 1601-01-01; no
integer triple is converted to (1600, 12, 31); the day counts of 979-01-01 and
980-01-01 differ by 366 while day 30 of month 12 is rejected for every year. -/
theorem jalaliToGregorian_skips_1600_12_31 :
    jalaliToGregorian (JsValue.ofInt 979) (JsValue.ofInt 12) (JsValue.ofInt 29) =
        Except.ok { gy := 1600, gm := 12, gd := 30,
                    date := { year := 1600, monthIndex := 11, day := 30 } } ∧
      jalaliToGregorian (JsValue.ofInt 980) (JsValue.ofInt 1) (JsValue.ofInt 1) =
        Except.ok { gy := 1601, gm := 1, gd := 1,
                    date := { year := 1601, monthIndex := 0, day := 1 } } ∧
      (∀ (y m d : Int) (r : GregorianResult),
        jalaliToGregorian (JsValue.ofInt y) (JsValue.ofInt m) (JsValue.ofInt d) =
          Except.ok r → r.ymd ≠ (1600, 12, 31)) ∧
      dayCount 980 1 1 - dayCount 979 1 1 = 366 ∧
      dayCount 979 12 29 = 364 ∧
      ∀ y : Int, ∃ e,
        jalaliToGregorian (JsValue.ofInt y) (JsValue.ofInt 12) (JsValue.ofInt 30) =
          Except.error e := by
  refine ⟨by rfl, by rfl, ?_, by decide, by decide, ?_⟩
  · intro y m d r hr heq
    by_cases hacc : Accepted y m d
    · rw [jalaliToGregorian_accepted hacc] at hr
      cases hr
      have e1 : (toGregorian { year := y, month := m, day := d }).gy = 1600 :=
        congrArg (fun p => p.1) heq
      have e2 : (toGregorian { year := y, month := m, day := d }).gm = 12 :=
        congrArg (fun p => p.2.1) heq
      have e3 : (toGregorian { year := y, month := m, day := d }).gd = 31 :=
        congrArg (fun p => p.2.2) heq
      by_cases hy : 979 ≤ y
      · obtain ⟨_, _, t3⟩ := toGregorian_spec y m d hacc hy
        rw [e1, e2, e3] at t3
        have hd : dayNumber 1600 12 31 = 365 := by decide
        rw [hd] at t3
        obtain ⟨a1, a2, a3, a4, a5⟩ := hacc
        unfold maxDay at a5
        unfold specDayCount at t3
        simp only [] at t3
        split_ifs at a5 t3 <;> omega
      · obtain ⟨_, g2, _, _⟩ := toGregorian_before_979 y m d hacc (by omega)
        omega
    · obtain ⟨e, he⟩ := jalaliToGregorian_rejected hacc
      rw [he] at hr
      cases hr
  · intro y
    exact jalaliToGregorian_rejected (by unfold Accepted maxDay; simp)

/-! ## Rounding to double precision

Integers of magnitude below `2 ^ 53` are doubles, and on them the rounded
operators of the source give the exact integer results. -/

theorem ratFloor_eq (q : Rat) : Rat.floor q = ⌊q⌋ := rfl

theorem pow2_eq_zpow (e : Int) : pow2 e = (2 : Rat) ^ e := by
  unfold pow2
  split_ifs with h
  · obtain ⟨n, rfl⟩ := Int.eq_ofNat_of_zero_le h
    simp
  · obtain ⟨n, hn⟩ : ∃ n : Nat, e = -(n : Int) := ⟨(-e).toNat, by omega⟩
    subst hn
    simp

theorem bitLengthAux_spec (fuel n : Nat) (h : n ≤ fuel) :
    n < 2 ^ bitLengthAux fuel n ∧ (n ≠ 0 → 2 ^ (bitLengthAux fuel n - 1) ≤ n) := by
  induction fuel generalizing n with
  | zero =>
    have : n = 0 := by omega
    subst this
    simp [bitLengthAux]
  | succ f ih =>
    unfold bitLengthAux
    by_cases h0 : n = 0
    · subst h0
      simp
    · rw [if_neg h0]
      obtain ⟨i1, i2⟩ := ih (n / 2) (by omega)
      constructor
      · rw [pow_succ]
        omega
      · intro _
        simp only [Nat.add_sub_cancel]
        by_cases h2 : n / 2 = 0
        · have hk : bitLengthAux f (n / 2) = 0 := by
            rw [h2]
            cases f <;> simp [bitLengthAux]
          rw [hk]
          simp
          omega
        · have i3 := i2 h2
          have hk : 1 ≤ bitLengthAux f (n / 2) := by
            by_contra hc
            have : bitLengthAux f (n / 2) = 0 := by omega
            rw [this] at i1
            simp at i1
            exact h2 i1
          have : 2 ^ bitLengthAux f (n / 2) = 2 * 2 ^ (bitLengthAux f (n / 2) - 1) := by
            conv_lhs => rw [← Nat.sub_add_cancel hk, pow_succ]
            ring
          omega

theorem bitLength_spec (n : Nat) (h : n ≠ 0) :
    2 ^ (bitLength n - 1) ≤ n ∧ n < 2 ^ bitLength n :=
  ⟨(bitLengthAux_spec n n le_rfl).2 h, (bitLengthAux_spec n n le_rfl).1⟩

theorem bitLength_pos (n : Nat) (h : n ≠ 0) : 1 ≤ bitLength n := by
  by_contra hc
  have h0 : bitLength n = 0 := by omega
  have := (bitLength_spec n h).2
  rw [h0] at this
  simp at this
  exact h this

theorem pow2_binaryExponent_le (q : Rat) (hq : 0 < q) : pow2 (binaryExponent q) ≤ q := by
  unfold binaryExponent
  simp only []
  split_ifs with h
  · exact h
  · have hnum : 0 < q.num := Rat.num_pos.mpr hq
    obtain ⟨a1, _⟩ := bitLength_spec q.num.natAbs (by omega)
    obtain ⟨_, b2⟩ := bitLength_spec q.den q.den_nz
    have a3 := bitLength_pos q.num.natAbs (by omega)
    rw [pow2_eq_zpow]
    have e : ((bitLength q.num.natAbs : Int) - (bitLength q.den : Int) - 1) =
        ((bitLength q.num.natAbs - 1 : Nat) : Int) - ((bitLength q.den : Nat) : Int) := by
      omega
    rw [e, zpow_sub₀ (by norm_num), zpow_natCast, zpow_natCast, div_le_iff₀ (by positivity)]
    have hn : ((q.num.natAbs : Nat) : Rat) = (q.num : Rat) := by
      rw [Nat.cast_natAbs, abs_of_pos hnum]
    have hd : (q.num : Rat) = q * (q.den : Rat) := by
      have := Rat.mul_den_eq_num q
      exact this.symm
    calc (2 : Rat) ^ (bitLength q.num.natAbs - 1) ≤ ((q.num.natAbs : Nat) : Rat) := by
          exact_mod_cast a1
      _ = q * (q.den : Rat) := by rw [hn, hd]
      _ ≤ q * 2 ^ bitLength q.den := by
          apply mul_le_mul_of_nonneg_left _ hq.le
          exact_mod_cast b2.le

theorem binaryExponent_le (q : Rat) (hq : 0 < q) (k : Nat) (h : q < 2 ^ k) :
    binaryExponent q < k := by
  by_contra hc
  have h1 := pow2_binaryExponent_le q hq
  rw [pow2_eq_zpow] at h1
  have h2 : (2 : Rat) ^ (k : Int) ≤ 2 ^ binaryExponent q :=
    zpow_le_zpow_right₀ (by norm_num) (by omega)
  rw [zpow_natCast] at h2
  linarith

theorem roundHalfEven_intCast (z : Int) : roundHalfEven (z : Rat) = z := by
  unfold roundHalfEven
  simp only [ratFloor_eq, Int.floor_intCast, sub_self]
  norm_num

theorem roundHalfEven_bounds (x : Rat) :
    x - 1 / 2 ≤ (roundHalfEven x : Rat) ∧ (roundHalfEven x : Rat) ≤ x + 1 / 2 := by
  unfold roundHalfEven
  simp only [ratFloor_eq]
  have h1 : (⌊x⌋ : Rat) ≤ x := Int.floor_le x
  have h2 : x < (⌊x⌋ : Rat) + 1 := Int.lt_floor_add_one x
  split_ifs with c1 c2 c3
  · constructor <;> linarith
  · push_cast
    constructor <;> linarith
  · constructor <;> linarith
  · push_cast
    constructor <;> linarith

theorem roundToDouble_pos (q : Rat) (hq : 0 < q) :
    roundToDouble q =
      if pow2 1024 ≤ (roundHalfEven (q / pow2 (max (binaryExponent q) (-1022) - 52)) : Rat) *
          pow2 (max (binaryExponent q) (-1022) - 52) then JsNumber.posInf
      else JsNumber.finite ((roundHalfEven (q / pow2 (max (binaryExponent q) (-1022) - 52)) : Rat) *
          pow2 (max (binaryExponent q) (-1022) - 52)) := by
  unfold roundToDouble
  simp only [hq, hq.ne', if_true, if_false]

theorem roundToDouble_neg (q : Rat) : roundToDouble (-q) = (roundToDouble q).neg := by
  unfold roundToDouble
  by_cases h0 : q = 0
  · subst h0
    simp [JsNumber.neg]
  · have h0' : -q ≠ 0 := by simpa using h0
    simp only [h0, h0', if_false]
    rcases lt_or_gt_of_ne h0 with h | h
    · have h1 : ¬ 0 < q := by linarith
      have h2 : 0 < -q := by linarith
      simp only [h1, h2, if_true, if_false, neg_neg]
      split_ifs <;> simp [JsNumber.neg]
    · have h1 : ¬ 0 < -q := by linarith
      simp only [h, h1, if_true, if_false, neg_neg]
      split_ifs <;> simp [JsNumber.neg]

theorem roundHalfEven_scaled (m : Nat) (e : Int) (he : e ≤ 52) :
    (roundHalfEven ((m : Rat) / pow2 (e - 52)) : Rat) * pow2 (e - 52) = m := by
  obtain ⟨k, hk⟩ : ∃ k : Nat, e - 52 = -(k : Int) := ⟨(52 - e).toNat, by omega⟩
  rw [hk, pow2_eq_zpow, zpow_neg, zpow_natCast]
  have e1 : (m : Rat) / ((2 : Rat) ^ k)⁻¹ = (((m * 2 ^ k : Nat) : Int) : Rat) := by
    rw [div_inv_eq_mul]
    push_cast
    ring
  rw [e1, roundHalfEven_intCast]
  push_cast
  field_simp

theorem roundToDouble_natCast (m : Nat) (h : m < 2 ^ 53) :
    roundToDouble (m : Rat) = JsNumber.finite (m : Rat) := by
  by_cases h0 : m = 0
  · subst h0
    simp [roundToDouble]
  · have hq : (0 : Rat) < (m : Rat) := by
      have : 0 < m := by omega
      exact_mod_cast this
    have hlt : (m : Rat) < 2 ^ 53 := by exact_mod_cast h
    have he : max (binaryExponent (m : Rat)) (-1022) ≤ 52 := by
      have := binaryExponent_le (m : Rat) hq 53 hlt
      omega
    rw [roundToDouble_pos _ hq, roundHalfEven_scaled m _ he, if_neg]
    rw [pow2_eq_zpow]
    have : (2 : Rat) ^ (53 : Nat) ≤ (2 : Rat) ^ (1024 : Int) := by
      rw [← zpow_natCast]
      exact zpow_le_zpow_right₀ (by norm_num) (by norm_num)
    linarith

theorem roundToDouble_intCast (n : Int) (h : n.natAbs < 2 ^ 53) :
    roundToDouble (n : Rat) = JsNumber.finite (n : Rat) := by
  rcases le_or_lt 0 n with hn | hn
  · obtain ⟨m, rfl⟩ := Int.eq_ofNat_of_zero_le hn
    have := roundToDouble_natCast m (by simpa using h)
    simpa using this
  · obtain ⟨m, hm⟩ : ∃ m : Nat, n = -(m : Int) := ⟨n.natAbs, by omega⟩
    subst hm
    have := roundToDouble_natCast m (by simpa using h)
    push_cast
    rw [roundToDouble_neg, this]
    simp [JsNumber.neg]

theorem floor_roundToDouble_div (a b : Nat) (ha : a < 2 ^ 53) (hb0 : 0 < b) (hb : b < 2 ^ 53) :
    (roundToDouble ((a : Rat) / (b : Rat))).floor =
      JsNumber.finite (((a / b : Nat) : Int) : Rat) := by
  by_cases h0 : a = 0
  · subst h0
    simp [roundToDouble, JsNumber.floor, ratFloor_eq]
  have hB : (0 : Rat) < b := by exact_mod_cast hb0
  have hB1 : (1 : Rat) ≤ b := by exact_mod_cast hb0
  have hA : (0 : Rat) < a := by exact_mod_cast (Nat.pos_of_ne_zero h0)
  have hq : (0 : Rat) < (a : Rat) / (b : Rat) := div_pos hA hB
  have hqa : (a : Rat) / (b : Rat) ≤ a := div_le_self hA.le hB1
  have hqlt : (a : Rat) / (b : Rat) < 2 ^ 53 := lt_of_le_of_lt hqa (by exact_mod_cast ha)
  have hbe := binaryExponent_le _ hq 53 hqlt
  have hqB : (a : Rat) / (b : Rat) * b = a := by field_simp
  generalize hqdef : (a : Rat) / (b : Rat) = q at *
  rw [roundToDouble_pos q hq]
  generalize hedef : max (binaryExponent q) (-1022) = e
  have he52 : e ≤ 52 := by omega
  obtain ⟨k, hk⟩ : ∃ k : Nat, e = 52 - (k : Int) := ⟨(52 - e).toNat, by omega⟩
  have hulp : pow2 (e - 52) = ((2 : Rat) ^ k)⁻¹ := by
    rw [pow2_eq_zpow, hk, show (52 : Int) - k - 52 = -(k : Int) by ring, zpow_neg, zpow_natCast]
  rw [hulp]
  have hP : (0 : Rat) < 2 ^ k := by positivity
  obtain ⟨m1, m2⟩ := roundHalfEven_bounds (q / ((2 : Rat) ^ k)⁻¹)
  generalize roundHalfEven (q / ((2 : Rat) ^ k)⁻¹) = M at *
  rw [div_inv_eq_mul] at m1 m2
  have hn1 : ((a / b : Nat) : Rat) * b ≤ a := by
    exact_mod_cast Nat.div_mul_le_self a b
  have hn2 : (a : Rat) + 1 ≤ (((a / b : Nat) : Rat) + 1) * b := by
    have : a + 1 ≤ (a / b + 1) * b := by
      have := Nat.lt_succ_iff.mp (Nat.lt_succ_of_le (Nat.le_refl a))
      have h3 := Nat.div_add_mod a b
      have h4 := Nat.mod_lt a hb0
      nlinarith
    exact_mod_cast this
  have hbk : (b : Rat) < 2 * 2 ^ k := by
    rcases le_total (binaryExponent q) (-1022) with hc | hc
    · have hk2 : k = 1074 := by omega
      subst hk2
      calc (b : Rat) < 2 ^ 53 := by exact_mod_cast hb
        _ ≤ 2 * 2 ^ 1074 := by norm_num
    · have hee : binaryExponent q = 52 - (k : Int) := by omega
      have h1 := pow2_binaryExponent_le q hq
      rw [hee, pow2_eq_zpow, zpow_sub₀ (by norm_num), zpow_natCast, div_le_iff₀ hP] at h1
      have h2 : (2 : Rat) ^ (52 : Int) = 2 ^ 52 := by norm_num
      rw [h2] at h1
      have h3 : (a : Rat) < 2 ^ 53 := by exact_mod_cast ha
      have h4 : (b : Rat) * 2 ^ 52 ≤ a * 2 ^ k := by
        calc (b : Rat) * 2 ^ 52 ≤ b * (q * 2 ^ k) := by
              apply mul_le_mul_of_nonneg_left h1 hB.le
          _ = (q * b) * 2 ^ k := by ring
          _ = a * 2 ^ k := by rw [hqB]
      have h5 : (a : Rat) * 2 ^ k < 2 ^ 53 * 2 ^ k := by
        apply mul_lt_mul_of_pos_right h3 hP
      have h6 : (b : Rat) * 2 ^ 52 < (2 * 2 ^ k) * 2 ^ 52 := by
        calc (b : Rat) * 2 ^ 52 ≤ a * 2 ^ k := h4
          _ < 2 ^ 53 * 2 ^ k := h5
          _ = (2 * 2 ^ k) * 2 ^ 52 := by ring
      exact lt_of_mul_lt_mul_right h6 (by positivity)
  -- the scaled quotient lies between the multiples of the power of two
  have hxlo : ((a / b : Nat) : Rat) * 2 ^ k ≤ q * 2 ^ k := by
    apply mul_le_mul_of_nonneg_right _ hP.le
    have : ((a / b : Nat) : Rat) * b ≤ q * b := by rw [hqB]; exact hn1
    exact le_of_mul_le_mul_right this hB
  have hxhi : (M : Rat) * b < (((a / b : Nat) : Rat) + 1) * 2 ^ k * b := by
    have e1 : q * 2 ^ k * b = a * 2 ^ k := by rw [← hqB]; ring
    have e2 : (M : Rat) * b ≤ a * 2 ^ k + b / 2 := by
      have := mul_le_mul_of_nonneg_right m2 hB.le
      calc (M : Rat) * b ≤ (q * 2 ^ k + 1 / 2) * b := this
        _ = a * 2 ^ k + b / 2 := by rw [add_mul, e1]; ring
    have e3 : (a : Rat) * 2 ^ k ≤ ((((a / b : Nat) : Rat) + 1) * b - 1) * 2 ^ k := by
      apply mul_le_mul_of_nonneg_right _ hP.le
      linarith
    nlinarith
  have hMhi : (M : Rat) < (((a / b : Nat) : Rat) + 1) * 2 ^ k :=
    lt_of_mul_lt_mul_right hxhi hB.le
  have hMlo : ((a / b : Nat) : Rat) * 2 ^ k ≤ (M : Rat) := by
    have h1 : ((a / b : Nat) : Rat) * 2 ^ k - 1 < (M : Rat) := by linarith
    have h2 : (((a / b : Nat) : Int) * 2 ^ k - 1 : Int) < M := by
      have : ((((a / b : Nat) : Int) * 2 ^ k - 1 : Int) : Rat) < (M : Rat) := by
        push_cast
        exact h1
      exact_mod_cast this
    have h3 : ((a / b : Nat) : Int) * 2 ^ k ≤ M := by omega
    have : ((((a / b : Nat) : Int) * 2 ^ k : Int) : Rat) ≤ (M : Rat) := by exact_mod_cast h3
    push_cast at this
    exact this
  have hv1 : (((a / b : Nat) : Int) : Rat) ≤ (M : Rat) * ((2 : Rat) ^ k)⁻¹ := by
    rw [← div_eq_mul_inv, le_div_iff₀ hP]
    push_cast
    exact hMlo
  have hv2 : (M : Rat) * ((2 : Rat) ^ k)⁻¹ < (((a / b : Nat) : Int) : Rat) + 1 := by
    rw [← div_eq_mul_inv, div_lt_iff₀ hP]
    push_cast
    exact hMhi
  have hfl : ⌊(M : Rat) * ((2 : Rat) ^ k)⁻¹⌋ = ((a / b : Nat) : Int) :=
    Int.floor_eq_iff.mpr ⟨hv1, hv2⟩
  have hov : ¬ pow2 1024 ≤ (M : Rat) * ((2 : Rat) ^ k)⁻¹ := by
    rw [pow2_eq_zpow]
    have h1 : (((a / b : Nat) : Int) : Rat) + 1 ≤ 2 ^ 53 := by
      have : a / b + 1 ≤ 2 ^ 53 := by
        have := Nat.div_le_self a b
        omega
      exact_mod_cast this
    have h2 : (2 : Rat) ^ 53 ≤ (2 : Rat) ^ (1024 : Int) := by norm_num
    linarith
  rw [if_neg hov]
  simp only [JsNumber.floor, ratFloor_eq, hfl]

theorem ofNat_eq_ofInt (n : Nat) : (OfNat.ofNat n : JsNumber) = JsNumber.ofInt (n : Int) := by
  show JsNumber.finite (n : Rat) = JsNumber.finite (((n : Int)) : Rat)
  simp

theorem roundToDouble_intCast_of_bounds (n : Int)
    (h : -9007199254740992 < n ∧ n < 9007199254740992) :
    roundToDouble (n : Rat) = JsNumber.finite (n : Rat) := by
  apply roundToDouble_intCast
  have : (2 : Nat) ^ 53 = 9007199254740992 := by norm_num
  omega

theorem ofInt_add (a b : Int)
    (h : -9007199254740992 < a + b ∧ a + b < 9007199254740992) :
    JsNumber.ofInt a + JsNumber.ofInt b = JsNumber.ofInt (a + b) := by
  show JsNumber.add (JsNumber.finite a) (JsNumber.finite b) = JsNumber.finite ((a + b : Int) : Rat)
  simp only [JsNumber.add]
  rw [← Int.cast_add, roundToDouble_intCast_of_bounds _ h]

theorem ofInt_sub (a b : Int)
    (h : -9007199254740992 < a - b ∧ a - b < 9007199254740992) :
    JsNumber.ofInt a - JsNumber.ofInt b = JsNumber.ofInt (a - b) := by
  show JsNumber.sub (JsNumber.finite a) (JsNumber.finite b) = JsNumber.finite ((a - b : Int) : Rat)
  simp only [JsNumber.sub, JsNumber.neg, JsNumber.add]
  rw [← Int.cast_neg, ← Int.cast_add, ← sub_eq_add_neg, roundToDouble_intCast_of_bounds _ h]

theorem ofInt_mul (a b : Int)
    (h : -9007199254740992 < a * b ∧ a * b < 9007199254740992) :
    JsNumber.ofInt a * JsNumber.ofInt b = JsNumber.ofInt (a * b) := by
  show JsNumber.mul (JsNumber.finite a) (JsNumber.finite b) = JsNumber.finite ((a * b : Int) : Rat)
  simp only [JsNumber.mul]
  rw [← Int.cast_mul, roundToDouble_intCast_of_bounds _ h]

theorem ofInt_div_floor (a b : Int) (ha : 0 ≤ a ∧ a < 9007199254740992)
    (hb : 0 < b ∧ b < 9007199254740992) :
    (JsNumber.ofInt a / JsNumber.ofInt b).floor = JsNumber.ofInt (a / b) := by
  obtain ⟨m, rfl⟩ := Int.eq_ofNat_of_zero_le ha.1
  obtain ⟨k, rfl⟩ := Int.eq_ofNat_of_zero_le hb.1.le
  have hk : k ≠ 0 := by omega
  have hkq : ((k : Int) : Rat) ≠ 0 := by
    simp [hk]
  show (JsNumber.div (JsNumber.finite ((m : Int) : Rat)) (JsNumber.finite ((k : Int) : Rat))).floor =
    JsNumber.finite (((m : Int) / (k : Int) : Int) : Rat)
  simp only [JsNumber.div, hkq, if_false]
  have h2 : (2 : Nat) ^ 53 = 9007199254740992 := by norm_num
  have := floor_roundToDouble_div m k (by omega) (by omega) (by omega)
  simp only [Int.cast_natCast]
  rw [this]
  simp

theorem ofInt_mod (a b : Int) (ha : 0 ≤ a) (hb : 0 < b) :
    JsNumber.ofInt a % JsNumber.ofInt b = JsNumber.ofInt (a % b) := by
  obtain ⟨k, rfl⟩ := Int.eq_ofNat_of_zero_le hb.le
  have hk : k ≠ 0 := by omega
  have hkq : ((k : Int) : Rat) ≠ 0 := by
    simp [hk]
  show JsNumber.mod (JsNumber.finite (a : Rat)) (JsNumber.finite ((k : Int) : Rat)) =
    JsNumber.finite ((a % (k : Int) : Int) : Rat)
  simp only [JsNumber.mod, hkq, if_false]
  have hnn : (0 : Rat) ≤ (a : Rat) / ((k : Int) : Rat) := by
    apply div_nonneg
    · exact_mod_cast ha
    · simp
  rw [if_pos hnn, ratFloor_eq]
  have hf : ⌊(a : Rat) / ((k : Int) : Rat)⌋ = a / (k : Int) := by
    simp only [Int.cast_natCast]
    exact Rat.floor_intCast_div_natCast a k
  rw [hf]
  congr 1
  have := Int.emod_def a (k : Int)
  rw [this]
  push_cast
  ring

theorem ofInt_lt (a b : Int) : (JsNumber.ofInt a).lt (JsNumber.ofInt b) = decide (a < b) := by
  simp [JsNumber.ofInt, JsNumber.lt]

theorem ofInt_ge (a b : Int) : (JsNumber.ofInt a).ge (JsNumber.ofInt b) = decide (b ≤ a) := by
  simp only [JsNumber.ofInt, JsNumber.ge, JsNumber.lt, Int.cast_lt]
  by_cases h : a < b
  · simp [h]
  · simp [h]
    omega

theorem ofInt_le (a b : Int) : (JsNumber.ofInt a).le (JsNumber.ofInt b) = decide (a ≤ b) := by
  simp [JsNumber.le, ofInt_ge]

theorem ofInt_gt (a b : Int) : (JsNumber.ofInt a).gt (JsNumber.ofInt b) = decide (b < a) := by
  simp [JsNumber.gt, ofInt_lt]

theorem ofInt_strictEq (a b : Int) :
    (JsNumber.ofInt a).strictEq (JsNumber.ofInt b) = decide (a = b) := by
  simp [JsNumber.ofInt, JsNumber.strictEq]

/-! ## The conversion over doubles agrees with the exact one

For years from 979 up to `2 ^ 44` every intermediate value of the conversion stays
below `2 ^ 53`, so the computation on doubles and the exact computation give
the same result. -/

theorem ieee_dayCount_eq (y m d : Int) (hy : 979 ≤ y ∧ y ≤ 17592186044416)
    (hm : 1 ≤ m ∧ m ≤ 12) (hd : 1 ≤ d ∧ d ≤ 31) :
    IEEE.dayCount (JsNumber.ofInt y) (JsNumber.ofInt m) (JsNumber.ofInt d) =
      JsNumber.ofInt (dayCount y m d) := by
  unfold IEEE.dayCount dayCount
  simp only [ofNat_eq_ofInt, Nat.cast_ofNat, Nat.cast_one]
  have hj : 0 ≤ y - 979 := by omega
  rw [floorDiv_eq _ _ (by decide : (0 : Int) ≤ 33), jsMod_nonneg hj (by decide : (0 : Int) ≤ 33),
    floorDiv_eq _ _ (by decide : (0 : Int) ≤ 4)]
  rw [ofInt_sub y 979 (by omega), ofInt_mul 365 (y - 979) (by omega),
    ofInt_div_floor (y - 979) 33 (by omega) (by omega),
    ofInt_mul ((y - 979) / 33) 8 (by omega),
    ofInt_mod (y - 979) 33 hj (by omega),
    ofInt_add ((y - 979) % 33) 3 (by omega),
    ofInt_div_floor ((y - 979) % 33 + 3) 4 (by omega) (by omega),
    ofInt_add (365 * (y - 979)) ((y - 979) / 33 * 8) (by omega),
    ofInt_add (365 * (y - 979) + (y - 979) / 33 * 8) (((y - 979) % 33 + 3) / 4) (by omega),
    ofInt_lt]
  by_cases h7 : m < 7
  · simp only [h7, decide_True, if_true]
    rw [ofInt_sub m 1 (by omega), ofInt_mul (m - 1) 31 (by omega),
      ofInt_add _ ((m - 1) * 31) (by omega), ofInt_add _ d (by omega),
      ofInt_sub _ 1 (by omega)]
  · simp only [h7, decide_False, if_false, Bool.false_eq_true]
    rw [ofInt_sub m 7 (by omega), ofInt_mul (m - 7) 30 (by omega),
      ofInt_add ((m - 7) * 30) 186 (by omega),
      ofInt_add _ ((m - 7) * 30 + 186) (by omega), ofInt_add _ d (by omega),
      ofInt_sub _ 1 (by omega)]

theorem ieee_reduceCentury_eq (gy days : Int) (hg : 0 ≤ gy ∧ gy < 4503599627370496)
    (hd : 0 ≤ days ∧ days < 146097) :
    IEEE.reduceCentury (JsNumber.ofInt gy) (JsNumber.ofInt days) =
      (JsNumber.ofInt (reduceCentury gy days).1, JsNumber.ofInt (reduceCentury gy days).2) := by
  rw [reduceCentury_eq]
  unfold IEEE.reduceCentury
  simp only [ofNat_eq_ofInt, Nat.cast_ofNat, Nat.cast_one, ofInt_ge]
  by_cases h1 : days ≥ 36525
  · have h1' : (36525 : Int) ≤ days := h1
    simp only [h1, h1', decide_True, if_true]
    rw [ofInt_sub days 1 (by omega), ofInt_div_floor (days - 1) 36524 (by omega) (by omega),
      ofInt_mul 100 ((days - 1) / 36524) (by omega),
      ofInt_add gy (100 * ((days - 1) / 36524)) (by omega),
      ofInt_mod (days - 1) 36524 (by omega) (by omega), ofInt_ge]
    by_cases h2 : (days - 1) % 36524 ≥ 365
    · have h2' : (365 : Int) ≤ (days - 1) % 36524 := h2
      simp only [h2, h2', decide_True, if_true]
      rw [ofInt_add _ 1 (by omega)]
    · have h2' : ¬ (365 : Int) ≤ (days - 1) % 36524 := h2
      simp only [h2, h2', decide_False, if_false, Bool.false_eq_true]
  · have h1' : ¬ (36525 : Int) ≤ days := h1
    simp only [h1, h1', decide_False, if_false, Bool.false_eq_true]

theorem ieee_reduceFourYears_eq (gy days : Int) (hg : 0 ≤ gy ∧ gy < 4503599627370496)
    (hd : 0 ≤ days ∧ days < 146097) :
    IEEE.reduceFourYears (JsNumber.ofInt gy) (JsNumber.ofInt days) =
      (JsNumber.ofInt (reduceFourYears gy days).1,
        JsNumber.ofInt (reduceFourYears gy days).2) := by
  rw [reduceFourYears_eq _ _ hd.1]
  unfold IEEE.reduceFourYears
  simp only [ofNat_eq_ofInt, Nat.cast_ofNat, Nat.cast_one]
  rw [ofInt_div_floor days 1461 (by omega) (by omega), ofInt_mul 4 (days / 1461) (by omega),
    ofInt_add gy (4 * (days / 1461)) (by omega), ofInt_mod days 1461 hd.1 (by omega), ofInt_ge]
  by_cases h1 : days % 1461 ≥ 366
  · have h1' : (366 : Int) ≤ days % 1461 := h1
    simp only [h1, h1', decide_True, if_true]
    rw [ofInt_sub (days % 1461) 1 (by omega),
      ofInt_div_floor (days % 1461 - 1) 365 (by omega) (by omega),
      ofInt_add _ ((days % 1461 - 1) / 365) (by omega),
      ofInt_mod (days % 1461 - 1) 365 (by omega) (by omega)]
  · have h1' : ¬ (366 : Int) ≤ days % 1461 := h1
    simp only [h1, h1', decide_False, if_false, Bool.false_eq_true]

theorem reduceCentury_bounds (gy days : Int) (hd : 0 ≤ days ∧ days < 146097) :
    gy ≤ (reduceCentury gy days).1 ∧ (reduceCentury gy days).1 ≤ gy + 300 ∧
      0 ≤ (reduceCentury gy days).2 ∧ (reduceCentury gy days).2 < 146097 := by
  rw [reduceCentury_eq]
  split_ifs <;> simp only [] <;> omega

theorem ieee_reduceYears_eq (n : Int) (hn : 0 ≤ n ∧ n < 9007199254740992) :
    IEEE.reduceYears (JsNumber.ofInt n) =
      (JsNumber.ofInt (reduceYears n).1, JsNumber.ofInt (reduceYears n).2) := by
  rw [reduceYears_eq, floorDiv_eq _ _ (by decide : (0 : Int) ≤ 146097),
    jsMod_nonneg hn.1 (by decide : (0 : Int) ≤ 146097)]
  unfold IEEE.reduceYears
  simp only [ofNat_eq_ofInt, Nat.cast_ofNat, Nat.cast_one]
  rw [ofInt_div_floor n 146097 (by omega) (by omega), ofInt_mul 400 (n / 146097) (by omega),
    ofInt_add 1600 (400 * (n / 146097)) (by omega), ofInt_mod n 146097 hn.1 (by omega)]
  have hb := reduceCentury_bounds (1600 + 400 * (n / 146097)) (n % 146097) (by omega)
  rw [ieee_reduceCentury_eq _ _ (by omega) (by omega)]
  simp only []
  rw [ieee_reduceFourYears_eq _ _ (by omega) (by omega)]

theorem ieee_isLeapGregorian_eq (gy : Int) (hg : 0 ≤ gy) :
    IEEE.isLeapGregorian (JsNumber.ofInt gy) = isLeapGregorian gy := by
  unfold IEEE.isLeapGregorian isLeapGregorian
  simp only [ofNat_eq_ofInt, Nat.cast_ofNat, Nat.cast_zero]
  rw [ofInt_mod gy 4 hg (by decide), ofInt_mod gy 100 hg (by decide),
    ofInt_mod gy 400 hg (by decide), ofInt_strictEq, ofInt_strictEq, ofInt_strictEq,
    jsMod_nonneg hg (by decide), jsMod_nonneg hg (by decide), jsMod_nonneg hg (by decide)]
  generalize gy % 4 = a
  generalize gy % 100 = b
  generalize gy % 400 = c
  by_cases ha : a = 0 <;> by_cases hb : b = 0 <;> by_cases hc : c = 0 <;> simp [ha, hb, hc]

theorem gregorianMonthDays_le (gy gm : Int) : gregorianMonthDays gy gm ≤ 31 := by
  unfold gregorianMonthDays
  split_ifs <;> omega

theorem monthLength_bounds (gy : Int) (gm : Nat) (h : gm < 12) :
    28 ≤ monthLength gy gm h ∧ monthLength gy gm h ≤ 31 := by
  rw [monthLength_eq]
  exact ⟨gregorianMonthDays_pos _ _, gregorianMonthDays_le _ _⟩

theorem ieee_monthLength_eq (gy : Int) (hg : 0 ≤ gy) (gm : Nat) (h : gm < 12) :
    IEEE.monthLength (JsNumber.ofInt gy) gm h = JsNumber.ofInt (monthLength gy gm h) := by
  unfold IEEE.monthLength monthLength
  rw [ieee_isLeapGregorian_eq gy hg]
  simp only [ofNat_eq_ofInt, Nat.cast_ofNat, Nat.cast_one]
  have hb : 28 ≤ GREGORIAN_MONTH_LENGTHS.get ⟨gm, h⟩ ∧
      GREGORIAN_MONTH_LENGTHS.get ⟨gm, h⟩ ≤ 31 := by
    have hall : ∀ i : Fin GREGORIAN_MONTH_LENGTHS.length,
        28 ≤ GREGORIAN_MONTH_LENGTHS.get i ∧ GREGORIAN_MONTH_LENGTHS.get i ≤ 31 := by decide
    exact hall ⟨gm, h⟩
  split_ifs
  · exact ofInt_add _ 1 (by omega)
  · rfl

theorem ieee_monthLoop_eq (gy : Int) (hg : 0 ≤ gy) (fuel gm : Nat) (days : Int)
    (hd : 0 ≤ days ∧ days < 9007199254740992) :
    IEEE.monthLoop (JsNumber.ofInt gy) fuel gm (JsNumber.ofInt days) =
      ((monthLoop gy fuel gm days).1, JsNumber.ofInt (monthLoop gy fuel gm days).2) := by
  induction fuel generalizing gm days with
  | zero => rfl
  | succ f ih =>
    unfold IEEE.monthLoop monthLoop
    by_cases hlt : gm < 12
    · rw [dif_pos hlt, dif_pos hlt, ieee_monthLength_eq gy hg gm hlt, ofInt_lt]
      obtain ⟨b1, b2⟩ := monthLength_bounds gy gm hlt
      by_cases hc : days < monthLength gy gm hlt
      · simp only [hc, decide_True, if_true]
      · simp only [hc, decide_False, if_false, Bool.false_eq_true]
        rw [ofInt_sub _ _ (by omega)]
        exact ih (gm + 1) (days - monthLength gy gm hlt) (by omega)
    · rw [dif_neg hlt, dif_neg hlt]

theorem dayCount_bounds (y m d : Int) (hy : 979 ≤ y ∧ y ≤ 17592186044416)
    (hm : 1 ≤ m ∧ m ≤ 12) (hd : 1 ≤ d ∧ d ≤ 31) :
    0 ≤ dayCount y m d ∧ dayCount y m d < 9007199254740992 := by
  unfold dayCount
  simp only []
  rw [floorDiv_eq _ _ (by decide : (0 : Int) ≤ 33),
    jsMod_nonneg (by omega : (0 : Int) ≤ y - 979) (by decide : (0 : Int) ≤ 33),
    floorDiv_eq _ _ (by decide : (0 : Int) ≤ 4)]
  split_ifs <;> omega

theorem yearDays_le (gy : Int) : yearDays gy ≤ 366 := by
  unfold yearDays
  split_ifs <;> omega

theorem reduceYears_gy_le (n : Int) (hn : 0 ≤ n) : (reduceYears n).1 ≤ 1600 + n := by
  obtain ⟨h1, h2, h3, h4⟩ := reduceYears_spec n hn
  have hk := daysBeforeYear_mono (Nat.zero_le ((reduceYears n).1 - 1600).toNat)
  have hc := daysBeforeYear_closed ((reduceYears n).1 - 1600).toNat
  have e : ((((reduceYears n).1 - 1600).toNat : Nat) : Int) = (reduceYears n).1 - 1600 := by
    omega
  rw [e] at hc
  omega

theorem ieee_toGregorian_eq (y m d : Int) (hy : 979 ≤ y ∧ y ≤ 17592186044416)
    (hm : 1 ≤ m ∧ m ≤ 12) (hd : 1 ≤ d ∧ d ≤ 31) :
    IEEE.toGregorian ⟨JsNumber.ofInt y, JsNumber.ofInt m, JsNumber.ofInt d⟩ =
      IEEE.GregorianResult.ofExact (toGregorian { year := y, month := m, day := d }) := by
  obtain ⟨n0, n1⟩ := dayCount_bounds y m d hy hm hd
  obtain ⟨r1, r2, r3, _⟩ := reduceYears_spec (dayCount y m d) n0
  have r4 := yearDays_le (reduceYears (dayCount y m d)).1
  obtain ⟨k1, k2, k3, _⟩ := monthLoop_spec _ _ r2 r3
  have k4 := gregorianMonthDays_le (reduceYears (dayCount y m d)).1
    (((monthLoop (reduceYears (dayCount y m d)).1 12 0
      (reduceYears (dayCount y m d)).2).1 + 1 : Nat) : Int)
  unfold IEEE.toGregorian IEEE.GregorianResult.ofExact
  simp only [ieee_dayCount_eq y m d hy hm hd, ieee_reduceYears_eq _ ⟨n0, n1⟩,
    ieee_monthLoop_eq _ (by omega : (0 : Int) ≤ (reduceYears (dayCount y m d)).1) 12 0 _
      ⟨r2, by omega⟩, ofNat_eq_ofInt, Nat.cast_ofNat, Nat.cast_one]
  have e1 : ∀ w : Nat, JsNumber.finite (((w : Int)) : Rat) = JsNumber.ofInt (w : Int) :=
    fun _ => rfl
  rw [e1, ofInt_add _ 1 (by omega), ofInt_add _ 1 (by omega)]
  rfl

theorem ieee_toNumber_ofInt (n : Int) (h : -9007199254740992 < n ∧ n < 9007199254740992) :
    IEEE.toNumber (IEEE.JsValue.ofInt n) = JsNumber.ofInt n := by
  simp only [IEEE.toNumber, IEEE.JsValue.ofInt, roundToDouble_intCast_of_bounds n h, roundNumber,
    JsNumber.ofInt]

theorem ofInt_isInteger (n : Int) : (JsNumber.ofInt n).isInteger = true := by
  simp [JsNumber.ofInt, JsNumber.isInteger]

theorem ieee_normalizeInputs_accepted (y m d : Int) (h : Accepted y m d)
    (hy : y < 9007199254740992) :
    IEEE.normalizeInputs (IEEE.JsValue.ofInt y) (IEEE.JsValue.ofInt m) (IEEE.JsValue.ofInt d) =
      Except.ok ⟨JsNumber.ofInt y, JsNumber.ofInt m, JsNumber.ofInt d⟩ := by
  obtain ⟨h1, h2, h3, h4, h5⟩ := h
  have h6 : d ≤ 31 := by
    unfold maxDay at h5
    split_ifs at h5 <;> omega
  unfold IEEE.normalizeInputs
  simp only [ieee_toNumber_ofInt y (by omega), ieee_toNumber_ofInt m (by omega),
    ieee_toNumber_ofInt d (by omega), ofInt_isInteger, ofNat_eq_ofInt, Nat.cast_ofNat,
    Nat.cast_one, ofInt_lt, ofInt_gt, ofInt_le]
  have c1 : ¬ y < 1 := by omega
  have c2 : ¬ m < 1 := by omega
  have c3 : ¬ 12 < m := by omega
  have c4 : ¬ d < 1 := by omega
  simp only [c1, c2, c3, c4, decide_False, Bool.not_true, Bool.or_self, Bool.false_eq_true,
    if_false]
  unfold maxDay at h5
  by_cases m6 : m ≤ 6
  · rw [if_pos m6] at h5
    have c5 : ¬ 31 < d := by omega
    simp [m6, ofInt_gt, c5]
  · rw [if_neg m6] at h5
    by_cases m11 : m ≤ 11
    · rw [if_pos m11] at h5
      have c5 : ¬ 30 < d := by omega
      simp [m6, m11, ofInt_gt, c5]
    · rw [if_neg m11] at h5
      have c5 : ¬ 29 < d := by omega
      simp [m6, m11, ofInt_gt, c5]

theorem ieee_jalaliToGregorian_eq (y m d : Int) (h : Accepted y m d) (hy : 979 ≤ y)
    (hmax : y ≤ 17592186044416) :
    IEEE.jalaliToGregorian (IEEE.JsValue.ofInt y) (IEEE.JsValue.ofInt m)
        (IEEE.JsValue.ofInt d) =
      Except.ok (IEEE.GregorianResult.ofExact (toGregorian ⟨y, m, d⟩)) := by
  have h6 : d ≤ 31 := by
    have h5 := h.2.2.2.2
    unfold maxDay at h5
    split_ifs at h5 <;> omega
  unfold IEEE.jalaliToGregorian
  rw [ieee_normalizeInputs_accepted y m d h (by omega)]
  simp only []
  rw [ieee_toGregorian_eq y m d ⟨hy, hmax⟩ ⟨h.2.1, h.2.2.1⟩ ⟨h.2.2.2.1, h6⟩]

/-! ## Printing integers below `2 ^ 53`

On a non-negative integer below `2 ^ 53` the shortest digits that read back as the
double are the decimal digits of the integer without its trailing zeros, which
the layout puts back. -/

theorem toDigitsCore_eq (n : Nat) :
    ∀ fuel acc, n < fuel → Nat.toDigitsCore 10 fuel n acc = Nat.toDigits 10 n ++ acc := by
  induction n using Nat.strong_induction_on with
  | _ n ih =>
    intro fuel acc hf
    obtain ⟨f, rfl⟩ : ∃ f, fuel = f + 1 := ⟨fuel - 1, by omega⟩
    unfold Nat.toDigits
    unfold Nat.toDigitsCore
    simp only []
    by_cases h0 : n / 10 = 0
    · rw [if_pos h0, if_pos h0]
      rfl
    · rw [if_neg h0, if_neg h0]
      have hlt : n / 10 < n := by omega
      rw [ih (n / 10) hlt f _ (by omega), ih (n / 10) hlt n _ hlt]
      simp

theorem toDigits_step (n : Nat) (h : 10 ≤ n) :
    Nat.toDigits 10 n = Nat.toDigits 10 (n / 10) ++ [Nat.digitChar (n % 10)] := by
  conv_lhs => unfold Nat.toDigits
  unfold Nat.toDigitsCore
  simp only []
  rw [if_neg (by omega), toDigitsCore_eq (n / 10) n _ (by omega)]

theorem toDigits_small (n : Nat) (h : n < 10) : Nat.toDigits 10 n = [Nat.digitChar n] := by
  unfold Nat.toDigits
  unfold Nat.toDigitsCore
  simp only []
  rw [if_pos (by omega), Nat.mod_eq_of_lt h]

theorem toDigits_mul_ten (m : Nat) (h : 0 < m) :
    Nat.toDigits 10 (m * 10) = Nat.toDigits 10 m ++ ['0'] := by
  rw [toDigits_step (m * 10) (by omega)]
  have e1 : m * 10 / 10 = m := by omega
  have e2 : m * 10 % 10 = 0 := by omega
  rw [e1, e2]
  rfl

theorem toDigits_mul_pow (m j : Nat) (h : 0 < m) :
    Nat.toDigits 10 (m * 10 ^ j) = Nat.toDigits 10 m ++ List.replicate j '0' := by
  induction j with
  | zero => simp
  | succ i ih =>
    have e : m * 10 ^ (i + 1) = (m * 10 ^ i) * 10 := by ring
    rw [e, toDigits_mul_ten _ (by positivity), ih, List.append_assoc]
    congr 1
    rw [List.replicate_succ']

theorem toDigits_length_spec (n : Nat) :
    1 ≤ (Nat.toDigits 10 n).length ∧ n < 10 ^ (Nat.toDigits 10 n).length ∧
      (n ≠ 0 → 10 ^ ((Nat.toDigits 10 n).length - 1) ≤ n) := by
  induction n using Nat.strong_induction_on with
  | _ n ih =>
    by_cases h : n < 10
    · rw [toDigits_small n h]
      simp only [List.length_singleton, pow_one, Nat.sub_self, pow_zero]
      omega
    · rw [toDigits_step n (by omega)]
      obtain ⟨i1, i2, i3⟩ := ih (n / 10) (by omega)
      have i4 := i3 (by omega)
      simp only [List.length_append, List.length_singleton, Nat.add_sub_cancel]
      refine ⟨by omega, ?_, fun _ => ?_⟩
      · rw [pow_succ]
        omega
      · have e : 10 ^ (Nat.toDigits 10 (n / 10)).length =
            10 ^ ((Nat.toDigits 10 (n / 10)).length - 1) * 10 := by
          rw [← pow_succ, Nat.sub_add_cancel i1]
        rw [e]
        omega

theorem toDigits_length_eq (s k : Nat) (h1 : 10 ^ (k - 1) ≤ s) (h2 : s < 10 ^ k) (hs : s ≠ 0) :
    (Nat.toDigits 10 s).length = k := by
  obtain ⟨a1, a2, a3⟩ := toDigits_length_spec s
  have a4 := a3 hs
  by_contra hne
  rcases Nat.lt_or_gt_of_ne hne with hlt | hgt
  · have : 10 ^ (Nat.toDigits 10 s).length ≤ 10 ^ (k - 1) :=
      Nat.pow_le_pow_right (by decide) (by omega)
    omega
  · have : 10 ^ k ≤ 10 ^ ((Nat.toDigits 10 s).length - 1) :=
      Nat.pow_le_pow_right (by decide) (by omega)
    omega

theorem pow10_natCast (j : Nat) : pow10 (j : Int) = ((10 ^ j : Nat) : Rat) := by
  unfold pow10
  rw [if_pos (by omega)]
  simp

/-- Rounding a natural number from `2 ^ 53` on never gives a smaller integer. -/
theorem roundToDouble_natCast_large (H : Nat) (hH : 2 ^ 53 ≤ H) (v : Rat)
    (h : roundToDouble (H : Rat) = JsNumber.finite v) : (2 : Rat) ^ 53 ≤ v := by
  have hq : (0 : Rat) < (H : Rat) := by
    have : 0 < H := lt_of_lt_of_le (by positivity) hH
    exact_mod_cast this
  have hHq : (2 : Rat) ^ 53 ≤ (H : Rat) := by exact_mod_cast hH
  rw [roundToDouble_pos _ hq] at h
  split_ifs at h with hov
  cases h
  generalize hedef : max (binaryExponent (H : Rat)) (-1022) = e
  rcases le_or_lt e 52 with he | he
  · rw [roundHalfEven_scaled H e he]
    exact hHq
  · have hee : e = binaryExponent (H : Rat) := by omega
    have h1 := pow2_binaryExponent_le (H : Rat) hq
    rw [← hee, pow2_eq_zpow] at h1
    obtain ⟨k, hk⟩ : ∃ k : Nat, e = 52 + (k : Int) := ⟨(e - 52).toNat, by omega⟩
    have hulp : pow2 (e - 52) = (2 : Rat) ^ k := by
      rw [pow2_eq_zpow, hk, show (52 : Int) + k - 52 = (k : Int) by ring, zpow_natCast]
    rw [hulp]
    have h2 : (2 : Rat) ^ e = 2 ^ 52 * 2 ^ k := by
      rw [hk, zpow_add₀ (by norm_num), zpow_natCast]
      norm_num
    rw [h2] at h1
    have hP : (0 : Rat) < 2 ^ k := by positivity
    obtain ⟨m1, _⟩ := roundHalfEven_bounds ((H : Rat) / 2 ^ k)
    generalize roundHalfEven ((H : Rat) / 2 ^ k) = M at *
    have h3 : (2 : Rat) ^ 52 ≤ (H : Rat) / 2 ^ k := by
      rw [le_div_iff₀ hP]
      exact h1
    have h4 : ((2 ^ 52 - 1 : Int) : Rat) < (M : Rat) := by
      push_cast
      linarith
    have h5 : (2 ^ 52 - 1 : Int) < M := by exact_mod_cast h4
    have h6 : (2 ^ 52 : Int) ≤ M := by omega
    have h7 : (2 : Rat) ^ 52 ≤ (M : Rat) := by exact_mod_cast h6
    have hk1 : (1 : Rat) ≤ 2 ^ k := one_le_pow₀ (by norm_num)
    have hk2 : (2 : Rat) ≤ 2 ^ k := by
      have hkpos : 1 ≤ k := by omega
      calc (2 : Rat) = 2 ^ 1 := by norm_num
        _ ≤ 2 ^ k := pow_le_pow_right₀ (by norm_num) hkpos
    calc (2 : Rat) ^ 53 = 2 ^ 52 * 2 := by norm_num
      _ ≤ (M : Rat) * 2 ^ k := mul_le_mul h7 hk2 (by norm_num) (by linarith)

theorem roundToDouble_natCast_ne (H n : Nat) (hlt : n < H) (hn : n < 2 ^ 53) :
    roundToDouble (H : Rat) ≠ JsNumber.finite (n : Rat) := by
  intro h
  rcases lt_or_le H (2 ^ 53) with hH | hH
  · rw [roundToDouble_natCast H hH] at h
    have : (H : Rat) = (n : Rat) := by
      injection h
    have : H = n := by exact_mod_cast this
    omega
  · have h1 := roundToDouble_natCast_large H hH _ h
    have h2 : (n : Rat) < 2 ^ 53 := by exact_mod_cast hn
    linarith

theorem shortestDigitsAux_natCast (N : Nat) (hN53 : N < 2 ^ 53) (L : Nat)
    (hL : N < 10 ^ L) :
    ∀ fuel k, 1 ≤ k → k ≤ L → L - k < fuel →
      ∃ j : Nat, j ≤ L - k ∧ 10 ^ j ∣ N ∧
        IEEE.shortestDigitsAux (N : Rat) (L : Int) fuel k =
          (((N / 10 ^ j : Nat) : Int), (L : Int)) := by
  intro fuel
  induction fuel with
  | zero => intro k _ _ hf; omega
  | succ f ih =>
    intro k hk1 hkL hf
    have hscale : pow10 ((L : Int) - (k : Int)) = ((10 ^ (L - k) : Nat) : Rat) := by
      rw [← pow10_natCast]
      congr 1
      omega
    have hpos : 0 < 10 ^ (L - k) := by positivity
    have hlo : Rat.floor ((N : Rat) / ((10 ^ (L - k) : Nat) : Rat)) =
        ((N / 10 ^ (L - k) : Nat) : Int) := by
      rw [ratFloor_eq]
      exact Rat.floor_natCast_div_natCast N (10 ^ (L - k))
    have hloval : (((N / 10 ^ (L - k) : Nat) : Int) : Rat) * ((10 ^ (L - k) : Nat) : Rat) =
        ((N / 10 ^ (L - k) * 10 ^ (L - k) : Nat) : Rat) := by
      rw [Int.cast_natCast, Nat.cast_mul]
    have hhival : ((((N / 10 ^ (L - k) : Nat) : Int) + 1 : Int) : Rat) *
        ((10 ^ (L - k) : Nat) : Rat) =
        (((N / 10 ^ (L - k) + 1) * 10 ^ (L - k) : Nat) : Rat) := by
      rw [Int.cast_add, Int.cast_natCast, Int.cast_one, Nat.cast_mul, Nat.cast_add,
        Nat.cast_one]
    have hle : N / 10 ^ (L - k) * 10 ^ (L - k) ≤ N := Nat.div_mul_le_self _ _
    have hgt : N < (N / 10 ^ (L - k) + 1) * 10 ^ (L - k) := by
      have h3 := Nat.div_add_mod N (10 ^ (L - k))
      have h4 := Nat.mod_lt N hpos
      nlinarith
    have hHi : decide (roundToDouble ((((N / 10 ^ (L - k) + 1) * 10 ^ (L - k) : Nat) : Rat)) =
        JsNumber.finite (N : Rat)) = false := by
      rw [decide_eq_false_iff_not]
      exact roundToDouble_natCast_ne _ N hgt hN53
    unfold IEEE.shortestDigitsAux
    simp only [hscale, hlo, hloval, hhival, hHi, Bool.and_false, Bool.false_eq_true, if_false]
    rw [roundToDouble_natCast _ (lt_of_le_of_lt hle hN53)]
    by_cases hdiv : N / 10 ^ (L - k) * 10 ^ (L - k) = N
    · have hok : decide (JsNumber.finite ((N / 10 ^ (L - k) * 10 ^ (L - k) : Nat) : Rat) =
          JsNumber.finite (N : Rat)) = true := by
        rw [decide_eq_true_iff, hdiv]
      simp only [hok, if_true]
      have hlt : N / 10 ^ (L - k) < 10 ^ k := by
        have e : 10 ^ L = 10 ^ k * 10 ^ (L - k) := by
          rw [← pow_add]
          congr 1
          omega
        rw [e] at hL
        rw [← hdiv] at hL
        exact lt_of_mul_lt_mul_right hL (Nat.zero_le _)
      have hne : ¬ (((N / 10 ^ (L - k) : Nat) : Int) = 10 ^ k) := by
        intro hc
        have : N / 10 ^ (L - k) = 10 ^ k := by exact_mod_cast hc
        omega
      rw [if_neg hne]
      exact ⟨L - k, le_rfl, Dvd.intro_left _ hdiv, rfl⟩
    · have hok : decide (JsNumber.finite ((N / 10 ^ (L - k) * 10 ^ (L - k) : Nat) : Rat) =
          JsNumber.finite (N : Rat)) = false := by
        rw [decide_eq_false_iff_not]
        intro hc
        injection hc with hc
        exact hdiv (by exact_mod_cast hc)
      simp only [hok, Bool.false_eq_true, if_false]
      have hkl : k < L := by
        by_contra hc
        have : L - k = 0 := by omega
        rw [this] at hdiv
        simp at hdiv
      obtain ⟨j, j1, j2, j3⟩ := ih (k + 1) (by omega) (by omega) (by omega)
      refine ⟨j, by omega, j2, ?_⟩
      rw [← j3]

theorem ieee_numberToString_finite (q : Rat) :
    IEEE.numberToString (JsNumber.finite q) =
      if q = 0 then ['0']
      else if 0 < q then IEEE.layoutDigits (IEEE.shortestDigits q).1 (IEEE.shortestDigits q).2
      else '-' :: IEEE.layoutDigits (IEEE.shortestDigits (-q)).1 (IEEE.shortestDigits (-q)).2 :=
  rfl

theorem ieee_numberToString_natCast (N : Nat) (h : N < 2 ^ 53) :
    IEEE.numberToString (JsNumber.finite (N : Rat)) = Nat.toDigits 10 N := by
  by_cases h0 : N = 0
  · subst h0
    simp [IEEE.numberToString]
    rfl
  have hpos : 0 < N := Nat.pos_of_ne_zero h0
  have hq : (0 : Rat) < (N : Rat) := by exact_mod_cast hpos
  have hq1 : (1 : Rat) ≤ (N : Rat) := by exact_mod_cast hpos
  obtain ⟨l1, l2, l3⟩ := toDigits_length_spec N
  have l4 := l3 h0
  have l5 : (Nat.toDigits 10 N).length ≤ 16 := by
    by_contra hc
    have : 10 ^ 16 ≤ 10 ^ ((Nat.toDigits 10 N).length - 1) :=
      Nat.pow_le_pow_right (by decide) (by omega)
    have h53 : (2 : Nat) ^ 53 < 10 ^ 16 := by norm_num
    omega
  have hde : IEEE.decimalExponent (N : Rat) = ((Nat.toDigits 10 N).length : Int) := by
    unfold IEEE.decimalExponent
    rw [if_pos hq1, ratFloor_eq]
    simp
  obtain ⟨j, j1, j2, j3⟩ := shortestDigitsAux_natCast N h _ l2 17 1 (by omega) l1 (by omega)
  obtain ⟨s, hs⟩ := j2
  have hs' : N = s * 10 ^ j := by rw [hs, Nat.mul_comm]
  have hspos : 0 < s := by
    rcases Nat.eq_zero_or_pos s with h1 | h1
    · rw [h1] at hs'
      omega
    · exact h1
  have hdivs : N / 10 ^ j = s := by
    rw [hs']
    exact Nat.mul_div_cancel _ (by positivity)
  have hlen : (Nat.toDigits 10 N).length = (Nat.toDigits 10 s).length + j := by
    rw [hs', toDigits_mul_pow s j hspos]
    simp
  rw [ieee_numberToString_finite, if_neg hq.ne', if_pos hq]
  unfold IEEE.shortestDigits
  simp only [hde, j3, hdivs, Int.toNat_ofNat]
  unfold IEEE.layoutDigits
  simp only []
  rw [if_pos (by omega), if_pos (by omega)]
  conv_rhs => rw [hs', toDigits_mul_pow s j hspos]
  congr 2
  omega

theorem ieee_numberToString_ofInt (n : Int)
    (h : -9007199254740992 < n ∧ n < 9007199254740992) :
    IEEE.numberToString (JsNumber.ofInt n) = intToString n := by
  have h2 : (2 : Nat) ^ 53 = 9007199254740992 := by norm_num
  unfold intToString JsNumber.ofInt
  rcases le_or_lt 0 n with hn | hn
  · obtain ⟨m, rfl⟩ := Int.eq_ofNat_of_zero_le hn
    rw [if_neg (by omega)]
    simpa using ieee_numberToString_natCast m (by omega)
  · obtain ⟨m, hm⟩ : ∃ m : Nat, n = -(m : Int) := ⟨n.natAbs, by omega⟩
    subst hm
    rw [if_pos hn]
    have hmpos : (0 : Rat) < (m : Rat) := by
      have : 0 < m := by omega
      exact_mod_cast this
    have := ieee_numberToString_natCast m (by omega)
    rw [ieee_numberToString_finite] at this ⊢
    rw [if_neg hmpos.ne', if_pos hmpos] at this
    have e : ((-(m : Int) : Int) : Rat) = -(m : Rat) := by push_cast; rfl
    rw [e, if_neg (by linarith), if_neg (by linarith), neg_neg, this]
    simp

theorem ofInt_inj {a b : Int} (h : JsNumber.ofInt a = JsNumber.ofInt b) : a = b := by
  unfold JsNumber.ofInt at h
  injection h with h
  exact_mod_cast h

theorem ofExact_ymd_inj {r1 r2 : GregorianResult}
    (h : IEEE.GregorianResult.ofExact r1 = IEEE.GregorianResult.ofExact r2) :
    r1.ymd = r2.ymd := by
  unfold IEEE.GregorianResult.ofExact at h
  injection h with h1 h2 h3 _
  simp only [GregorianResult.ymd, ofInt_inj h1, ofInt_inj h2, ofInt_inj h3]

theorem ieee_utf16_append (a b : List Char) :
    IEEE.utf16 (a ++ b) = IEEE.utf16 a ++ IEEE.utf16 b := by
  simp [IEEE.utf16]

theorem ieee_pad_ofInt (v : Int) (h : 1 ≤ v ∧ v ≤ 31) :
    IEEE.pad (JsNumber.ofInt v) = IEEE.utf16 (pad v) := by
  unfold IEEE.pad pad
  rw [ieee_numberToString_ofInt v (by omega)]
  obtain ⟨h1, h2⟩ := h
  interval_cases v <;> decide!

theorem ieee_format_ofExact (r : GregorianResult) (sep : Option (List UInt16))
    (hgy : -9007199254740992 < r.gy ∧ r.gy < 9007199254740992)
    (hgm : 1 ≤ r.gm ∧ r.gm ≤ 31) (hgd : 1 ≤ r.gd ∧ r.gd ≤ 31) :
    IEEE.format (IEEE.GregorianResult.ofExact r) sep =
      IEEE.utf16 (intToString r.gy) ++ sep.getD (IEEE.utf16 "-".toList) ++
        IEEE.utf16 (pad r.gm) ++ sep.getD (IEEE.utf16 "-".toList) ++ IEEE.utf16 (pad r.gd) := by
  unfold IEEE.format IEEE.GregorianResult.ofExact
  simp only [ieee_numberToString_ofInt r.gy hgy, ieee_pad_ofInt r.gm hgm, ieee_pad_ofInt r.gd hgd]

/-! ## The claims that depend on doubles and code units -/

theorem ieee_normalizeInputs_nonInteger (jy jm jd : IEEE.JsValue)
    (h : ¬ IsFiniteInteger (IEEE.toNumber jy) ∨ ¬ IsFiniteInteger (IEEE.toNumber jm) ∨
      ¬ IsFiniteInteger (IEEE.toNumber jd)) :
    IEEE.normalizeInputs jy jm jd =
      Except.error (JsError.typeError "jy, jm and jd must be integers") := by
  simp only [← isInteger_iff] at h
  unfold IEEE.normalizeInputs
  simp only []
  rw [if_pos]
  rcases h with h | h | h <;> simp [h]

theorem ieee_normalizeInputs_error_kind (a b c : IEEE.JsValue) (e : JsError)
    (h : IEEE.normalizeInputs a b c = Except.error e) :
    ∃ msg, e = JsError.typeError msg ∨ e = JsError.rangeError msg := by
  unfold IEEE.normalizeInputs at h
  simp only [] at h
  split_ifs at h <;> first
    | (cases h; exact ⟨_, Or.inl rfl⟩)
    | (cases h; exact ⟨_, Or.inr rfl⟩)

theorem ieee_jalaliToGregorian_ne_error (a b c : IEEE.JsValue) (msg : String) :
    IEEE.jalaliToGregorian a b c ≠ Except.error (JsError.error msg) := by
  intro h
  unfold IEEE.jalaliToGregorian at h
  split at h
  · rename_i e1 he
    cases h
    obtain ⟨m, hm | hm⟩ := ieee_normalizeInputs_error_kind a b c _ he <;> cases hm
  · cases h

/-- A literal with more significant digits than a double holds is rounded by
`Number`: the year text `1403.00000000000000000001` reads as 1403 and converts. -/
theorem ieee_jalaliToGregorian_long_fraction :
    IEEE.jalaliToGregorian (IEEE.JsValue.ofText "1403.00000000000000000001".toList)
        (IEEE.JsValue.ofInt 1) (IEEE.JsValue.ofInt 1) =
      Except.ok ⟨2024, 1, 1, ⟨2024, 0, 1⟩⟩ := by
  decide!

/-- C7: when at least one of the three inputs coerces (by `Number`, rounding to a
double included) to a number that is not a finite integer, `jalaliToGregorian`
fails with the integer type error, whatever the other two inputs are; and
`convert` on the object with `jy` 1403.5, `jm` 1, `jd` 1 fails with that same
error. -/
theorem ieee_jalaliToGregorian_nonInteger (jy jm jd : IEEE.JsValue)
    (h : ¬ IsFiniteInteger (IEEE.toNumber jy) ∨ ¬ IsFiniteInteger (IEEE.toNumber jm) ∨
      ¬ IsFiniteInteger (IEEE.toNumber jd)) :
    IEEE.jalaliToGregorian jy jm jd =
        Except.error (JsError.typeError "jy, jm and jd must be integers") ∧
      IEEE.convert (IEEE.JsInput.object
          [("jy", IEEE.JsValue.number (JsNumber.finite ((2807 : Rat) / 2))),
            ("jm", IEEE.JsValue.ofInt 1), ("jd", IEEE.JsValue.ofInt 1)]) none =
        Except.error (JsError.typeError "jy, jm and jd must be integers") := by
  constructor
  · simp [IEEE.jalaliToGregorian, ieee_normalizeInputs_nonInteger jy jm jd h]
  · decide!

theorem ieee_jalaliToGregorian_nonInteger_witness :
    IEEE.toNumber (IEEE.JsValue.ofText "1e400".toList) = JsNumber.posInf ∧
      IEEE.jalaliToGregorian (IEEE.JsValue.ofText "1e400".toList) (IEEE.JsValue.ofInt 0)
          (IEEE.JsValue.ofInt 99) =
        Except.error (JsError.typeError "jy, jm and jd must be integers") ∧
      IEEE.jalaliToGregorian (IEEE.JsValue.ofInt 1403) (IEEE.JsValue.number JsNumber.nan)
          (IEEE.JsValue.ofInt 1) =
        Except.error (JsError.typeError "jy, jm and jd must be integers") :=
  ⟨by decide!,
    (ieee_jalaliToGregorian_nonInteger (IEEE.JsValue.ofText "1e400".toList)
      (IEEE.JsValue.ofInt 0) (IEEE.JsValue.ofInt 99)
      (Or.inl (by rw [← isInteger_iff]; decide!))).1,
    (ieee_jalaliToGregorian_nonInteger (IEEE.JsValue.ofInt 1403)
      (IEEE.JsValue.number JsNumber.nan) (IEEE.JsValue.ofInt 1)
      (Or.inr (Or.inl (by rw [← isInteger_iff]; decide!)))).1⟩

/-- C12: for every string (a sequence of UTF-16 code units) and every separator
(omitted: `/`), `convert` fails with the part count error exactly when the split
does not give 3 segments, whatever the segments contain; with exactly 3 segments
the outcome is that of `jalaliToGregorian` on the trimmed segments, in the order
year, month, day. -/
theorem ieee_convert_string_spec (s : List UInt16) (separator : Option (List UInt16)) :
    (IEEE.convert (IEEE.JsInput.value (IEEE.JsValue.string s)) separator =
        Except.error (JsError.error "String input must contain exactly 3 parts") ↔
      (IEEE.jsSplit s (separator.getD (IEEE.utf16 "/".toList))).length ≠ 3) ∧
    (∀ a b c, IEEE.jsSplit s (separator.getD (IEEE.utf16 "/".toList)) = [a, b, c] →
      IEEE.convert (IEEE.JsInput.value (IEEE.JsValue.string s)) separator =
        IEEE.jalaliToGregorian (IEEE.JsValue.string (IEEE.jsTrim a))
          (IEEE.JsValue.string (IEEE.jsTrim b)) (IEEE.JsValue.string (IEEE.jsTrim c))) := by
  constructor
  · constructor
    · intro h hlen
      simp only [IEEE.convert, List.length_map, hlen, ne_eq, not_true_eq_false, if_false] at h
      exact ieee_jalaliToGregorian_ne_error _ _ _ _ h
    · intro hlen
      simp only [IEEE.convert, List.length_map, hlen, ne_eq, not_false_eq_true, if_true]
  · intro a b c h
    simp only [IEEE.convert, h]
    simp

theorem ieee_convert_string_spec_witness :
    IEEE.convert (IEEE.JsInput.value (IEEE.JsValue.ofText "1403-01-01".toList))
        (some (IEEE.utf16 "-".toList)) =
      IEEE.jalaliToGregorian (IEEE.JsValue.ofText "1403".toList)
        (IEEE.JsValue.ofText "01".toList) (IEEE.JsValue.ofText "01".toList) ∧
    IEEE.convert (IEEE.JsInput.value (IEEE.JsValue.ofText "1😀1".toList)) (some []) =
      Except.error (JsError.error "String input must contain exactly 3 parts") :=
  ⟨(ieee_convert_string_spec (IEEE.utf16 "1403-01-01".toList)
      (some (IEEE.utf16 "-".toList))).2 (IEEE.utf16 "1403".toList) (IEEE.utf16 "01".toList)
      (IEEE.utf16 "01".toList) (by decide!),
    (ieee_convert_string_spec (IEEE.utf16 "1😀1".toList) (some [])).1.mpr (by decide!)⟩

/-- C11 as stated fails: a result with the year `2 ^ 60` (a double), month 3 and day 5
is formatted as `1152921504606847000-03-05`, while the decimal rendering of
`2 ^ 60` is `1152921504606846976`. -/
theorem ieee_format_year_2_pow_60 :
    IEEE.format ⟨JsNumber.finite (2 ^ 60), 3, 5, ⟨JsNumber.finite (2 ^ 60), 2, 5⟩⟩ none =
        IEEE.utf16 "1152921504606847000-03-05".toList ∧
      intToString (2 ^ 60) = "1152921504606846976".toList ∧
      IEEE.format ⟨JsNumber.finite (2 ^ 60), 3, 5, ⟨JsNumber.finite (2 ^ 60), 2, 5⟩⟩ none ≠
        IEEE.utf16 (intToString (2 ^ 60) ++ "-03-05".toList) := by
  refine ⟨by decide!, by decide!, by decide!⟩

/-- C11 as amended: for a result whose year, month and day are integers with
`0 ≤ gy < 2 ^ 53`, `1 ≤ gm ≤ 12` and `1 ≤ gd ≤ 31`, and any separator, `format`
gives the decimal digits of the year without leading zeros, the separator, the
month as exactly two decimal digits (a leading `0` below 10), the separator, and
the day as exactly two decimal digits; with the separator omitted it is `-`, and
month 3 with day 5 ends in `-03-05`. -/
theorem format_spec (r : GregorianResult) (sep : List UInt16) (hgy : 0 ≤ r.gy)
    (hmax : r.gy < 2 ^ 53) (hgm : 1 ≤ r.gm ∧ r.gm ≤ 12) (hgd : 1 ≤ r.gd ∧ r.gd ≤ 31) :
    ∃ ys ms ds : List Char,
      IEEE.format (IEEE.GregorianResult.ofExact r) (some sep) =
        IEEE.utf16 ys ++ sep ++ IEEE.utf16 ms ++ sep ++ IEEE.utf16 ds ∧
      IEEE.format (IEEE.GregorianResult.ofExact r) none =
        IEEE.utf16 (ys ++ "-".toList ++ ms ++ "-".toList ++ ds) ∧
      DecimalDigits ys r.gy.toNat ∧ (ys = ['0'] ∨ ys.head? ≠ some '0') ∧
      ms.length = 2 ∧ DecimalDigits ms r.gm.toNat ∧
      ds.length = 2 ∧ DecimalDigits ds r.gd.toNat ∧
      (r.gm < 10 → ms.head? = some '0') ∧ (r.gd < 10 → ds.head? = some '0') ∧
      (r.gm = 3 → r.gd = 5 →
        IEEE.format (IEEE.GregorianResult.ofExact r) none =
          IEEE.utf16 (ys ++ "-03-05".toList)) := by
  have hmax' : r.gy < 9007199254740992 := by
    have : (2 : Int) ^ 53 = 9007199254740992 := by norm_num
    omega
  obtain ⟨hy1, hy2⟩ := intToString_nonneg r.gy hgy
  obtain ⟨hm1, hm2⟩ := pad_two_digits r.gm ⟨hgm.1, by omega⟩
  obtain ⟨hd1, hd2⟩ := pad_two_digits r.gd hgd
  have hf := fun s => ieee_format_ofExact r s ⟨by omega, hmax'⟩ ⟨hgm.1, by omega⟩ hgd
  refine ⟨intToString r.gy, pad r.gm, pad r.gd, ?_, ?_, hy1, hy2, hm1, hm2, hd1, hd2,
    ?_, ?_, ?_⟩
  · rw [hf]
    rfl
  · rw [hf]
    simp only [ieee_utf16_append, Option.getD_none]
  · intro h
    obtain ⟨h1, h2⟩ := hgm
    generalize r.gm = v at *
    interval_cases v <;> rfl
  · intro h
    obtain ⟨h1, h2⟩ := hgd
    generalize r.gd = v at *
    interval_cases v <;> rfl
  · intro h3 h5
    rw [hf, h3, h5]
    simp only [ieee_utf16_append, Option.getD_none, List.append_assoc]
    have e3 : pad 3 = "03".toList := rfl
    have e5 : pad 5 = "05".toList := rfl
    rw [e3, e5]
    congr 1

theorem format_spec_witness :
    ∃ ys ms ds : List Char,
      IEEE.format (IEEE.GregorianResult.ofExact ⟨2024, 3, 5, ⟨2024, 2, 5⟩⟩)
          (some (IEEE.utf16 "/".toList)) =
        IEEE.utf16 ys ++ IEEE.utf16 "/".toList ++ IEEE.utf16 ms ++ IEEE.utf16 "/".toList ++
          IEEE.utf16 ds ∧
      IEEE.format (IEEE.GregorianResult.ofExact ⟨2024, 3, 5, ⟨2024, 2, 5⟩⟩) none =
        IEEE.utf16 (ys ++ "-".toList ++ ms ++ "-".toList ++ ds) ∧
      DecimalDigits ys 2024 ∧ ms.length = 2 ∧ DecimalDigits ms 3 ∧
      ds.length = 2 ∧ DecimalDigits ds 5 := by
  obtain ⟨ys, ms, ds, h1, h2, h3, -, h5, h6, h7, h8, -⟩ :=
    format_spec ⟨2024, 3, 5, ⟨2024, 2, 5⟩⟩ (IEEE.utf16 "/".toList) (by decide) (by decide)
      (by decide) (by decide)
  exact ⟨ys, ms, ds, h1, h2, h3, h5, h6, h7, h8⟩

theorem dayNumber_35184364791609_2_23 :
    dayNumber 35184364791609 2 23 = 12850825356814916 := by
  unfold dayNumber
  have e1 : ((35184364791609 : Int) - 1600).toNat = 35184364790009 := by decide
  have e2 : ((2 : Int) - 1).toNat = 1 := by decide
  rw [e1, e2, daysBeforeYear_closed]
  simp only [daysBeforeMonth, gregorianMonthDays]
  norm_num

theorem two_pow_44 : (2 : Int) ^ 44 = 17592186044416 := by norm_num

theorem two_pow_53 : (2 : Int) ^ 53 = 9007199254740992 := by norm_num

theorem accepted_day_le {y m d : Int} (h : Accepted y m d) : d ≤ 31 := by
  have h5 := h.2.2.2.2
  unfold maxDay at h5
  split_ifs at h5 <;> omega

/-- C15 as stated fails: the accepted triple (2 ^ 45, 1, 2) has the day count
N = 12850825356814917, which no double holds; the code's count rounds to
12850825356814916 and the returned date 35184364791609-02-23 lies that many days
after 1 January 1600, one day short of N. -/
theorem ieee_jalaliToGregorian_2_pow_45_dayNumber :
    Accepted (2 ^ 45) 1 2 ∧
      IEEE.dayCount (roundToDouble (2 ^ 45)) 1 2 = JsNumber.ofInt 12850825356814916 ∧
      IEEE.jalaliToGregorian (IEEE.JsValue.ofInt (2 ^ 45)) (IEEE.JsValue.ofInt 1)
          (IEEE.JsValue.ofInt 2) =
        Except.ok ⟨35184364791609, 2, 23, ⟨35184364791609, 1, 23⟩⟩ ∧
      specDayCount (2 ^ 45) 1 2 = 12850825356814917 ∧
      dayNumber 35184364791609 2 23 = 12850825356814916 := by
  refine ⟨by decide!, by decide!, by decide!, by decide!, dayNumber_35184364791609_2_23⟩

/-- C15 as amended: for an accepted triple of year 979 up to `2 ^ 44`, the code's day
count is the count N of the specification and the returned date is a valid
Gregorian date of year 1600 or later whose day number (days since 1 January
1600) is N, the only such date; and on every day count from 0 up to `2 ^ 53` the
year reduction followed by the month walk yields a valid date with that day
number. -/
theorem jalaliToGregorian_dayNumber (y m d : Int) (h : Accepted y m d) (hy : 979 ≤ y)
    (hmax : y ≤ 2 ^ 44) :
    (∃ r, IEEE.jalaliToGregorian (IEEE.JsValue.ofInt y) (IEEE.JsValue.ofInt m)
          (IEEE.JsValue.ofInt d) = Except.ok (IEEE.GregorianResult.ofExact r) ∧
      jalaliToGregorian (JsValue.ofInt y) (JsValue.ofInt m) (JsValue.ofInt d) =
        Except.ok r ∧
      IEEE.dayCount (JsNumber.ofInt y) (JsNumber.ofInt m) (JsNumber.ofInt d) =
        JsNumber.ofInt (specDayCount y m d) ∧
      1600 ≤ r.gy ∧ ValidGregorian r.gy r.gm r.gd ∧
      dayNumber r.gy r.gm r.gd = specDayCount y m d ∧
      ∀ gy gm gd, 1600 ≤ gy → ValidGregorian gy gm gd →
        dayNumber gy gm gd = specDayCount y m d → (gy, gm, gd) = r.ymd) ∧
    ∀ n : Int, 0 ≤ n → n < 2 ^ 53 →
      ∃ gy rest gd : Int, ∃ gm : Nat,
        IEEE.reduceYears (JsNumber.ofInt n) = (JsNumber.ofInt gy, JsNumber.ofInt rest) ∧
        IEEE.monthLoop (JsNumber.ofInt gy) 12 0 (JsNumber.ofInt rest) =
          (gm, JsNumber.ofInt (gd - 1)) ∧
        1600 ≤ gy ∧ ValidGregorian gy ((gm : Int) + 1) gd ∧
        dayNumber gy ((gm : Int) + 1) gd = n := by
  rw [two_pow_44] at hmax
  constructor
  · obtain ⟨t1, t2, t3⟩ := toGregorian_spec y m d h hy
    refine ⟨_, ieee_jalaliToGregorian_eq y m d h hy hmax, jalaliToGregorian_accepted h, ?_,
      t1, t2, t3, ?_⟩
    · rw [ieee_dayCount_eq y m d ⟨hy, hmax⟩ ⟨h.2.1, h.2.2.1⟩ ⟨h.2.2.2.1, accepted_day_le h⟩,
        dayCount_eq_spec y m d hy]
    · intro gy gm gd g1 g2 g3
      exact dayNumber_inj (a := (gy, gm, gd))
        (b := (toGregorian { year := y, month := m, day := d }).ymd) g2 t2 g1 t1
        (by rw [g3]; exact t3.symm)
  · intro n hn hn53
    rw [two_pow_53] at hn53
    obtain ⟨w1, _, w3, w4⟩ := walk_spec n hn
    obtain ⟨r1, r2, r3, _⟩ := reduceYears_spec n hn
    have r4 := yearDays_le (reduceYears n).1
    refine ⟨(reduceYears n).1, (reduceYears n).2,
      (monthLoop (reduceYears n).1 12 0 (reduceYears n).2).2 + 1,
      (monthLoop (reduceYears n).1 12 0 (reduceYears n).2).1,
      ieee_reduceYears_eq n ⟨hn, hn53⟩, ?_, w1, ?_, ?_⟩
    · rw [ieee_monthLoop_eq _ (by omega) 12 0 _ ⟨r2, by omega⟩, add_sub_cancel_right]
    · exact w3
    · exact w4

theorem jalaliToGregorian_dayNumber_witness :
    ∃ r, IEEE.jalaliToGregorian (IEEE.JsValue.ofInt 1403) (IEEE.JsValue.ofInt 1)
          (IEEE.JsValue.ofInt 1) = Except.ok (IEEE.GregorianResult.ofExact r) ∧
      1600 ≤ r.gy ∧ ValidGregorian r.gy r.gm r.gd ∧
      dayNumber r.gy r.gm r.gd = specDayCount 1403 1 1 := by
  obtain ⟨r, h1, -, -, h2, h3, h4, -⟩ :=
    (jalaliToGregorian_dayNumber 1403 1 1 (by decide) (by decide) (by decide)).1
  exact ⟨r, h1, h2, h3, h4⟩

/-- C16 as stated fails: the accepted triple (2 ^ 1020, 1, 1) has an infinite day
count, the year reduction turns it into `NaN`, the month loop runs through all
twelve months without reaching its `break`, and the result has month 13 and a
`NaN` year and day. -/
theorem ieee_jalaliToGregorian_2_pow_1020 :
    Accepted (2 ^ 1020) 1 1 ∧ (979 : Int) ≤ 2 ^ 1020 ∧
      IEEE.dayCount (roundToDouble (2 ^ 1020)) 1 1 = JsNumber.posInf ∧
      IEEE.reduceYears JsNumber.posInf = (JsNumber.nan, JsNumber.nan) ∧
      IEEE.monthLoop JsNumber.nan 12 0 JsNumber.nan = (12, JsNumber.nan) ∧
      IEEE.jalaliToGregorian (IEEE.JsValue.ofInt (2 ^ 1020)) (IEEE.JsValue.ofInt 1)
          (IEEE.JsValue.ofInt 1) =
        Except.ok ⟨JsNumber.nan, 13, JsNumber.nan, ⟨JsNumber.nan, 12, JsNumber.nan⟩⟩ := by
  refine ⟨by decide!, by decide!, by decide!, by decide!, by decide!, by decide!⟩

/-- C16 as amended: for an accepted triple of year 979 up to `2 ^ 44` the day count is
a non-negative integer and the returned date has year at least 1600, month in
1..12 and day between 1 and the length the loop read for that month (February
extended by `isLeapGregorian`); the month loop ends at an index below 12, that
is through its `break`. -/
theorem jalaliToGregorian_valid_from_979 (y m d : Int) (h : Accepted y m d) (hy : 979 ≤ y)
    (hmax : y ≤ 2 ^ 44) :
    IEEE.dayCount (JsNumber.ofInt y) (JsNumber.ofInt m) (JsNumber.ofInt d) =
        JsNumber.ofInt (dayCount y m d) ∧
    0 ≤ dayCount y m d ∧
    ∃ r, IEEE.jalaliToGregorian (IEEE.JsValue.ofInt y) (IEEE.JsValue.ofInt m)
          (IEEE.JsValue.ofInt d) = Except.ok (IEEE.GregorianResult.ofExact r) ∧
      1600 ≤ r.gy ∧ 1 ≤ r.gm ∧ r.gm ≤ 12 ∧ 1 ≤ r.gd ∧
      (∃ hlt : (IEEE.monthLoop
            (IEEE.reduceYears (IEEE.dayCount (JsNumber.ofInt y) (JsNumber.ofInt m)
              (JsNumber.ofInt d))).1 12 0
            (IEEE.reduceYears (IEEE.dayCount (JsNumber.ofInt y) (JsNumber.ofInt m)
              (JsNumber.ofInt d))).2).1 < 12,
        ∃ len : Int,
          IEEE.monthLength (JsNumber.ofInt r.gy) _ hlt = JsNumber.ofInt len ∧
          r.gm = (((IEEE.monthLoop
            (IEEE.reduceYears (IEEE.dayCount (JsNumber.ofInt y) (JsNumber.ofInt m)
              (JsNumber.ofInt d))).1 12 0
            (IEEE.reduceYears (IEEE.dayCount (JsNumber.ofInt y) (JsNumber.ofInt m)
              (JsNumber.ofInt d))).2).1 : Nat) : Int) + 1 ∧
          r.gd ≤ len) ∧
      ValidGregorian r.gy r.gm r.gd := by
  rw [two_pow_44] at hmax
  have hm : 1 ≤ m ∧ m ≤ 12 := ⟨h.2.1, h.2.2.1⟩
  have hd : 1 ≤ d ∧ d ≤ 31 := ⟨h.2.2.2.1, accepted_day_le h⟩
  obtain ⟨n0, n1⟩ := dayCount_bounds y m d ⟨hy, hmax⟩ hm hd
  obtain ⟨w1, w2, w3, _⟩ := walk_spec (dayCount y m d) n0
  obtain ⟨r1, r2, r3, _⟩ := reduceYears_spec (dayCount y m d) n0
  have r4 := yearDays_le (reduceYears (dayCount y m d)).1
  have e1 := ieee_dayCount_eq y m d ⟨hy, hmax⟩ hm hd
  have e2 := ieee_reduceYears_eq (dayCount y m d) ⟨n0, n1⟩
  have e3 := ieee_monthLoop_eq (reduceYears (dayCount y m d)).1 (by omega) 12 0
    (reduceYears (dayCount y m d)).2 ⟨r2, by omega⟩
  have e4 : (IEEE.monthLoop
        (IEEE.reduceYears (IEEE.dayCount (JsNumber.ofInt y) (JsNumber.ofInt m)
          (JsNumber.ofInt d))).1 12 0
        (IEEE.reduceYears (IEEE.dayCount (JsNumber.ofInt y) (JsNumber.ofInt m)
          (JsNumber.ofInt d))).2).1 =
      (monthLoop (reduceYears (dayCount y m d)).1 12 0 (reduceYears (dayCount y m d)).2).1 := by
    rw [e1, e2]
    simp only []
    rw [e3]
  refine ⟨e1, n0, _, ieee_jalaliToGregorian_eq y m d h hy hmax, w1, w3.1, w3.2.1, w3.2.2.1,
    ⟨by rw [e4]; exact w2, ?_⟩, w3⟩
  refine ⟨monthLength (reduceYears (dayCount y m d)).1
      (monthLoop (reduceYears (dayCount y m d)).1 12 0 (reduceYears (dayCount y m d)).2).1 w2,
    ?_, ?_, ?_⟩
  · rw [toGregorian_gy]
    simp only [e4]
    exact ieee_monthLength_eq _ (by omega) _ w2
  · rw [e4]
    rfl
  · rw [monthLength_eq, toGregorian_gd]
    have := w3.2.2.2
    push_cast at this ⊢
    exact this

theorem jalaliToGregorian_valid_from_979_witness :
    0 ≤ dayCount 979 12 29 ∧
    ∃ r, IEEE.jalaliToGregorian (IEEE.JsValue.ofInt 979) (IEEE.JsValue.ofInt 12)
          (IEEE.JsValue.ofInt 29) = Except.ok (IEEE.GregorianResult.ofExact r) ∧
      1600 ≤ r.gy ∧ ValidGregorian r.gy r.gm r.gd := by
  obtain ⟨-, h0, r, h1, h2, -, -, -, -, h3⟩ :=
    jalaliToGregorian_valid_from_979 979 12 29 (by decide) (by decide) (by decide)
  exact ⟨h0, r, h1, h2, h3⟩

/-- C19 as stated fails: the accepted triples (2 ^ 45, 1, 1) and (2 ^ 45, 1, 2), the
first before the second, are both converted to 35184364791609-02-23, because
their day counts round to the same double. -/
theorem ieee_jalaliToGregorian_2_pow_45_collision :
    Accepted (2 ^ 45) 1 1 ∧ Accepted (2 ^ 45) 1 2 ∧ (979 : Int) ≤ 2 ^ 45 ∧
      DateLt (2 ^ 45, 1, 1) (2 ^ 45, 1, 2) ∧
      IEEE.jalaliToGregorian (IEEE.JsValue.ofInt (2 ^ 45)) (IEEE.JsValue.ofInt 1)
          (IEEE.JsValue.ofInt 1) =
        Except.ok ⟨35184364791609, 2, 23, ⟨35184364791609, 1, 23⟩⟩ ∧
      IEEE.jalaliToGregorian (IEEE.JsValue.ofInt (2 ^ 45)) (IEEE.JsValue.ofInt 1)
          (IEEE.JsValue.ofInt 2) =
        Except.ok ⟨35184364791609, 2, 23, ⟨35184364791609, 1, 23⟩⟩ := by
  refine ⟨by decide!, by decide!, by decide!, by decide!, by decide!, by decide!⟩

/-- C19 as amended: on accepted triples of year 979 up to `2 ^ 44`, `jalaliToGregorian`
preserves the strict lexicographic order of (year, month, day), and distinct
triples map to distinct results. -/
theorem jalaliToGregorian_strictMono (y1 m1 d1 y2 m2 d2 : Int) (ha : Accepted y1 m1 d1)
    (hb : Accepted y2 m2 d2) (h1 : 979 ≤ y1) (h2 : 979 ≤ y2) (hmax1 : y1 ≤ 2 ^ 44)
    (hmax2 : y2 ≤ 2 ^ 44) :
    ∃ r1 r2,
      IEEE.jalaliToGregorian (IEEE.JsValue.ofInt y1) (IEEE.JsValue.ofInt m1)
          (IEEE.JsValue.ofInt d1) = Except.ok (IEEE.GregorianResult.ofExact r1) ∧
      IEEE.jalaliToGregorian (IEEE.JsValue.ofInt y2) (IEEE.JsValue.ofInt m2)
          (IEEE.JsValue.ofInt d2) = Except.ok (IEEE.GregorianResult.ofExact r2) ∧
      (DateLt (y1, m1, d1) (y2, m2, d2) → DateLt r1.ymd r2.ymd) ∧
      ((y1, m1, d1) ≠ (y2, m2, d2) → r1.ymd ≠ r2.ymd) ∧
      ((y1, m1, d1) ≠ (y2, m2, d2) →
        IEEE.jalaliToGregorian (IEEE.JsValue.ofInt y1) (IEEE.JsValue.ofInt m1)
            (IEEE.JsValue.ofInt d1) ≠
          IEEE.jalaliToGregorian (IEEE.JsValue.ofInt y2) (IEEE.JsValue.ofInt m2)
            (IEEE.JsValue.ofInt d2)) := by
  rw [two_pow_44] at hmax1 hmax2
  obtain ⟨s1, s2, s3⟩ := toGregorian_spec y1 m1 d1 ha h1
  obtain ⟨t1, t2, t3⟩ := toGregorian_spec y2 m2 d2 hb h2
  have mono : ∀ (u1 v1 w1 u2 v2 w2 : Int) (r1 r2 : GregorianResult),
      Accepted u1 v1 w1 → Accepted u2 v2 w2 →
      1600 ≤ r1.gy → ValidGregorian r1.gy r1.gm r1.gd →
      dayNumber r1.gy r1.gm r1.gd = specDayCount u1 v1 w1 →
      1600 ≤ r2.gy → ValidGregorian r2.gy r2.gm r2.gd →
      dayNumber r2.gy r2.gm r2.gd = specDayCount u2 v2 w2 →
      DateLt (u1, v1, w1) (u2, v2, w2) → DateLt r1.ymd r2.ymd := by
    intro u1 v1 w1 u2 v2 w2 r1 r2 a1 a2 p1 p2 p3 q1 q2 q3 hlt
    have hc := specDayCount_lt u1 v1 w1 u2 v2 w2 a1 a2 hlt
    rcases dateLt_trichotomy r1.ymd r2.ymd with hl | heq | hg
    · exact hl
    · have e1 : r1.gy = r2.gy := congrArg (fun p => p.1) heq
      have e2 : r1.gm = r2.gm := congrArg (fun p => p.2.1) heq
      have e3 : r1.gd = r2.gd := congrArg (fun p => p.2.2) heq
      rw [e1, e2, e3] at p3
      omega
    · have := dayNumber_lt_of_dateLt (a := r2.ymd) (b := r1.ymd) q2 p2 q1 hg
      simp only [GregorianResult.ymd] at this
      omega
  have hne : (y1, m1, d1) ≠ (y2, m2, d2) →
      (toGregorian { year := y1, month := m1, day := d1 }).ymd ≠
        (toGregorian { year := y2, month := m2, day := d2 }).ymd := by
    intro hne heq
    rcases dateLt_trichotomy (y1, m1, d1) (y2, m2, d2) with hl | he | hg
    · have hl2 := mono _ _ _ _ _ _ _ _ ha hb s1 s2 s3 t1 t2 t3 hl
      rw [heq] at hl2
      simp only [DateLt] at hl2
      omega
    · exact hne he
    · have hl2 := mono _ _ _ _ _ _ _ _ hb ha t1 t2 t3 s1 s2 s3 hg
      rw [heq] at hl2
      simp only [DateLt] at hl2
      omega
  refine ⟨_, _, ieee_jalaliToGregorian_eq y1 m1 d1 ha h1 hmax1,
    ieee_jalaliToGregorian_eq y2 m2 d2 hb h2 hmax2, ?_, hne, ?_⟩
  · exact mono _ _ _ _ _ _ _ _ ha hb s1 s2 s3 t1 t2 t3
  · intro hn heq
    rw [ieee_jalaliToGregorian_eq y1 m1 d1 ha h1 hmax1,
      ieee_jalaliToGregorian_eq y2 m2 d2 hb h2 hmax2] at heq
    injection heq with heq
    exact hne hn (ofExact_ymd_inj heq)

theorem jalaliToGregorian_strictMono_witness :
    ∃ r1 r2,
      IEEE.jalaliToGregorian (IEEE.JsValue.ofInt 1403) (IEEE.JsValue.ofInt 12)
          (IEEE.JsValue.ofInt 29) = Except.ok (IEEE.GregorianResult.ofExact r1) ∧
      IEEE.jalaliToGregorian (IEEE.JsValue.ofInt 1404) (IEEE.JsValue.ofInt 1)
          (IEEE.JsValue.ofInt 1) = Except.ok (IEEE.GregorianResult.ofExact r2) ∧
      DateLt r1.ymd r2.ymd := by
  obtain ⟨r1, r2, h1, h2, h3, -, -⟩ :=
    jalaliToGregorian_strictMono 1403 12 29 1404 1 1 (by decide) (by decide) (by decide)
      (by decide) (by decide) (by decide)
  exact ⟨r1, r2, h1, h2, h3 (by decide)⟩

end JalaliDateConverter
